import Mathlib

set_option maxHeartbeats 1000000

/-!
Verification development for the spacegame back end.

The definitions below are a shallow embedding of the Python sources:
`turn_resolver.py` (the nine-step turn-resolution pipeline), the
submission and order-creation endpoints of `main.py`, and
`map_generator.py`.  Database tables become lists of records, SQLAlchemy
sessions become explicit state passing, and the process-global random
number generator becomes an explicit stream argument (a pair of
functions giving, for each draw index, the outcome of `random.random() < 0.5`
and the value used by `random.choice`).  Python `int` fields that can go
negative are `Int`; identifiers are `Nat`.
-/

namespace SpaceGame

/-- Structure types stored in the `structures` table (`structure_type` column). -/
inductive StructType where
  | mine
  | shipyard
deriving DecidableEq, Repr

/-- Order types stored in the `orders` table (`order_type` column). -/
inductive OrderType where
  | moveShips
  | buildMine
  | buildShipyard
  | buildShips
deriving DecidableEq, Repr

/-- Turn status (`turns.status`): "active" or "resolved". -/
inductive TurnStatus where
  | active
  | resolved
deriving DecidableEq, Repr

/-- Game status in the admin database (`games.status`). -/
inductive GameStatus where
  | opened
  | active
  | completed
deriving DecidableEq, Repr

/-- Row of `star_systems`.  Coordinates are stored in hundredths (the
generator rounds to two decimals), carried opaquely by the resolver. -/
structure SystemRec where
  systemId : Nat
  name : String
  x : Int
  y : Int
  miningValue : Int
  materials : Int
  clusterId : Int
  isHomeSystem : Bool
  isFoundersWorld : Bool
  ownerPlayerIndex : Option Int
deriving DecidableEq, Repr

/-- Row of `ships`. -/
structure ShipRec where
  shipId : Nat
  systemId : Nat
  playerIndex : Int
  count : Int
deriving DecidableEq, Repr

/-- Row of `structures`. -/
structure StructRec where
  structId : Nat
  systemId : Nat
  playerIndex : Int
  stype : StructType
deriving DecidableEq, Repr

/-- Row of `order_material_sources` (for one order). -/
structure MaterialSourceRec where
  sourceSystemId : Nat
  amount : Int
deriving DecidableEq, Repr

/-- Row of `orders`, with its material-source rows inlined
(`Order.material_sources` relationship). -/
structure OrderRec where
  orderId : Nat
  turnId : Nat
  playerIndex : Int
  otype : OrderType
  sourceSystemId : Nat
  targetSystemId : Option Nat
  quantity : Option Int
  materialSources : List MaterialSourceRec
deriving DecidableEq, Repr

/-- Row of `turns`. -/
structure TurnRec where
  turnId : Nat
  status : TurnStatus
deriving DecidableEq, Repr

/-- Row of `player_turn_status`. -/
structure PtsRec where
  turnId : Nat
  playerIndex : Int
  submitted : Bool
deriving DecidableEq, Repr

/-- One entry of the `combatants_json` list of a combat-log row. -/
structure CombatantRec where
  playerIndex : Int
  shipsBefore : Int
  hitsScored : Int
  shipsAfter : Int
deriving DecidableEq, Repr

/-- Row of `combat_logs`. -/
structure CombatLogRec where
  turnId : Nat
  systemId : Nat
  roundNumber : Nat
  combatants : List CombatantRec
deriving DecidableEq, Repr

/-- Serialized order inside a snapshot (`_snap_orders`): the
`material_sources` key is present only for `build_mine` orders. -/
structure SnapOrderRec where
  orderId : Nat
  turnId : Nat
  playerIndex : Int
  otype : OrderType
  sourceSystemId : Nat
  targetSystemId : Option Nat
  quantity : Option Int
  materialSources : Option (List MaterialSourceRec)
deriving DecidableEq, Repr

/-- Row of `turn_snapshots`, with the JSON dumps kept as structured lists. -/
structure SnapshotRec where
  turnId : Nat
  systems : List SystemRec
  ships : List ShipRec
  structures : List StructRec
  orders : List SnapOrderRec
deriving DecidableEq, Repr

/-- The per-game database (`spacegame_game_{id}`): one list per table, in
row-insertion order, plus the autoincrement counters for the two tables
whose fresh primary keys the resolver observes. -/
structure GameDb where
  systems : List SystemRec
  jumpLines : List (Nat × Nat)
  ships : List ShipRec
  structures : List StructRec
  turns : List TurnRec
  pts : List PtsRec
  orders : List OrderRec
  combatLogs : List CombatLogRec
  snapshots : List SnapshotRec
  nextShipId : Nat
  nextStructId : Nat
  nextOrderId : Nat
deriving DecidableEq, Repr

/-- The admin database rows the resolver touches for one game
(`games.status/current_turn/winner_player_index` and the count of
`game_players` rows). -/
structure AdminDb where
  status : GameStatus
  numPlayers : Nat
  currentTurn : Option Nat
  winnerPlayerIndex : Option Int
deriving DecidableEq, Repr

/-- Update the first list element satisfying `p` (SQLAlchemy `.first()`
followed by an attribute mutation); no-op when none matches. -/
def updateFirst {α : Type} (l : List α) (p : α → Bool) (f : α → α) : List α :=
  match l with
  | [] => []
  | x :: xs => if p x then f x :: xs else x :: updateFirst xs p f

/-- Query `StarSystem.filter(system_id == sid).first()`. -/
def GameDb.findSystem (db : GameDb) (sid : Nat) : Option SystemRec :=
  db.systems.find? (fun s => s.systemId == sid)

/-- Mutate the first `star_systems` row with the given id. -/
def GameDb.updateSystem (db : GameDb) (sid : Nat) (f : SystemRec → SystemRec) : GameDb :=
  { db with systems := updateFirst db.systems (fun s => s.systemId == sid) f }

/-- Query `Ship.filter(system_id == sid, player_index == p).first()`. -/
def GameDb.findShip (db : GameDb) (sid : Nat) (p : Int) : Option ShipRec :=
  db.ships.find? (fun s => s.systemId == sid && s.playerIndex == p)

/-- Embeds `_get_or_create_ship`: returns the (possibly extended) database
and the primary key of the row for `(sid, p)`; a fresh row starts with
`count = 0`. -/
def GameDb.getOrCreateShip (db : GameDb) (sid : Nat) (p : Int) : GameDb × Nat :=
  match db.findShip sid p with
  | some s => (db, s.shipId)
  | none =>
      ({ db with
          ships := db.ships ++ [⟨db.nextShipId, sid, p, 0⟩],
          nextShipId := db.nextShipId + 1 },
        db.nextShipId)

/-- Mutate the count of the ship row with the given primary key. -/
def GameDb.updateShipCount (db : GameDb) (shipId : Nat) (f : Int → Int) : GameDb :=
  { db with ships :=
      updateFirst db.ships (fun s => s.shipId == shipId) (fun s => { s with count := f s.count }) }

/-- Combination used by steps 3-5: `_get_or_create_ship` then mutate the
row's count. -/
def GameDb.modifyShip (db : GameDb) (sid : Nat) (p : Int) (f : Int → Int) : GameDb :=
  let (db, shipId) := db.getOrCreateShip sid p
  db.updateShipCount shipId f

/-- Append a `structures` row (`game_db.add(Structure(...))`). -/
def GameDb.addStructure (db : GameDb) (sid : Nat) (p : Int) (t : StructType) : GameDb :=
  { db with
      structures := db.structures ++ [⟨db.nextStructId, sid, p, t⟩],
      nextStructId := db.nextStructId + 1 }

/-- Step 1 of `resolve_turn` - build mines: for each `build_mine` order add
a mine structure at its source and deduct each donor system's listed
amount. -/
def step1BuildMines (db : GameDb) (orders : List OrderRec) : GameDb :=
  orders.foldl
    (fun db o =>
      if o.otype == OrderType.buildMine then
        let db := db.addStructure o.sourceSystemId o.playerIndex StructType.mine
        o.materialSources.foldl
          (fun db ms =>
            db.updateSystem ms.sourceSystemId
              (fun s => { s with materials := s.materials - ms.amount }))
          db
      else db)
    db

/-- Step 2 - build shipyards: add the structure; deduct 30 materials from
the source system. -/
def step2BuildShipyards (db : GameDb) (orders : List OrderRec) : GameDb :=
  orders.foldl
    (fun db o =>
      if o.otype == OrderType.buildShipyard then
        let db := db.addStructure o.sourceSystemId o.playerIndex StructType.shipyard
        db.updateSystem o.sourceSystemId
          (fun s => { s with materials := s.materials - 30 })
      else db)
    db

/-- Step 3 - build ships: deduct `quantity` materials from the source and
add `quantity` ships to the (source, player) group. -/
def step3BuildShips (db : GameDb) (orders : List OrderRec) : GameDb :=
  orders.foldl
    (fun db o =>
      if o.otype == OrderType.buildShips then
        let q := o.quantity.getD 0
        let db := db.updateSystem o.sourceSystemId
          (fun s => { s with materials := s.materials - q })
        db.modifyShip o.sourceSystemId o.playerIndex (fun c => c + q)
      else db)
    db

/-- Step 4 - move ships: debit the (source, player) group and credit the
(target, player) group. -/
def step4MoveShips (db : GameDb) (orders : List OrderRec) : GameDb :=
  orders.foldl
    (fun db o =>
      if o.otype == OrderType.moveShips then
        let q := o.quantity.getD 0
        let db := db.modifyShip o.sourceSystemId o.playerIndex (fun c => c - q)
        db.modifyShip (o.targetSystemId.getD 0) o.playerIndex (fun c => c + q)
      else db)
    db

/-- The process-global random number generator (Python's `random` module),
abstracted as its stream of observable outcomes: `bits n` is the outcome
of the `n`-th `random.random() < 0.5` comparison, and `picks n` drives the
`n`-th `random.choice` call (reduced modulo the pool length).  The
resolver never seeds this stream; its state at entry is arbitrary. -/
structure Rng where
  bits : Nat → Bool
  picks : Nat → Nat

/-- Python-dict insertion: overwrite in place if the key exists, else
append (preserves key order like a `dict`). -/
def dictInsert (m : List (Int × Int)) (k : Int) (v : Int) : List (Int × Int) :=
  if m.any (fun kv => kv.1 == k) then
    m.map (fun kv => if kv.1 == k then (k, v) else kv)
  else m ++ [(k, v)]

/-- Python-dict lookup with default 0 (`losses.get(p, 0)`; plain `d[p]`
reads are only performed on present keys). -/
def dictGet (m : List (Int × Int)) (k : Int) : Int :=
  match m.find? (fun kv => kv.1 == k) with
  | some kv => kv.2
  | none => 0

/-- Number of hits rolled for `n` ships starting at stream position
`start`: each ship hits when its draw satisfies `random.random() < 0.5`. -/
def countHits (bits : Nat → Bool) (start n : Nat) : Nat :=
  ((List.range n).filter (fun i => bits (start + i))).length

/-- Players of `current` that still have ships
(`active = {p for p in current if current[p] > 0}`), in dict-key order. -/
def activeOf (current : List (Int × Int)) : List Int :=
  (current.filter (fun kv => decide (0 < kv.2))).map (fun kv => kv.1)

/-- Multi-sided loss assignment: for each of `h` hits pick one pool entry
uniformly and add one loss to that entry's side (`random.choice(pool)`);
no RNG value is consumed when the pool is empty.  Returns the updated
losses dict and the advanced pick cursor. -/
def pickTargets (picks : Nat → Nat) (pool : List Int) :
    Nat → List (Int × Int) → Nat → List (Int × Int) × Nat
  | 0, losses, pc => (losses, pc)
  | Nat.succ h, losses, pc =>
      if pool.isEmpty then pickTargets picks pool h losses pc
      else
        let t := pool.getD (picks pc % pool.length) 0
        pickTargets picks pool h (dictInsert losses t (dictGet losses t + 1)) (pc + 1)

/-- One combat round at a system (body of the `while len(active) > 1`
loop): roll hits for every active side, convert hits to losses (the
two-sided and multi-sided cases of the source), clamp at zero, and record
the round's combatant entries.  Returns the updated counts dict, the
combatant list for the log row, and the advanced stream cursors. -/
def combatRound (rng : Rng) (current : List (Int × Int)) (bi pc : Nat) :
    List (Int × Int) × List CombatantRec × Nat × Nat :=
  let active := activeOf current
  let hitsAcc := active.foldl
    (fun (acc : List (Int × Int) × Nat) p =>
      let c := (dictGet current p).toNat
      (dictInsert acc.1 p (Int.ofNat (countHits rng.bits acc.2 c)), acc.2 + c))
    ([], bi)
  let hits := hitsAcc.1
  let bi' := hitsAcc.2
  let lossesPc :=
    match active with
    | [p0, p1] =>
        ([(p0, min (dictGet hits p1) (dictGet current p0)),
          (p1, min (dictGet hits p0) (dictGet current p1))], pc)
    | _ =>
        active.foldl
          (fun (acc : List (Int × Int) × Nat) attacker =>
            let opponents := active.filter
              (fun p => !(p == attacker) && decide (0 < dictGet current p))
            if opponents.isEmpty then acc
            else
              let pool := opponents.flatMap
                (fun p => List.replicate (dictGet current p).toNat p)
              pickTargets rng.picks pool (dictGet hits attacker).toNat acc.1 acc.2)
          (active.map (fun p => (p, (0 : Int))), pc)
  let losses := lossesPc.1
  let pc' := lossesPc.2
  let current' := active.foldl
    (fun cur p => dictInsert cur p (max 0 (dictGet cur p - dictGet losses p)))
    current
  let combatants := active.map
    (fun p => CombatantRec.mk p (dictGet current p) (dictGet hits p) (dictGet current' p))
  (current', combatants, bi', pc')

/-- The per-system combat loop: rounds continue while at least two sides
have ships.  `fuel` bounds the number of rounds; the source's `while`
loop has no such bound, so running out of fuel (`none`) models the
(probability-zero) non-terminating execution. -/
def combatLoop (rng : Rng) (turnId sysId : Nat) :
    Nat → Nat → List (Int × Int) → Nat → Nat → List CombatLogRec →
    Option (List (Int × Int) × List CombatLogRec × Nat × Nat)
  | fuel, roundNum, current, bi, pc, logs =>
    if (activeOf current).length ≤ 1 then some (current, logs, bi, pc)
    else
      match fuel with
      | 0 => none
      | Nat.succ f =>
          let r := combatRound rng current bi pc
          combatLoop rng turnId sysId f (roundNum + 1) r.1 r.2.2.1 r.2.2.2
            (logs ++ [⟨turnId, sysId, roundNum, r.2.1⟩])

/-- Step 5 at one system: fetch the positive-count ship rows, skip when
fewer than two distinct players are present, otherwise run the combat
loop, write the final counts back through `_get_or_create_ship`, and
delete the zero-count rows at this system. -/
def step5One (rng : Rng) (turnId : Nat) (fuel : Nat) (db : GameDb) (sid : Nat)
    (bi pc : Nat) : Option (GameDb × Nat × Nat) :=
  let shipsHere := db.ships.filter (fun s => s.systemId == sid && decide (0 < s.count))
  let playersPresent := (shipsHere.map (fun s => s.playerIndex)).eraseDups
  if playersPresent.length < 2 then some (db, bi, pc)
  else
    let current := shipsHere.foldl (fun m s => dictInsert m s.playerIndex s.count) []
    match combatLoop rng turnId sid fuel 1 current bi pc [] with
    | none => none
    | some (cur', newLogs, bi', pc') =>
        let db := cur'.foldl (fun d kv => d.modifyShip sid kv.1 (fun _ => kv.2)) db
        let db := { db with
          ships := db.ships.filter (fun s => !(s.systemId == sid && s.count == 0)),
          combatLogs := db.combatLogs ++ newLogs }
        some (db, bi', pc')

/-- Step 5 - combat, iterated over the system list fetched at its start
(`all_systems`), threading the global RNG cursors across systems. -/
def step5Combat (rng : Rng) (turnId : Nat) (fuel : Nat) :
    List Nat → GameDb → Nat → Nat → Option (GameDb × Nat × Nat)
  | [], db, bi, pc => some (db, bi, pc)
  | sid :: rest, db, bi, pc =>
      match step5One rng turnId fuel db sid bi pc with
      | none => none
      | some (db', bi', pc') => step5Combat rng turnId fuel rest db' bi' pc'

/-- Step 6 at one system: if exactly one player index has positive-count
ships there and it differs from the current owner, transfer ownership and
every structure at the system to that player. -/
def step6One (db : GameDb) (sid : Nat) : GameDb :=
  let players :=
    ((db.ships.filter (fun s => s.systemId == sid && decide (0 < s.count))).map
      (fun s => s.playerIndex)).eraseDups
  match players with
  | [q] =>
      match db.findSystem sid with
      | none => db
      | some sys =>
          if sys.ownerPlayerIndex == some q then db
          else
            let db := db.updateSystem sid (fun s => { s with ownerPlayerIndex := some q })
            let structures' := db.structures.map
              (fun st => if st.systemId == sid then { st with playerIndex := q } else st)
            { db with structures := structures' }
  | _ => db

/-- Step 6 - ownership changes over all systems. -/
def step6Ownership (db : GameDb) (sids : List Nat) : GameDb :=
  sids.foldl step6One db

/-- Step 7 at one system: an owned system with a mine whose
`player_index` equals the owner gains `mining_value` materials. -/
def step7One (db : GameDb) (sid : Nat) : GameDb :=
  match db.findSystem sid with
  | none => db
  | some sys =>
      match sys.ownerPlayerIndex with
      | none => db
      | some owner =>
          if db.structures.any (fun st =>
              st.systemId == sid && st.stype == StructType.mine && st.playerIndex == owner)
          then db.updateSystem sid (fun s => { s with materials := s.materials + s.miningValue })
          else db

/-- Step 7 - mine production over all systems. -/
def step7Production (db : GameDb) (sids : List Nat) : GameDb :=
  sids.foldl step7One db

/-- Embeds `_snap_orders`: the `material_sources` key is emitted only for
`build_mine` orders. -/
def snapOrders (orders : List OrderRec) : List SnapOrderRec :=
  orders.map (fun o =>
    { orderId := o.orderId, turnId := o.turnId, playerIndex := o.playerIndex,
      otype := o.otype, sourceSystemId := o.sourceSystemId,
      targetSystemId := o.targetSystemId, quantity := o.quantity,
      materialSources :=
        if o.otype == OrderType.buildMine then some o.materialSources else none })

/-- Step 8 - embeds `_save_turn_snapshot`: dump all systems, the
positive-count ship rows, all structures, and the turn's orders. -/
def saveTurnSnapshot (db : GameDb) (turnId : Nat) (orders : List OrderRec) : GameDb :=
  let snap : SnapshotRec :=
    { turnId := turnId,
      systems := db.systems,
      ships := db.ships.filter (fun s => decide (0 < s.count)),
      structures := db.structures,
      orders := snapOrders orders }
  { db with snapshots := db.snapshots ++ [snap] }

/-- Everything `resolve_turn` does before its first `game_db.commit()`:
steps 1-8 and marking the turn resolved.  `none` models a combat loop
that does not finish within `fuel` rounds. -/
def pipelinePhase1 (db : GameDb) (turnId : Nat) (rng : Rng) (fuel : Nat) :
    Option GameDb :=
  let orders := db.orders.filter (fun o => o.turnId == turnId)
  let db := step1BuildMines db orders
  let db := step2BuildShipyards db orders
  let db := step3BuildShips db orders
  let db := step4MoveShips db orders
  let sids := db.systems.map (fun s => s.systemId)
  match step5Combat rng turnId fuel sids db 0 0 with
  | none => none
  | some (db, _, _) =>
      let db := step6Ownership db sids
      let db := step7Production db sids
      let db := saveTurnSnapshot db turnId orders
      let turns' :=
        updateFirst db.turns (fun t => t.turnId == turnId)
          (fun t => { t with status := TurnStatus.resolved })
      some { db with turns := turns' }

/-- Work between the first and second `game_db.commit()`: insert the next
turn as active and a `submitted = false` status row for each player
index 1..player_count. -/
def phase2NextTurn (db : GameDb) (turnId : Nat) (playerCount : Nat) : GameDb :=
  let db := { db with turns := db.turns ++ [⟨turnId + 1, TurnStatus.active⟩] }
  (List.range playerCount).foldl
    (fun d i => { d with pts := d.pts ++ [⟨turnId + 1, Int.ofNat (i + 1), false⟩] })
    db

/-- Admin-database updates before `admin_db.commit()`: advance
`current_turn` and run the victory check (Founder's World owned by an
index that is neither missing nor -1). -/
def phase3Admin (adb : AdminDb) (db : GameDb) (turnId : Nat) : AdminDb :=
  let adb := { adb with currentTurn := some (turnId + 1) }
  match db.systems.find? (fun s => s.isFoundersWorld) with
  | none => adb
  | some fw =>
      match fw.ownerPlayerIndex with
      | none => adb
      | some o =>
          if o == -1 then adb
          else { adb with status := GameStatus.completed, winnerPlayerIndex := some o }

/-- Embeds `resolve_turn` run to completion (all three commits): the
result is the pair of committed databases. -/
def resolve_turn (db : GameDb) (adb : AdminDb) (turnId : Nat) (rng : Rng)
    (fuel : Nat) : Option (GameDb × AdminDb) :=
  match pipelinePhase1 db turnId rng fuel with
  | none => none
  | some db1 =>
      let db2 := phase2NextTurn db1 turnId adb.numPlayers
      some (db2, phase3Admin adb db2 turnId)

/-- Where a resolution attempt stops.  `resolve_turn` issues three
commits (`game_db.commit()` after marking the turn resolved,
`game_db.commit()` after creating the next turn, `admin_db.commit()` at
the end); a failure rolls back only the work since the last commit, since
closing a session discards its uncommitted transaction. -/
inductive FailPoint where
  | duringPipeline
  | afterFirstCommit
  | afterSecondCommit
  | noFailure
deriving DecidableEq, Repr

/-- Committed contents of the two databases after a resolution attempt
that fails at the given point (for fail points after a commit, `none`
means the attempt could not reach that point because a combat loop never
finished). -/
def resolve_turn_committed (db : GameDb) (adb : AdminDb) (turnId : Nat)
    (rng : Rng) (fuel : Nat) : FailPoint → Option (GameDb × AdminDb)
  | FailPoint.duringPipeline => some (db, adb)
  | FailPoint.afterFirstCommit =>
      (pipelinePhase1 db turnId rng fuel).map (fun g => (g, adb))
  | FailPoint.afterSecondCommit =>
      (pipelinePhase1 db turnId rng fuel).map
        (fun g => (phase2NextTurn g turnId adb.numPlayers, adb))
  | FailPoint.noFailure => resolve_turn db adb turnId rng fuel

/-- Outcome of the submit endpoint. -/
inductive SubmitResult where
  | notFound
  | alreadySubmitted
  | ok (playerIndex : Int)
deriving DecidableEq, Repr

/-- Embeds `submit_turn` of `main.py`: look up the player's status row
for the turn (404 when absent, 400 when already submitted), otherwise set
`submitted = true`, commit, and return.  This is the complete body of the
endpoint: it performs no all-players-submitted check and never invokes
the resolver. -/
def submit_turn (db : GameDb) (turnId : Nat) (playerIndex : Int) :
    GameDb × SubmitResult :=
  match db.pts.find? (fun r => r.turnId == turnId && r.playerIndex == playerIndex) with
  | none => (db, SubmitResult.notFound)
  | some r =>
      if r.submitted then (db, SubmitResult.alreadySubmitted)
      else
        let pts' :=
          updateFirst db.pts
            (fun s => s.turnId == turnId && s.playerIndex == playerIndex)
            (fun s => { s with submitted := true })
        ({ db with pts := pts' }, SubmitResult.ok playerIndex)

/-- Body of a `MaterialSourceInput` item in a create-order request. -/
structure MaterialSourceInput where
  systemId : Nat
  amount : Int
deriving DecidableEq, Repr

/-- A create-order request (`CreateOrderRequest`): `order_type` stays a
string as in the source, so the unknown-type branch is representable. -/
structure CreateOrderReq where
  orderType : String
  sourceSystemId : Nat
  targetSystemId : Option Nat
  quantity : Option Int
  materialSources : Option (List MaterialSourceInput)
deriving DecidableEq, Repr

/-- Embeds `_committed_ships_out`: ships already ordered to move out of a
system this turn by this player. -/
def committedShipsOut (db : GameDb) (turnId : Nat) (p : Int) (sid : Nat) : Int :=
  ((db.orders.filter (fun o =>
      o.turnId == turnId && o.playerIndex == p &&
      o.otype == OrderType.moveShips && o.sourceSystemId == sid)).map
    (fun o => o.quantity.getD 0)).sum

/-- Embeds `_committed_materials`: 30 per pending `build_shipyard` from
the system, plus pending `build_ships` quantities from it, plus the
material-source amounts drawn from it by this player's pending orders
this turn (the source's join filters on turn and player only; only
`build_mine` orders carry material-source rows). -/
def committedMaterials (db : GameDb) (turnId : Nat) (p : Int) (sid : Nat) : Int :=
  let yards := (db.orders.filter (fun o =>
      o.turnId == turnId && o.playerIndex == p &&
      o.otype == OrderType.buildShipyard && o.sourceSystemId == sid)).length
  let shipQty := ((db.orders.filter (fun o =>
      o.turnId == turnId && o.playerIndex == p &&
      o.otype == OrderType.buildShips && o.sourceSystemId == sid)).map
    (fun o => o.quantity.getD 0)).sum
  let mineAmt := ((db.orders.filter (fun o =>
      o.turnId == turnId && o.playerIndex == p)).map
    (fun o => ((o.materialSources.filter (fun ms => ms.sourceSystemId == sid)).map
        (fun ms => ms.amount)).sum)).sum
  Int.ofNat yards * 30 + shipQty + mineAmt

/-- Embeds `_are_adjacent`: a jump line joins the two systems in either
orientation. -/
def areAdjacent (db : GameDb) (a b : Nat) : Bool :=
  db.jumpLines.any (fun jl =>
    (jl.1 == a && jl.2 == b) || (jl.1 == b && jl.2 == a))

/-- Embeds `_get_structure` as an existence test (`.first()` followed
only by truthiness checks in `create_order`). -/
def hasStructure (db : GameDb) (sid : Nat) (t : StructType) : Bool :=
  db.structures.any (fun st => st.systemId == sid && st.stype == t)

/-- Embeds `_check_turn_not_submitted`: true exactly when the endpoint
raises "Turn already submitted". -/
def turnAlreadySubmitted (db : GameDb) (turnId : Nat) (p : Int) : Bool :=
  match db.pts.find? (fun r => r.turnId == turnId && r.playerIndex == p) with
  | some r => r.submitted
  | none => false

/-- The per-donor validation loop of the `build_mine` branch, in source
order: donor equals the build system; donor missing or not owned; donor's
available materials below its listed amount. -/
def checkMaterialSources (db : GameDb) (turnId : Nat) (p : Int) (buildSid : Nat) :
    List MaterialSourceInput → Except String Unit
  | [] => Except.ok ()
  | ms :: rest =>
      if ms.systemId == buildSid then
        Except.error "Material source must be a different system than the one being built on"
      else
        match db.findSystem ms.systemId with
        | none => Except.error "System not owned by you"
        | some msSys =>
            if !(msSys.ownerPlayerIndex == some p) then
              Except.error "System not owned by you"
            else
              let availableMat := msSys.materials - committedMaterials db turnId p ms.systemId
              if availableMat < ms.amount then
                Except.error "System only has available materials"
              else checkMaterialSources db turnId p buildSid rest

/-- Append a new order row, consuming the autoincrement id. -/
def GameDb.addOrder (db : GameDb) (turnId : Nat) (p : Int) (t : OrderType)
    (src : Nat) (tgt : Option Nat) (qty : Option Int)
    (ms : List MaterialSourceRec) : GameDb × OrderRec :=
  let o : OrderRec :=
    { orderId := db.nextOrderId, turnId := turnId, playerIndex := p, otype := t,
      sourceSystemId := src, targetSystemId := tgt, quantity := qty,
      materialSources := ms }
  ({ db with orders := db.orders ++ [o], nextOrderId := db.nextOrderId + 1 }, o)

/-- Embeds the body of `create_order` (after the game lookup and player
membership resolution): `Except.error` carries the detail string of the
HTTP 400 raised by the matching source check. -/
def create_order (db : GameDb) (turnId : Nat) (p : Int) (req : CreateOrderReq) :
    Except String (GameDb × OrderRec) :=
  if turnAlreadySubmitted db turnId p then Except.error "Turn already submitted"
  else
    match db.findSystem req.sourceSystemId with
    | none => Except.error "Source system not found"
    | some source =>
      if req.orderType == "move_ships" then
        if !(source.ownerPlayerIndex == some p) then
          Except.error "You do not own the source system"
        else
          match req.targetSystemId with
          | none => Except.error "target_system_id required for move_ships"
          | some tgt =>
            if !(areAdjacent db req.sourceSystemId tgt) then
              Except.error "Target system is not adjacent"
            else
              match req.quantity with
              | none => Except.error "quantity must be at least 1"
              | some q =>
                if q < 1 then Except.error "quantity must be at least 1"
                else
                  let have_ := match db.findShip req.sourceSystemId p with
                    | some s => s.count
                    | none => 0
                  let available := have_ - committedShipsOut db turnId p req.sourceSystemId
                  if available < q then Except.error "Only so many ships available"
                  else Except.ok (db.addOrder turnId p OrderType.moveShips
                    req.sourceSystemId (some tgt) (some q) [])
      else if req.orderType == "build_mine" then
        if !(source.ownerPlayerIndex == some p) then
          Except.error "You do not own the source system"
        else if hasStructure db req.sourceSystemId StructType.mine then
          Except.error "System already has a mine"
        else if db.orders.any (fun o =>
            o.turnId == turnId && o.playerIndex == p &&
            o.otype == OrderType.buildMine &&
            o.sourceSystemId == req.sourceSystemId) then
          Except.error "Already ordered a mine here this turn"
        else
          match req.materialSources with
          | none => Except.error "material_sources required for build_mine"
          | some msList =>
            if msList.isEmpty then
              Except.error "material_sources required for build_mine"
            else if !((msList.map (fun ms => ms.amount)).sum == 15) then
              Except.error "Material sources must sum to 15"
            else
              match checkMaterialSources db turnId p req.sourceSystemId msList with
              | Except.error e => Except.error e
              | Except.ok () =>
                  Except.ok (db.addOrder turnId p OrderType.buildMine
                    req.sourceSystemId none none
                    (msList.map (fun ms => ⟨ms.systemId, ms.amount⟩)))
      else if req.orderType == "build_shipyard" then
        if !(source.ownerPlayerIndex == some p) then
          Except.error "You do not own the source system"
        else if !(hasStructure db req.sourceSystemId StructType.mine) then
          Except.error "System must have an existing mine"
        else if hasStructure db req.sourceSystemId StructType.shipyard then
          Except.error "System already has a shipyard"
        else if db.orders.any (fun o =>
            o.turnId == turnId && o.playerIndex == p &&
            o.otype == OrderType.buildShipyard &&
            o.sourceSystemId == req.sourceSystemId) then
          Except.error "Already ordered a shipyard here this turn"
        else
          let availableMat := source.materials - committedMaterials db turnId p req.sourceSystemId
          if availableMat < 30 then Except.error "Need 30 materials"
          else Except.ok (db.addOrder turnId p OrderType.buildShipyard
            req.sourceSystemId none none [])
      else if req.orderType == "build_ships" then
        if !(source.ownerPlayerIndex == some p) then
          Except.error "You do not own the source system"
        else if !(hasStructure db req.sourceSystemId StructType.mine &&
            hasStructure db req.sourceSystemId StructType.shipyard) then
          Except.error "System must have an existing mine and shipyard"
        else
          match req.quantity with
          | none => Except.error "quantity must be at least 1"
          | some q =>
            if q < 1 then Except.error "quantity must be at least 1"
            else
              let availableMat := source.materials - committedMaterials db turnId p req.sourceSystemId
              if availableMat < q then Except.error "Only so many materials available"
              else Except.ok (db.addOrder turnId p OrderType.buildShips
                req.sourceSystemId none (some q) [])
      else Except.error "Unknown order_type"

/-- An RNG state on which every hit roll misses. -/
def quietRng : Rng := ⟨fun _ => false, fun _ => 0⟩

/-- An RNG state on which every hit roll hits. -/
def hotRng : Rng := ⟨fun _ => true, fun _ => 0⟩

/-- An RNG state on which only the very first hit roll hits. -/
def oneHitRng : Rng := ⟨fun n => n == 0, fun _ => 0⟩

/-- Two-player game database at turn 1 with no orders: both players still
to submit. -/
def submitScenarioDb : GameDb :=
  { systems := [], jumpLines := [], ships := [], structures := [],
    turns := [⟨1, TurnStatus.active⟩],
    pts := [⟨1, 1, false⟩, ⟨1, 2, false⟩],
    orders := [], combatLogs := [], snapshots := [],
    nextShipId := 1, nextStructId := 1, nextOrderId := 1 }

/-- Two systems owned by player 1; a single ship group of five ships at
system 1; one order moving all five ships to system 2. -/
def drainMoveDb : GameDb :=
  { systems :=
      [⟨1, "A", 0, 0, 0, 0, 0, false, false, some 1⟩,
       ⟨2, "B", 100, 0, 0, 0, 0, false, false, none⟩],
    jumpLines := [(1, 2)],
    ships := [⟨1, 1, 1, 5⟩],
    structures := [],
    turns := [⟨1, TurnStatus.active⟩],
    pts := [⟨1, 1, true⟩],
    orders := [⟨1, 1, 1, OrderType.moveShips, 1, some 2, some 5, []⟩],
    combatLogs := [], snapshots := [],
    nextShipId := 2, nextStructId := 1, nextOrderId := 2 }

/-- Admin row for a one-player development game. -/
def soloAdmin : AdminDb :=
  { status := GameStatus.active, numPlayers := 1, currentTurn := some 1,
    winnerPlayerIndex := none }

/-- Admin row for a two-player game. -/
def duoAdmin : AdminDb :=
  { status := GameStatus.active, numPlayers := 2, currentTurn := some 1,
    winnerPlayerIndex := none }

/-- Player 1 owns system 1 (materials 20, mine) and system 2 (materials
0, mining value 5, no structures); no ships anywhere; no orders yet. -/
def mineBuildDb : GameDb :=
  { systems :=
      [⟨1, "A", 0, 0, 5, 20, 0, true, false, some 1⟩,
       ⟨2, "B", 100, 0, 5, 0, 0, false, false, some 1⟩],
    jumpLines := [(1, 2)],
    ships := [],
    structures := [⟨1, 1, 1, StructType.mine⟩],
    turns := [⟨1, TurnStatus.active⟩],
    pts := [⟨1, 1, false⟩],
    orders := [], combatLogs := [], snapshots := [],
    nextShipId := 1, nextStructId := 2, nextOrderId := 1 }

/-- Request: build a mine on system 2 funded by 15 materials from
system 1. -/
def mineBuildReq : CreateOrderReq :=
  { orderType := "build_mine", sourceSystemId := 2, targetSystemId := none,
    quantity := none, materialSources := some [⟨1, 15⟩] }

/-- One unowned system contested by one ship of player 1 and one ship of
player 2; no orders. -/
def contestedDb : GameDb :=
  { systems := [⟨1, "S", 0, 0, 0, 0, 0, false, false, none⟩],
    jumpLines := [],
    ships := [⟨1, 1, 1, 1⟩, ⟨2, 1, 2, 1⟩],
    structures := [],
    turns := [⟨1, TurnStatus.active⟩],
    pts := [⟨1, 1, true⟩, ⟨1, 2, true⟩],
    orders := [], combatLogs := [], snapshots := [],
    nextShipId := 3, nextStructId := 1, nextOrderId := 1 }

/-- Family of mine-build states: player 1 owns system 1 (materials `a`,
mining value `v1`, pre-existing mine) and system 2 (materials 0, mining
value `v2`, no structures); the already-validated order builds a mine on
system 2 funded by 15 materials from system 1. -/
def mineBuildDbP (a v1 v2 : Int) : GameDb :=
  { systems :=
      [⟨1, "A", 0, 0, v1, a, 0, true, false, some 1⟩,
       ⟨2, "B", 100, 0, v2, 0, 0, false, false, some 1⟩],
    jumpLines := [(1, 2)],
    ships := [],
    structures := [⟨1, 1, 1, StructType.mine⟩],
    turns := [⟨1, TurnStatus.active⟩],
    pts := [⟨1, 1, true⟩],
    orders := [⟨1, 1, 1, OrderType.buildMine, 2, none, none, [⟨1, 15⟩]⟩],
    combatLogs := [], snapshots := [],
    nextShipId := 1, nextStructId := 2, nextOrderId := 2 }

/-- Result of running step 5 at the contested system under the
all-hits RNG state (used to witness the combat write-back property). -/
def c5Out : GameDb × Nat × Nat :=
  (step5One hotRng 1 4 contestedDb 1 0 0).getD (contestedDb, 0, 0)

/-- Structure rows located at one system. -/
def structuresAt (db : GameDb) (sid : Nat) : List StructRec :=
  db.structures.filter (fun st => st.systemId == sid)

/-- Deduplicated player indices with positive-count ships at a system
(the resolver's `players_with_ships` set). -/
def playersAt (db : GameDb) (sid : Nat) : List Int :=
  ((db.ships.filter (fun s => s.systemId == sid && decide (0 < s.count))).map
    (fun s => s.playerIndex)).eraseDups

/-- The structure-transfer part of step 6: re-attribute every structure
at the system to the new owner. -/
def transferStructures (d : GameDb) (sid : Nat) (q : Int) : GameDb :=
  let structures' := d.structures.map
    (fun st => if st.systemId == sid then { st with playerIndex := q } else st)
  { d with structures := structures' }

/-- Concrete capture scenario: player 1 owns system 1 and has a mine
there, but only player 2 has ships present after combat. -/
def captureDb : GameDb :=
  { systems := [⟨1, "S", 0, 0, 3, 10, 0, false, false, some 1⟩],
    jumpLines := [],
    ships := [⟨1, 1, 2, 4⟩],
    structures := [⟨1, 1, 1, StructType.mine⟩],
    turns := [⟨1, TurnStatus.active⟩],
    pts := [⟨1, 1, true⟩, ⟨1, 2, true⟩],
    orders := [], combatLogs := [], snapshots := [],
    nextShipId := 2, nextStructId := 2, nextOrderId := 1 }

/-- One donor of a `build_mine` request fails validation: it equals the
build system, is missing or not owned by the player, or has fewer
available (uncommitted) materials than its listed amount. -/
def donorFails (db : GameDb) (turnId : Nat) (p : Int) (buildSid : Nat)
    (ms : MaterialSourceInput) : Prop :=
  ms.systemId = buildSid ∨
  (¬ ∃ sys, db.findSystem ms.systemId = some sys ∧ sys.ownerPlayerIndex = some p) ∨
  (∃ sys, db.findSystem ms.systemId = some sys ∧
    sys.materials - committedMaterials db turnId p ms.systemId < ms.amount)

/-- The claim's list of `build_mine` rejection causes (stated over the
request's donor list; an absent list behaves as the empty list). -/
def buildMineRejected (db : GameDb) (turnId : Nat) (p : Int) (req : CreateOrderReq) : Prop :=
  hasStructure db req.sourceSystemId StructType.mine = true ∨
  (db.orders.any (fun o =>
      o.turnId == turnId && o.playerIndex == p &&
      o.otype == OrderType.buildMine && o.sourceSystemId == req.sourceSystemId)) = true ∨
  req.materialSources = none ∨ req.materialSources = some [] ∨
  ((req.materialSources.getD []).map (fun ms => ms.amount)).sum ≠ 15 ∨
  (∃ ms ∈ req.materialSources.getD [], ms.systemId = req.sourceSystemId) ∨
  (∃ ms ∈ req.materialSources.getD [],
    ¬ ∃ sys, db.findSystem ms.systemId = some sys ∧ sys.ownerPlayerIndex = some p) ∨
  (∃ ms ∈ req.materialSources.getD [], ∃ sys, db.findSystem ms.systemId = some sys ∧
    sys.materials - committedMaterials db turnId p ms.systemId < ms.amount)

/-- Player 1 owns three systems; system 3 (no mine yet) is the build
site, systems 1 and 2 are donors with 10 and 8 materials. -/
def mineReqDb : GameDb :=
  { systems :=
      [⟨1, "A", 0, 0, 5, 10, 0, true, false, some 1⟩,
       ⟨2, "B", 100, 0, 4, 8, 0, false, false, some 1⟩,
       ⟨3, "C", 200, 0, 3, 0, 0, false, false, some 1⟩],
    jumpLines := [(1, 2), (2, 3)],
    ships := [⟨1, 1, 1, 1⟩],
    structures := [⟨1, 1, 1, StructType.mine⟩],
    turns := [⟨1, TurnStatus.active⟩],
    pts := [⟨1, 1, false⟩],
    orders := [], combatLogs := [], snapshots := [],
    nextShipId := 2, nextStructId := 2, nextOrderId := 1 }

/-- A `build_mine` request on system 3 funded by a two-donor split
summing to 15. -/
def twoDonorReq : CreateOrderReq :=
  { orderType := "build_mine", sourceSystemId := 3, targetSystemId := none,
    quantity := none, materialSources := some [⟨1, 7⟩, ⟨2, 8⟩] }

/-- A player index that can legitimately appear on a ship or an owner
slot: the neutral garrison -1 or a real player 1..N. -/
def validPlayerIdx (N : Nat) (i : Int) : Prop :=
  i = -1 ∨ (1 ≤ i ∧ i ≤ (N : Int))

/-- Every ship row carries a valid player index. -/
def PlayersOk (N : Nat) (db : GameDb) : Prop :=
  ∀ s ∈ db.ships, validPlayerIdx N s.playerIndex

/-- Every system is unowned or owned by a valid player index. -/
def OwnersOk (N : Nat) (db : GameDb) : Prop :=
  ∀ sys ∈ db.systems, sys.ownerPlayerIndex = none ∨
    ∃ i, sys.ownerPlayerIndex = some i ∧ validPlayerIdx N i

/-- Every order carries a real player index 1..N. -/
def OrdersOk (N : Nat) (os : List OrderRec) : Prop :=
  ∀ o ∈ os, 1 ≤ o.playerIndex ∧ o.playerIndex ≤ (N : Int)

/-- Owner of the first Founder's World row (what the victory check
reads). -/
def fwOwner (db : GameDb) : Option Int :=
  (db.systems.find? (fun s => s.isFoundersWorld)).bind (fun s => s.ownerPlayerIndex)

/-- Keys of a combat counts dict. -/
def dictKeys (m : List (Int × Int)) : List Int := m.map (fun kv => kv.1)

instance (N : Nat) (i : Int) : Decidable (validPlayerIdx N i) := by
  unfold validPlayerIdx; infer_instance

instance (N : Nat) (db : GameDb) : Decidable (PlayersOk N db) := by
  unfold PlayersOk; infer_instance

instance (N : Nat) (db : GameDb) : Decidable (OwnersOk N db) := by
  unfold OwnersOk; infer_instance

instance (N : Nat) (os : List OrderRec) : Decidable (OrdersOk N os) := by
  unfold OrdersOk; infer_instance

/-- One unowned Founder's World, garrison gone, and three player-1 ships
parked on it; two-player game at turn 1 with no orders. -/
def fwDb : GameDb :=
  { systems := [⟨1, "FW", 800, 600, 5, 0, -1, false, true, none⟩],
    jumpLines := [],
    ships := [⟨1, 1, 1, 3⟩],
    structures := [],
    turns := [⟨1, TurnStatus.active⟩],
    pts := [⟨1, 1, true⟩, ⟨1, 2, true⟩],
    orders := [], combatLogs := [], snapshots := [],
    nextShipId := 2, nextStructId := 1, nextOrderId := 1 }

/-- Result of resolving the Founder's World scenario. -/
def c6Out : GameDb × AdminDb :=
  (resolve_turn fwDb duoAdmin 1 quietRng 4).getD (fwDb, duoAdmin)

/- ====================================================================
Map generator (`map_generator.py`).  The `random.Random(seed)` instance
is abstracted as a stream `Nat → Nat` of raw draws with a cursor:
`randint`/`choice`/`shuffle` consume draws and reduce them modulo the
relevant range, so quantifying over all streams covers all seeds.
==================================================================== -/

/-- An undirected multigraph-free graph in networkx style: node list in
insertion order, edge list in insertion order, at most one edge per
unordered pair. -/
structure Graph where
  nodes : List Nat
  edges : List (Nat × Nat)
deriving DecidableEq, Repr

/-- `G.add_node`: no-op when present. -/
def Graph.addNode (G : Graph) (n : Nat) : Graph :=
  if n ∈ G.nodes then G else { G with nodes := G.nodes ++ [n] }

/-- Edge test in either orientation (`G.has_edge`). -/
def Graph.hasEdge (G : Graph) (a b : Nat) : Bool :=
  G.edges.any (fun e => (e.1 == a && e.2 == b) || (e.1 == b && e.2 == a))

/-- `G.add_edge`: inserts endpoints as nodes, skips an existing edge. -/
def Graph.addEdge (G : Graph) (a b : Nat) : Graph :=
  let G := G.addNode a
  let G := G.addNode b
  if G.hasEdge a b then G else { G with edges := G.edges ++ [(a, b)] }

/-- Degree (`G.degree(n)`); a self-loop counts twice, as in networkx. -/
def Graph.degree (G : Graph) (n : Nat) : Nat :=
  G.edges.foldl
    (fun acc e => acc + (if e.1 = n then 1 else 0) + (if e.2 = n then 1 else 0)) 0

/-- Adjacency as a proposition (either orientation of a stored edge). -/
def Adj (es : List (Nat × Nat)) (a b : Nat) : Prop :=
  (a, b) ∈ es ∨ (b, a) ∈ es

/-- Reachability: reflexive-transitive closure of adjacency. -/
def Reach (es : List (Nat × Nat)) : Nat → Nat → Prop :=
  Relation.ReflTransGen (Adj es)

/-- Connectivity of the generated graph (every node reaches every node). -/
def GraphConnected (G : Graph) : Prop :=
  ∀ a ∈ G.nodes, ∀ b ∈ G.nodes, Reach G.edges a b

/-- Edges stay inside the node list. -/
def Graph.WF (G : Graph) : Prop :=
  ∀ e ∈ G.edges, e.1 ∈ G.nodes ∧ e.2 ∈ G.nodes

/-- Decidable adjacency used by the executable reachability closure. -/
def adjB (es : List (Nat × Nat)) (a b : Nat) : Bool :=
  es.any (fun e => (e.1 == a && e.2 == b) || (e.1 == b && e.2 == a))

/-- One closure expansion step: add every node adjacent to the set. -/
def closeStep (es : List (Nat × Nat)) (nodes : Finset Nat) (S : Finset Nat) : Finset Nat :=
  S ∪ nodes.filter (fun b => ∃ a ∈ S, adjB es a b = true)

/-- Fueled reachability closure from `a`. -/
def reachSet (es : List (Nat × Nat)) (nodes : Finset Nat) (a : Nat) : Nat → Finset Nat
  | 0 => {a}
  | Nat.succ k => closeStep es nodes (reachSet es nodes a k)

/-- Nodes reachable from `a`, listed in node order. -/
def reachList (G : Graph) (a : Nat) : List Nat :=
  G.nodes.filter (fun b => b ∈ reachSet G.edges G.nodes.toFinset a G.nodes.length)

/-- Connected components in first-seen node order
(`nx.connected_components`). -/
def componentsList (G : Graph) : List (List Nat) :=
  G.nodes.foldl
    (fun comps n => if comps.any (fun c => n ∈ c) then comps else comps ++ [reachList G n])
    []

/-- `random.choice` over a nonempty list: one draw, reduced modulo the
length; the default is never used on the call sites (pools are checked
nonempty first). -/
def choiceD {α : Type} (g : Nat → Nat) (c : Nat) (l : List α) (d : α) : α × Nat :=
  (l.getD (g c % l.length) d, c + 1)

/-- `rng.randint(a, b)` (inclusive): one draw reduced into the range. -/
def randintD (g : Nat → Nat) (c : Nat) (a b : Nat) : Nat × Nat :=
  (a + g c % (b - a + 1), c + 1)

/-- `rng.shuffle`: a stream-driven permutation - repeatedly draw an index
and move that element to the front of the remainder.  Only the facts that
the result is a permutation of the input and that the draw count is a
function of the length matter to the verified properties. -/
def shuffleD {α : Type} (g : Nat → Nat) (d : α) : Nat → List α → Nat → List α × Nat
  | 0, _, c => ([], c)
  | Nat.succ fuel, l, c =>
      if l.isEmpty then ([], c)
      else
        let j := g c % l.length
        let x := l.getD j d
        let rest := l.eraseIdx j
        let r := shuffleD g d fuel rest (c + 1)
        (x :: r.1, r.2)

/-- Cluster record produced by `_build_clusters` (`bridge_pair` is set by
the neutral-bridge phase and consumed only by the layout). -/
structure MGCluster where
  id : Nat
  isHomeCluster : Bool
  playerIndex : Option Nat
  systemIds : List Nat
  bridgePair : Option (Nat × Nat)
deriving DecidableEq, Repr

/-- Embeds `_build_clusters`: one home cluster per player, then
`max(1, randint(1, max(1, N/2 + 1)))` neutral clusters. -/
def buildClusters (numPlayers : Nat) (g : Nat → Nat) (c : Nat) :
    List MGCluster × Nat :=
  let homes := (List.range numPlayers).map
    (fun i => MGCluster.mk i true (some (i + 1)) [] none)
  let r := randintD g c 1 (max 1 (numPlayers / 2 + 1))
  let numNeutral := max 1 r.1
  let neutrals := (List.range numNeutral).map
    (fun i => MGCluster.mk (numPlayers + i) false none [] none)
  (homes ++ neutrals, r.2)

/-- Append a fresh system id to the cluster at a list position. -/
def appendIdAt : List MGCluster → Nat → Nat → List MGCluster
  | [], _, _ => []
  | cl :: rest, 0, sid => { cl with systemIds := cl.systemIds ++ [sid] } :: rest
  | cl :: rest, Nat.succ idx, sid => cl :: appendIdAt rest idx sid

/-- Give each cluster its minimum ids (3 per home cluster, 1 per
neutral), consecutively from `next_id`. -/
def reserveIds (perCluster : MGCluster → Nat) :
    List MGCluster → Nat → List MGCluster × Nat
  | [], nextId => ([], nextId)
  | cl :: rest, nextId =>
      let k := perCluster cl
      let r := reserveIds perCluster rest (nextId + k)
      ({ cl with systemIds :=
          cl.systemIds ++ (List.range k).map (fun j => nextId + j) } :: r.1, r.2)

/-- The `for _ in range(max(0, remaining))` loop of `_distribute_systems`:
each leftover system id goes to a uniformly chosen cluster. -/
def distributeExtras (g : Nat → Nat) :
    Nat → List MGCluster → Nat → Nat → List MGCluster × Nat
  | 0, cs, _, c => (cs, c)
  | Nat.succ m, cs, nid, c =>
      let idx := g c % cs.length
      distributeExtras g m (appendIdAt cs idx nid) (nid + 1) (c + 1)

/-- Embeds `_distribute_systems`: 3 reserved ids per home cluster, 1 per
neutral cluster, then the remaining ids go to uniformly chosen clusters. -/
def distributeSystems (numSystems : Nat) (clusters : List MGCluster)
    (g : Nat → Nat) (c : Nat) : List MGCluster × Nat :=
  let players := clusters.filter (fun cl => cl.isHomeCluster)
  let neutrals := clusters.filter (fun cl => !cl.isHomeCluster)
  let rp := reserveIds (fun _ => 3) players 1
  let rn := reserveIds (fun _ => 1) neutrals rp.2
  let reserved := 1 + 3 * players.length + 1 * neutrals.length
  let remaining := numSystems - reserved
  distributeExtras g remaining (rp.1 ++ rn.1) rn.2 c

/-- Default cluster for list lookups (never used on the call sites:
indices are in range and shuffles get nonempty lists). -/
def dfltCluster : MGCluster := MGCluster.mk 0 false none [] none

/-- The spanning path over the shuffled cluster ids
(`G.add_edge(ids[i-1], ids[i])` for `i in range(1, len(ids))`). -/
def addPathEdges (G : Graph) : List Nat → Graph
  | [] => G
  | [_] => G
  | a :: b :: rest => addPathEdges (G.addEdge a b) (b :: rest)

/-- The ordered candidate pairs for an extra intra-cluster edge:
`(a, b)` over the shuffled ids with `a < b`, no existing edge, both
degrees under 4. -/
def intraCandidates (G : Graph) (ids : List Nat) : List (Nat × Nat) :=
  (ids.map (fun a =>
    (ids.filter (fun b =>
      decide (a < b) && !(G.hasEdge a b) &&
      decide (G.degree a < 4) && decide (G.degree b < 4))).map
      (fun b => (a, b)))).flatten

/-- The `for _ in range(max_extra)` loop adding extra intra-cluster
edges, breaking when no candidates remain. -/
def intraExtras (g : Nat → Nat) (ids : List Nat) :
    Nat → Graph → Nat → Graph × Nat
  | 0, G, c => (G, c)
  | Nat.succ k, G, c =>
      let cands := intraCandidates G ids
      if cands.isEmpty then (G, c)
      else
        let r := choiceD g c cands (0, 0)
        intraExtras g ids k (G.addEdge r.1.1 r.1.2) r.2

/-- One cluster of the intra-cluster phase: skip below 2 ids, else
shuffle, lay the spanning path, then up to `max_extra` guarded extras. -/
def intraCluster (g : Nat → Nat) (st : Graph × Nat) (cl : MGCluster) :
    Graph × Nat :=
  let ids0 := cl.systemIds
  if ids0.length < 2 then st
  else
    let sh := shuffleD g 0 ids0.length ids0 st.2
    let ids := sh.1
    let G := addPathEdges st.1 ids
    let maxExtra := min 2 (ids.length * (ids.length - 1) / 2 - (ids.length - 1))
    intraExtras g ids maxExtra G sh.2

/-- The player-cluster ring: for each `i`, one edge between under-degree
systems of ring neighbours `i` and `i+1` when both sides have
candidates. -/
def ringPhase (g : Nat → Nat) (pcl : List MGCluster) (G : Graph) (c : Nat) :
    Graph × Nat :=
  (List.range pcl.length).foldl
    (fun (st : Graph × Nat) i =>
      let c1 := pcl.getD i dfltCluster
      let c2 := pcl.getD ((i + 1) % pcl.length) dfltCluster
      let cands1 := c1.systemIds.filter (fun s => st.1.degree s < 4)
      let cands2 := c2.systemIds.filter (fun s => st.1.degree s < 4)
      if cands1.isEmpty || cands2.isEmpty then st
      else
        let ra := choiceD g st.2 cands1 0
        let rb := choiceD g ra.2 cands2 0
        (st.1.addEdge ra.1 rb.1, rb.2))
    (G, c)

/-- One neutral-to-player bridge attempt (`for pc in [pc1, pc2]` body). -/
def bridgeTo (g : Nat → Nat) (neutral : MGCluster) (st : Graph × Nat)
    (pc : MGCluster) : Graph × Nat :=
  let ncC := neutral.systemIds.filter (fun s => st.1.degree s < 4)
  let pcC := pc.systemIds.filter (fun s => st.1.degree s < 4)
  if ncC.isEmpty || pcC.isEmpty then st
  else
    let ra := choiceD g st.2 ncC 0
    let rb := choiceD g ra.2 pcC 0
    if st.1.hasEdge ra.1 rb.1 then (st.1, rb.2)
    else (st.1.addEdge ra.1 rb.1, rb.2)

/-- The neutral-bridge phase: neutral cluster `i` bridges ring
neighbours `i % n` and `(i+1) % n`; also records each `bridge_pair`
(consumed only by the layout). -/
def bridgePhase (g : Nat → Nat) (pcl ncl : List MGCluster) (G : Graph)
    (c : Nat) : (Graph × Nat) × List (Nat × (Nat × Nat)) :=
  ncl.enum.foldl
    (fun (acc : (Graph × Nat) × List (Nat × (Nat × Nat))) p =>
      let i := p.1
      let neutral := p.2
      let pc1 := pcl.getD (i % pcl.length) dfltCluster
      let pc2 := pcl.getD ((i + 1) % pcl.length) dfltCluster
      let st := (bridgeTo g neutral · pc2) (bridgeTo g neutral acc.1 pc1)
      (st, acc.2 ++ [(neutral.id, (pc1.id, pc2.id))]))
    ((G, c), [])

/-- Founder's World spokes: walk the clusters, stopping once node 0 has
degree 4, adding an edge from 0 to a chosen under-degree system. -/
def fwSpokes (g : Nat → Nat) : List MGCluster → Graph × Nat → Graph × Nat
  | [], st => st
  | cl :: rest, st =>
      if 4 ≤ st.1.degree 0 then st
      else
        let cands := cl.systemIds.filter (fun s => st.1.degree s < 4)
        if cands.isEmpty then fwSpokes g rest st
        else
          let r := choiceD g st.2 cands 0
          fwSpokes g rest (st.1.addEdge 0 r.1, r.2)

/-- Forced Founder's World edge when node 0 is still isolated. -/
def forceFw (g : Nat → Nat) (st : Graph × Nat) : Graph × Nat :=
  if st.1.degree 0 = 0 then
    let all := st.1.nodes.filter (fun n => decide (n ≠ 0) && decide (st.1.degree n < 4))
    if all.isEmpty then st
    else
      let r := choiceD g st.2 all 0
      (st.1.addEdge 0 r.1, r.2)
  else st

/-- The connectivity-repair loop: while more than one component, bridge
the first two, preferring under-degree endpoints; the fallback branch
(no under-degree candidates on either side) is recorded in the flag. -/
def repairLoop (g : Nat → Nat) : Nat → Graph → Nat → Bool → Graph × Nat × Bool
  | 0, G, c, fb => (G, c, fb)
  | Nat.succ fuel, G, c, fb =>
      match componentsList G with
      | [] => (G, c, fb)
      | [_] => (G, c, fb)
      | ca :: cb :: _ =>
          let candsA := ca.filter (fun n => G.degree n < 4)
          let candsB := cb.filter (fun n => G.degree n < 4)
          if !candsA.isEmpty && !candsB.isEmpty then
            let ra := choiceD g c candsA 0
            let rb := choiceD g ra.2 candsB 0
            repairLoop g fuel (G.addEdge ra.1 rb.1) rb.2 fb
          else
            let ra := choiceD g c ca 0
            let rb := choiceD g ra.2 cb 0
            repairLoop g fuel (G.addEdge ra.1 rb.1) rb.2 true

/-- Record a neutral cluster's bridge pair (consumed only by the
layout). -/
def setBridge (pairs : List (Nat × (Nat × Nat))) (cl : MGCluster) : MGCluster :=
  match pairs.find? (fun q => q.1 == cl.id) with
  | some q => { cl with bridgePair := some q.2 }
  | none => cl

/-- Result of `_build_graph`, plus the clusters with their recorded
bridge pairs and the degree-fallback flag of the repair loop. -/
structure BuildOut where
  graph : Graph
  cur : Nat
  fallback : Bool
  clusters : List MGCluster
deriving Repr

/-- Embeds `_build_graph`: nodes, intra-cluster paths and extras, the
shuffled player ring, neutral bridges, Founder's World spokes, the
forced edge, then the repair loop. -/
def buildGraph (clusters : List MGCluster) (g : Nat → Nat) (c : Nat) :
    BuildOut :=
  let G0 := clusters.foldl
    (fun G cl => cl.systemIds.foldl Graph.addNode G)
    ((Graph.mk [] []).addNode 0)
  let afterIntra := clusters.foldl (intraCluster g) (G0, c)
  let pcl := clusters.filter (fun cl => cl.isHomeCluster)
  let ncl := clusters.filter (fun cl => !cl.isHomeCluster)
  let sh := shuffleD g dfltCluster pcl.length pcl afterIntra.2
  let afterRing := ringPhase g sh.1 afterIntra.1 sh.2
  let afterBridge := bridgePhase g sh.1 ncl afterRing.1 afterRing.2
  let afterSpokes := fwSpokes g clusters afterBridge.1
  let afterForce := forceFw g afterSpokes
  let n := afterForce.1.nodes.length
  let rep := repairLoop g (n * n + 1) afterForce.1 afterForce.2 false
  let withBridges := clusters.map (setBridge afterBridge.2)
  BuildOut.mk rep.1 rep.2.1 rep.2.2 withBridges

/-- The safe nodes for a player: Founder's World, every neutral-cluster
system, and the player's own home-cluster systems (`system_owner` is
`None` or the player). -/
def safeNodesFor (clusters : List MGCluster) (p : Nat) : List Nat :=
  0 :: (clusters.map (fun cl =>
    if !cl.isHomeCluster || cl.playerIndex == some p then cl.systemIds else [])).flatten

/-- The safe subgraph's edges: both endpoints safe. -/
def safeEdges (G : Graph) (safe : List Nat) : List (Nat × Nat) :=
  G.edges.filter (fun e => decide (e.1 ∈ safe) && decide (e.2 ∈ safe))

/-- Safe-subgraph component of `a`, in node order. -/
def safeReachList (G : Graph) (safe : List Nat) (a : Nat) : List Nat :=
  let nodesF := (G.nodes.filter (fun n => decide (n ∈ safe))).toFinset
  G.nodes.filter (fun b => b ∈ reachSet (safeEdges G safe) nodesF a G.nodes.length)

/-- First element minimising `f` (Python `min(..., key=f)`). -/
def argminBy {α : Type} (f : α → Nat) : List α → Option α
  | [] => none
  | x :: xs => some (xs.foldl (fun best y => if f y < f best then y else best) x)

/-- One player of `_ensure_safe_paths`: if the player's home does not
reach Founder's World inside the safe subgraph, bridge the two safe
components - by the degree-minimal non-edge under-degree pair when one
exists, else (fallback, flag set) by the first non-edge pair. -/
def safeBridge (G : Graph) (safe : List Nat) (home : Nat) (fb : Bool) :
    Graph × Bool :=
  let pr := safeReachList G safe home
  if 0 ∈ pr then (G, fb)
  else
    let fw := safeReachList G safe 0
    let cands := (pr.map (fun a =>
      (fw.filter (fun b =>
        decide (G.degree a < 4) && decide (G.degree b < 4) &&
        !(G.hasEdge a b))).map (fun b => (a, b)))).flatten
    match argminBy (fun q => G.degree q.1 + G.degree q.2) cands with
    | some q => (G.addEdge q.1 q.2, fb)
    | none =>
        match ((pr.map (fun a =>
          (fw.filter (fun b => !(G.hasEdge a b))).map (fun b => (a, b)))).flatten).head? with
        | some q => (G.addEdge q.1 q.2, true)
        | none => (G, fb)

/-- One player of `_ensure_safe_paths`, dispatching on its safe set. -/
def safePathOne (clusters : List MGCluster) (st : Graph × Bool)
    (ph : Nat × Nat) : Graph × Bool :=
  safeBridge st.1 (safeNodesFor clusters ph.1) ph.2 st.2

/-- The `(player_index, home_id)` pairs, in cluster order. -/
def playerHomes (clusters : List MGCluster) : List (Nat × Nat) :=
  clusters.filterMap (fun cl =>
    if cl.isHomeCluster then
      match cl.systemIds.head? with
      | some h => some (cl.playerIndex.getD 0, h)
      | none => none
    else none)

/-- Embeds `_ensure_safe_paths` (it draws nothing from the rng). -/
def ensureSafePaths (clusters : List MGCluster) (G : Graph) (fb : Bool) :
    Graph × Bool :=
  (playerHomes clusters).foldl (safePathOne clusters) (G, fb)

/-- The star-name pool of the generator. -/
def STAR_NAMES : List String :=
  ["Sol", "Alpha Centauri", "Sirius", "Vega", "Arcturus", "Rigel",
   "Betelgeuse", "Procyon", "Altair", "Deneb", "Polaris", "Capella",
   "Aldebaran", "Antares", "Spica", "Regulus", "Castor", "Pollux",
   "Fomalhaut", "Canopus", "Achernar", "Bellatrix", "Elnath", "Mintaka",
   "Alnitak", "Alnilam", "Saiph", "Mira", "Rasalhague", "Kochab",
   "Dubhe", "Merak", "Phecda", "Megrez", "Alioth", "Alkaid", "Thuban",
   "Etamin", "Rastaban", "Alderamin", "Schedar", "Caph", "Mirfak",
   "Algol", "Hamal", "Sheratan", "Menkar", "Zaurak", "Rana", "Cursa",
   "Arneb", "Nihal", "Wezen", "Aludra", "Furud", "Mirzam", "Naos",
   "Regor", "Avior", "Aspidiske", "Miaplacidus", "Atria", "Peacock",
   "Alnair", "Ankaa", "Diphda", "Markab", "Algenib", "Enif", "Biham",
   "Sadalmelik", "Sadalsuud", "Skat", "Nashira", "Dabih", "Algedi",
   "Nunki", "Kaus Australis", "Sargas", "Shaula", "Lesath", "Graffias",
   "Dschubba", "Zubenelgenubi", "Zubeneschamali", "Unukalhai", "Kornephoros",
   "Yed Prior", "Sabik", "Cebalrai", "Marfik", "Tarazed", "Sadr",
   "Gienah", "Albireo", "Sualocin", "Rotanev", "Alphecca", "Gemma"]

/-- Embeds `_assign_names`: shuffle the pool, index 0 is Founder's
World, index `i` gets the `i-1`-th shuffled name or a generated one. -/
def assignNames (numSystems : Nat) (g : Nat → Nat) (c : Nat) :
    List String × Nat :=
  let sh := shuffleD g "" STAR_NAMES.length STAR_NAMES c
  let names := sh.1
  ("Founder's World" ::
    (List.range (numSystems - 1)).map (fun j =>
      let i := j + 1
      if i - 1 < names.length then names.getD (i - 1) "" else s!"System {i}"),
   sh.2)

/-- `_roll_mining_value`: 2d6 - 2. -/
def rollMiningValue (g : Nat → Nat) (c : Nat) : Int × Nat :=
  let r1 := randintD g c 1 6
  let r2 := randintD g r1.2 1 6
  ((r1.1 : Int) + (r2.1 : Int) - 2, r2.2)

/-- Mining values per node, drawn in node-insertion order; Founder's
World and home systems are fixed at 5. -/
def miningValues (G : Graph) (homeIds : List Nat) (g : Nat → Nat) (c : Nat) :
    List (Nat × Int) × Nat :=
  G.nodes.foldl
    (fun (acc : List (Nat × Int) × Nat) n =>
      if n = 0 then (acc.1 ++ [(n, 5)], acc.2)
      else if n ∈ homeIds then (acc.1 ++ [(n, 5)], acc.2)
      else
        let r := rollMiningValue g acc.2
        (acc.1 ++ [(n, r.1)], r.2))
    ([], c)

/-- One systems-list entry of the returned map. -/
structure GenSystem where
  id : Nat
  name : String
  x : Int
  y : Int
  miningValue : Int
  materials : Int
  clusterId : Int
  isHomeSystem : Bool
  isFoundersWorld : Bool
  ownerPlayerIndex : Option Nat
deriving DecidableEq, Repr

/-- One clusters-list entry of the returned map. -/
structure GenCluster where
  id : Nat
  isHomeCluster : Bool
  playerIndex : Option Nat
  systemIds : List Nat
deriving DecidableEq, Repr

/-- The returned map; `graph` and `fallback` additionally expose the
generator's internal graph and whether a degree fallback fired, for the
stated invariants. -/
structure GenMap where
  systems : List GenSystem
  jumpLines : List (Nat × Nat)
  clusters : List GenCluster
  graph : Graph
  fallback : Bool
deriving Repr

/-- First system of each home cluster (`home_system_ids`). -/
def homeSystemIds (clusters : List MGCluster) : List Nat :=
  clusters.filterMap (fun cl =>
    if cl.isHomeCluster then cl.systemIds.head? else none)

/-- `system_cluster` lookup: 0 maps to -1, a system to its cluster id. -/
def systemClusterId (clusters : List MGCluster) (nid : Nat) : Int :=
  if nid = 0 then -1
  else
    match clusters.find? (fun cl => decide (nid ∈ cl.systemIds)) with
    | some cl => (cl.id : Int)
    | none => -1

/-- Owner of a home system: the player of the home cluster holding it. -/
def homeOwner (clusters : List MGCluster) (nid : Nat) : Option Nat :=
  match clusters.find? (fun cl => cl.isHomeCluster && decide (nid ∈ cl.systemIds)) with
  | some cl => cl.playerIndex
  | none => none

/-- The layout is pure float arithmetic over the graph, the clusters
(with bridge pairs) and the rng draws; it is abstracted as a function of
exactly those inputs, returning rounded coordinate pairs. -/
def LayoutFn : Type :=
  Graph → List MGCluster → (Nat → Nat) → Nat → Nat → Int × Int

/-- Embeds `generate_map` given the raw draw stream (`random.Random(seed)`
abstracted): sizes, clusters, distribution, graph, safe paths, layout,
names, mining values, and the assembled systems, jump lines, clusters. -/
def generateMapFromStream (layoutFn : LayoutFn) (numPlayers : Nat)
    (g : Nat → Nat) : GenMap :=
  let r0 := randintD g 0 (4 * numPlayers) (7 * numPlayers)
  let numSystems := r0.1 + 1
  let bc := buildClusters numPlayers g r0.2
  let ds := distributeSystems numSystems bc.1 g bc.2
  let bg := buildGraph ds.1 g ds.2
  let sp := ensureSafePaths bg.clusters bg.graph bg.fallback
  let G := sp.1
  let positions := layoutFn G bg.clusters g bg.cur
  let totalSids := (bg.clusters.map (fun cl => cl.systemIds.length)).foldl (· + ·) 0
  let cLayout := bg.cur + 2 * totalSids + 1
  let an := assignNames numSystems g cLayout
  let homeIds := homeSystemIds bg.clusters
  let mv := miningValues G homeIds g an.2
  let systems := (G.nodes.insertionSort (· ≤ ·)).map (fun nid =>
    GenSystem.mk nid (an.1.getD nid "") (positions nid).1 (positions nid).2
      (((mv.1.find? (fun q => q.1 == nid)).map Prod.snd).getD 0) 0
      (systemClusterId bg.clusters nid)
      (decide (nid ∈ homeIds)) (decide (nid = 0))
      (if nid ∈ homeIds then homeOwner bg.clusters nid else none))
  let jumpLines := (G.edges.map (fun e => (min e.1 e.2, max e.1 e.2))).insertionSort
    (fun p q => p.1 < q.1 ∨ (p.1 = q.1 ∧ p.2 ≤ q.2))
  let clusterInfo := bg.clusters.map (fun cl =>
    GenCluster.mk cl.id cl.isHomeCluster cl.playerIndex
      (cl.systemIds.insertionSort (· ≤ ·)))
  GenMap.mk systems jumpLines clusterInfo G sp.2

/-- `generate_map(num_players, seed)`: `random.Random(seed)` is the
per-seed stream `prng seed`; `random.Random(None)` is the ambient
entropy `world`. -/
def generate_map (prng : Nat → Nat → Nat) (layoutFn : LayoutFn)
    (numPlayers : Nat) (seed : Option Nat) (world : Nat → Nat) : GenMap :=
  match seed with
  | some s => generateMapFromStream layoutFn numPlayers (prng s)
  | none => generateMapFromStream layoutFn numPlayers world

/-- Degree as a function of the edge list alone. -/
def degE (es : List (Nat × Nat)) (n : Nat) : Nat :=
  es.foldl
    (fun acc e => acc + (if e.1 = n then 1 else 0) + (if e.2 = n then 1 else 0)) 0

/-- All degrees within the 4-cap. -/
def DegLe4 (G : Graph) : Prop := ∀ n, G.degree n ≤ 4

/-- The component list invariant: every component is the closure of a
representative node, and members of distinct components never reach one
another. -/
def compsOk (G : Graph) (comps : List (List Nat)) : Prop :=
  (∀ c ∈ comps, ∃ r ∈ G.nodes, c = reachList G r) ∧
  List.Pairwise (fun c d => ∀ x ∈ c, ∀ y ∈ d, ¬ Reach G.edges x y) comps

/-- Count of ordered node pairs not yet connected: the strictly
decreasing measure of the repair loop. -/
def unlinkedSet (G : Graph) : Finset (Nat × Nat) :=
  (G.nodes.toFinset ×ˢ G.nodes.toFinset).filter
    (fun p : Nat × Nat =>
      p.2 ∉ reachSet G.edges G.nodes.toFinset p.1 G.nodes.length)

/-- Its cardinality, the decreasing measure. -/
def unlinked (G : Graph) : Nat := (unlinkedSet G).card

/-- What the intra-cluster degree argument needs of the distributed
clusters: per-cluster ids without duplicates, never 0, home clusters
carrying a player, and no id shared between two clusters. -/
def ClustersOk (cs : List MGCluster) : Prop :=
  (∀ cl ∈ cs, cl.systemIds.Nodup ∧ 0 ∉ cl.systemIds ∧
    (cl.isHomeCluster = true → cl.playerIndex.isSome = true)) ∧
  List.Pairwise (fun c1 c2 => ∀ x ∈ c1.systemIds, x ∉ c2.systemIds) cs

/- ====================================================================
Theorems.
==================================================================== -/

/-- Fold invariant: a projection untouched by every step of a fold is
untouched by the whole fold. -/
theorem foldl_proj_eq {α β γ : Type} (proj : β → α) (g : β → γ → β)
    (l : List γ) (b : β) (h : ∀ b x, proj (g b x) = proj b) :
    proj (l.foldl g b) = proj b := by
  induction l generalizing b with
  | nil => rfl
  | cons x xs ih => rw [List.foldl_cons, ih, h]

/-- If some element of the list satisfies `p`, then after `updateFirst`
the list contains an image under `f` of an element satisfying `p`. -/
theorem updateFirst_exists {α : Type} {l : List α} {p : α → Bool} {f : α → α}
    {Q : α → Prop} (hx : ∃ x ∈ l, p x = true) (hf : ∀ x, p x = true → Q (f x)) :
    ∃ y ∈ updateFirst l p f, Q y := by
  induction l with
  | nil => simp at hx
  | cons a l ih =>
    by_cases hpa : p a = true
    · exact ⟨f a, by simp [updateFirst, hpa], hf a hpa⟩
    · obtain ⟨x, hxl, hpx⟩ := hx
      rcases List.mem_cons.mp hxl with rfl | hxl
      · exact absurd hpx hpa
      · obtain ⟨y, hy, hQ⟩ := ih ⟨x, hxl, hpx⟩
        refine ⟨y, ?_, hQ⟩
        simp [updateFirst, hpa]
        exact Or.inr hy

@[simp]
theorem updateSystem_turns (db : GameDb) (sid : Nat) (f : SystemRec → SystemRec) :
    (db.updateSystem sid f).turns = db.turns := rfl

@[simp]
theorem updateSystem_snapshots (db : GameDb) (sid : Nat) (f : SystemRec → SystemRec) :
    (db.updateSystem sid f).snapshots = db.snapshots := rfl

@[simp]
theorem addStructure_turns (db : GameDb) (sid : Nat) (p : Int) (t : StructType) :
    (db.addStructure sid p t).turns = db.turns := rfl

@[simp]
theorem addStructure_snapshots (db : GameDb) (sid : Nat) (p : Int) (t : StructType) :
    (db.addStructure sid p t).snapshots = db.snapshots := rfl

@[simp]
theorem modifyShip_turns (db : GameDb) (sid : Nat) (p : Int) (f : Int → Int) :
    (db.modifyShip sid p f).turns = db.turns := by
  unfold GameDb.modifyShip GameDb.getOrCreateShip
  cases db.findShip sid p <;> rfl

@[simp]
theorem modifyShip_snapshots (db : GameDb) (sid : Nat) (p : Int) (f : Int → Int) :
    (db.modifyShip sid p f).snapshots = db.snapshots := by
  unfold GameDb.modifyShip GameDb.getOrCreateShip
  cases db.findShip sid p <;> rfl

theorem step1_turns (db : GameDb) (os : List OrderRec) :
    (step1BuildMines db os).turns = db.turns := by
  refine foldl_proj_eq _ _ _ _ (fun b o => ?_)
  by_cases h : o.otype == OrderType.buildMine
  · simp only [step1BuildMines, h, if_pos]
    refine Eq.trans (foldl_proj_eq _ _ _ _ (fun b ms => ?_)) ?_ <;> simp
  · simp [h]

theorem step1_snapshots (db : GameDb) (os : List OrderRec) :
    (step1BuildMines db os).snapshots = db.snapshots := by
  refine foldl_proj_eq _ _ _ _ (fun b o => ?_)
  by_cases h : o.otype == OrderType.buildMine
  · simp only [step1BuildMines, h, if_pos]
    refine Eq.trans (foldl_proj_eq _ _ _ _ (fun b ms => ?_)) ?_ <;> simp
  · simp [h]

theorem step2_turns (db : GameDb) (os : List OrderRec) :
    (step2BuildShipyards db os).turns = db.turns := by
  refine foldl_proj_eq _ _ _ _ (fun b o => ?_)
  by_cases h : o.otype == OrderType.buildShipyard <;> simp [h]

theorem step2_snapshots (db : GameDb) (os : List OrderRec) :
    (step2BuildShipyards db os).snapshots = db.snapshots := by
  refine foldl_proj_eq _ _ _ _ (fun b o => ?_)
  by_cases h : o.otype == OrderType.buildShipyard <;> simp [h]

theorem step3_turns (db : GameDb) (os : List OrderRec) :
    (step3BuildShips db os).turns = db.turns := by
  refine foldl_proj_eq _ _ _ _ (fun b o => ?_)
  by_cases h : o.otype == OrderType.buildShips <;> simp [h]

theorem step3_snapshots (db : GameDb) (os : List OrderRec) :
    (step3BuildShips db os).snapshots = db.snapshots := by
  refine foldl_proj_eq _ _ _ _ (fun b o => ?_)
  by_cases h : o.otype == OrderType.buildShips <;> simp [h]

theorem step4_turns (db : GameDb) (os : List OrderRec) :
    (step4MoveShips db os).turns = db.turns := by
  refine foldl_proj_eq _ _ _ _ (fun b o => ?_)
  by_cases h : o.otype == OrderType.moveShips <;> simp [h]

theorem step4_snapshots (db : GameDb) (os : List OrderRec) :
    (step4MoveShips db os).snapshots = db.snapshots := by
  refine foldl_proj_eq _ _ _ _ (fun b o => ?_)
  by_cases h : o.otype == OrderType.moveShips <;> simp [h]

theorem step5One_turns (rng : Rng) (turnId fuel : Nat) (db : GameDb) (sid bi pc : Nat)
    (db' : GameDb) (bi' pc' : Nat)
    (h : step5One rng turnId fuel db sid bi pc = some (db', bi', pc')) :
    db'.turns = db.turns := by
  unfold step5One at h
  by_cases hp :
      (((db.ships.filter (fun s => s.systemId == sid && decide (0 < s.count))).map
        (fun s => s.playerIndex)).eraseDups).length < 2
  · simp only [if_pos hp] at h
    cases h; rfl
  · simp only [if_neg hp] at h
    cases hcl : combatLoop rng turnId sid fuel 1
        ((db.ships.filter (fun s => s.systemId == sid && decide (0 < s.count))).foldl
          (fun m s => dictInsert m s.playerIndex s.count) []) bi pc [] with
    | none => rw [hcl] at h; cases h
    | some r =>
        obtain ⟨cur', newLogs, nbi, npc⟩ := r
        rw [hcl] at h
        simp only [Option.some.injEq, Prod.mk.injEq] at h
        obtain ⟨hdb, -, -⟩ := h
        subst hdb
        have : ∀ (d : GameDb) (kv : Int × Int),
            (d.modifyShip sid kv.1 (fun _ => kv.2)).turns = d.turns := by
          intro d kv; simp
        simpa using foldl_proj_eq GameDb.turns
          (fun d kv => d.modifyShip sid kv.1 (fun _ => kv.2)) cur' db this

theorem step5One_snapshots (rng : Rng) (turnId fuel : Nat) (db : GameDb) (sid bi pc : Nat)
    (db' : GameDb) (bi' pc' : Nat)
    (h : step5One rng turnId fuel db sid bi pc = some (db', bi', pc')) :
    db'.snapshots = db.snapshots := by
  unfold step5One at h
  by_cases hp :
      (((db.ships.filter (fun s => s.systemId == sid && decide (0 < s.count))).map
        (fun s => s.playerIndex)).eraseDups).length < 2
  · simp only [if_pos hp] at h
    cases h; rfl
  · simp only [if_neg hp] at h
    cases hcl : combatLoop rng turnId sid fuel 1
        ((db.ships.filter (fun s => s.systemId == sid && decide (0 < s.count))).foldl
          (fun m s => dictInsert m s.playerIndex s.count) []) bi pc [] with
    | none => rw [hcl] at h; cases h
    | some r =>
        obtain ⟨cur', newLogs, nbi, npc⟩ := r
        rw [hcl] at h
        simp only [Option.some.injEq, Prod.mk.injEq] at h
        obtain ⟨hdb, -, -⟩ := h
        subst hdb
        have : ∀ (d : GameDb) (kv : Int × Int),
            (d.modifyShip sid kv.1 (fun _ => kv.2)).snapshots = d.snapshots := by
          intro d kv; simp
        simpa using foldl_proj_eq GameDb.snapshots
          (fun d kv => d.modifyShip sid kv.1 (fun _ => kv.2)) cur' db this

theorem step5Combat_turns (rng : Rng) (turnId fuel : Nat) :
    ∀ (sids : List Nat) (db : GameDb) (bi pc : Nat) (db' : GameDb) (bi' pc' : Nat),
    step5Combat rng turnId fuel sids db bi pc = some (db', bi', pc') →
    db'.turns = db.turns := by
  intro sids
  induction sids with
  | nil =>
      intro db bi pc db' bi' pc' h
      simp only [step5Combat, Option.some.injEq, Prod.mk.injEq] at h
      rw [h.1]
  | cons sid rest ih =>
      intro db bi pc db' bi' pc' h
      simp only [step5Combat] at h
      cases h1 : step5One rng turnId fuel db sid bi pc with
      | none => rw [h1] at h; cases h
      | some r =>
          obtain ⟨dmid, bmid, pmid⟩ := r
          rw [h1] at h
          rw [ih dmid bmid pmid db' bi' pc' h, step5One_turns rng turnId fuel db sid bi pc dmid bmid pmid h1]

theorem step5Combat_snapshots (rng : Rng) (turnId fuel : Nat) :
    ∀ (sids : List Nat) (db : GameDb) (bi pc : Nat) (db' : GameDb) (bi' pc' : Nat),
    step5Combat rng turnId fuel sids db bi pc = some (db', bi', pc') →
    db'.snapshots = db.snapshots := by
  intro sids
  induction sids with
  | nil =>
      intro db bi pc db' bi' pc' h
      simp only [step5Combat, Option.some.injEq, Prod.mk.injEq] at h
      rw [h.1]
  | cons sid rest ih =>
      intro db bi pc db' bi' pc' h
      simp only [step5Combat] at h
      cases h1 : step5One rng turnId fuel db sid bi pc with
      | none => rw [h1] at h; cases h
      | some r =>
          obtain ⟨dmid, bmid, pmid⟩ := r
          rw [h1] at h
          rw [ih dmid bmid pmid db' bi' pc' h,
            step5One_snapshots rng turnId fuel db sid bi pc dmid bmid pmid h1]

theorem step6One_turns (db : GameDb) (sid : Nat) :
    (step6One db sid).turns = db.turns := by
  unfold step6One
  simp only []
  split <;> try rfl
  split <;> try rfl
  split <;> rfl

theorem step6One_snapshots (db : GameDb) (sid : Nat) :
    (step6One db sid).snapshots = db.snapshots := by
  unfold step6One
  simp only []
  split <;> try rfl
  split <;> try rfl
  split <;> rfl

theorem step7One_turns (db : GameDb) (sid : Nat) :
    (step7One db sid).turns = db.turns := by
  unfold step7One
  split <;> try rfl
  split <;> try rfl
  split <;> rfl

theorem step7One_snapshots (db : GameDb) (sid : Nat) :
    (step7One db sid).snapshots = db.snapshots := by
  unfold step7One
  split <;> try rfl
  split <;> try rfl
  split <;> rfl

theorem step6Ownership_turns (db : GameDb) (sids : List Nat) :
    (step6Ownership db sids).turns = db.turns :=
  foldl_proj_eq GameDb.turns step6One sids db (fun b x => step6One_turns b x)

theorem step6Ownership_snapshots (db : GameDb) (sids : List Nat) :
    (step6Ownership db sids).snapshots = db.snapshots :=
  foldl_proj_eq GameDb.snapshots step6One sids db (fun b x => step6One_snapshots b x)

theorem step7Production_turns (db : GameDb) (sids : List Nat) :
    (step7Production db sids).turns = db.turns :=
  foldl_proj_eq GameDb.turns step7One sids db (fun b x => step7One_turns b x)

theorem step7Production_snapshots (db : GameDb) (sids : List Nat) :
    (step7Production db sids).snapshots = db.snapshots :=
  foldl_proj_eq GameDb.snapshots step7One sids db (fun b x => step7One_snapshots b x)

/-- Through a successful phase 1, the `turns` table is the original one
with the resolved mark applied, and exactly one snapshot for the turn is
appended. -/
theorem pipelinePhase1_tables (db : GameDb) (turnId : Nat) (rng : Rng) (fuel : Nat)
    (g : GameDb) (h : pipelinePhase1 db turnId rng fuel = some g) :
    g.turns = updateFirst db.turns (fun t => t.turnId == turnId)
      (fun t => { t with status := TurnStatus.resolved }) ∧
    ∃ snap ∈ g.snapshots, snap.turnId = turnId := by
  unfold pipelinePhase1 at h
  simp only [] at h
  set orders := db.orders.filter (fun o => o.turnId == turnId) with horders
  set d4 := step4MoveShips (step3BuildShips (step2BuildShipyards (step1BuildMines db orders) orders) orders) orders with hd4
  set sids := d4.systems.map (fun s => s.systemId) with hsids
  cases h5 : step5Combat rng turnId fuel sids d4 0 0 with
  | none => rw [h5] at h; cases h
  | some r =>
      obtain ⟨d5, bi5, pc5⟩ := r
      rw [h5] at h
      simp only [Option.some.injEq] at h
      have hturns4 : d4.turns = db.turns := by
        rw [hd4, step4_turns, step3_turns, step2_turns, step1_turns]
      have hsnaps4 : d4.snapshots = db.snapshots := by
        rw [hd4, step4_snapshots, step3_snapshots, step2_snapshots, step1_snapshots]
      have hturns5 : d5.turns = db.turns := by
        rw [step5Combat_turns rng turnId fuel sids d4 0 0 d5 bi5 pc5 h5, hturns4]
      have hsnaps5 : d5.snapshots = db.snapshots := by
        rw [step5Combat_snapshots rng turnId fuel sids d4 0 0 d5 bi5 pc5 h5, hsnaps4]
      refine ⟨?_, ?_⟩
      · rw [← h]
        simp [saveTurnSnapshot, step7Production_turns, step6Ownership_turns, hturns5]
      · rw [← h]
        simp only [saveTurnSnapshot, List.mem_append, List.mem_singleton]
        exact ⟨_, Or.inr rfl, rfl⟩

/-- Claim C1 (code_bug evaluation): in a two-player game where player 1
and then player 2 submit turn 1, both submissions succeed and afterwards
every player's `submitted` flag for turn 1 is true, yet turn 1 is still
`active`, no turn 2 row exists, and no snapshot was written: `submit_turn`
never checks for the last submission and never invokes the resolver, so
the turn does not resolve, contradicting the claim (and the repository's
own test `test_all_submit_triggers_resolve`). -/
theorem c1_submit_turn_never_resolves :
    (let r1 := submit_turn submitScenarioDb 1 1
     let r2 := submit_turn r1.1 1 2
     r1.2 == SubmitResult.ok 1 && r2.2 == SubmitResult.ok 2 &&
     r2.1.pts.all (fun s => s.submitted) &&
     r2.1.turns == [⟨1, TurnStatus.active⟩] &&
     r2.1.snapshots.isEmpty) = true := by decide

/-- Claim C5 (counterexample): a `move_ships` order for the full
available count (five ships from system 1 to system 2), with no combat
anywhere, leaves a committed post-resolution ship row with `count = 0`
for (system 1, player 1) - contradicting the claim that no zero-count
ship row exists after resolution. -/
theorem c5_counterexample :
    ((resolve_turn drainMoveDb soloAdmin 1 quietRng 4).map (fun r =>
        r.1.ships.any (fun s => s.systemId == 1 && s.playerIndex == 1 && s.count == 0)))
      = some true := by decide

/-- Claim C4 (counterexample): system 2 has no mine and materials 0; the
only order is a `build_mine` on system 2 (accepted by the validator,
funded from system 1).  After resolution system 2's materials equal its
mining value 5, not 0: the freshly built mine is owner-aligned by the
time step 7 runs, so it produces in the same turn. -/
theorem c4_counterexample :
    (((create_order mineBuildDb 1 1 mineBuildReq).toOption.bind (fun r =>
        (resolve_turn r.1 soloAdmin 1 quietRng 4).map (fun z =>
          (z.1.findSystem 2).map (fun s => s.materials))))
      = some (some 5)) ∧
    ¬ (((create_order mineBuildDb 1 1 mineBuildReq).toOption.bind (fun r =>
        (resolve_turn r.1 soloAdmin 1 quietRng 4).map (fun z =>
          (z.1.findSystem 2).map (fun s => s.materials))))
      = some (some 0)) := by decide

/-- Claim C2 (counterexample): the same input state and order set
resolved under two different states of the process-global RNG produce
different surviving ship rows (mutual annihilation versus a player-1
victory), so the resolver's combat randomness is not a stream derived
from (game seed, turn id) - the resolver never reads the game seed at
all. -/
theorem c2_counterexample :
    ((resolve_turn contestedDb duoAdmin 1 hotRng 4).map (fun r => r.1.ships)) ≠
    ((resolve_turn contestedDb duoAdmin 1 oneHitRng 4).map (fun r => r.1.ships)) := by decide

/-- Claim C3 (counterexample): a resolution attempt that fails after the
first `game_db.commit()` (for example while creating the next turn or
reading the admin database) leaves a committed state in which turn 1 is
`resolved` and its snapshot exists, yet no turn 2 row exists — an
intermediate committed state the claim says cannot occur. -/
theorem c3_counterexample :
    ((resolve_turn_committed drainMoveDb soloAdmin 1 quietRng 4
        FailPoint.afterFirstCommit).map (fun r =>
      r.1.turns.any (fun t => t.turnId == 1 && t.status == TurnStatus.resolved) &&
      r.1.snapshots.any (fun s => s.turnId == 1) &&
      !(r.1.turns.any (fun t => t.turnId == 2))))
      = some true := by decide

/-- Claim C2 (amended): resolving the same turn twice from the same input
state produces identical results provided the process-global RNG delivers
the same stream of draws - the resolver is a deterministic function of
the state, the orders and that global stream (which is not derived from
the game seed or the turn id). -/
theorem c2_amended_rng_determinism (db : GameDb) (adb : AdminDb) (turnId : Nat)
    (r1 r2 : Rng) (fuel : Nat)
    (hb : ∀ n, r1.bits n = r2.bits n) (hp : ∀ n, r1.picks n = r2.picks n) :
    resolve_turn db adb turnId r1 fuel = resolve_turn db adb turnId r2 fuel := by
  obtain ⟨b1, p1⟩ := r1
  obtain ⟨b2, p2⟩ := r2
  have hb' : b1 = b2 := funext hb
  have hp' : p1 = p2 := funext hp
  rw [hb', hp']

/-- Witness for C2 (amended) at a concrete contested state and a concrete
stream. -/
theorem c2_amended_rng_determinism_witness :
    resolve_turn contestedDb duoAdmin 1 quietRng 4 =
    resolve_turn contestedDb duoAdmin 1 quietRng 4 :=
  c2_amended_rng_determinism contestedDb duoAdmin 1 quietRng quietRng 4
    (fun _ => rfl) (fun _ => rfl)

/-- Claim C3 (amended): a failure at any point before the first
`game_db.commit()` leaves the committed game and admin state completely
unchanged (turn still active, no snapshot, no mutation); however
`resolve_turn` commits in three stages, so the committed game state after
a failing attempt is in general only either the unchanged pre-state or a
state in which the turn is already marked resolved and its snapshot
written - in the latter case the next turn, the player statuses and the
admin updates may still be missing. -/
theorem c3_amended_commit_stages (db : GameDb) (adb : AdminDb) (turnId : Nat)
    (rng : Rng) (fuel : Nat)
    (hturn : ∃ t ∈ db.turns, (t.turnId == turnId) = true) :
    resolve_turn_committed db adb turnId rng fuel FailPoint.duringPipeline
      = some (db, adb) ∧
    ∀ fp g a, resolve_turn_committed db adb turnId rng fuel fp = some (g, a) →
      g = db ∨
      ((∃ t ∈ g.turns, t.turnId = turnId ∧ t.status = TurnStatus.resolved) ∧
        ∃ snap ∈ g.snapshots, snap.turnId = turnId) := by
  refine ⟨rfl, ?_⟩
  have key : ∀ g1, pipelinePhase1 db turnId rng fuel = some g1 →
      (∃ t ∈ g1.turns, t.turnId = turnId ∧ t.status = TurnStatus.resolved) ∧
        ∃ snap ∈ g1.snapshots, snap.turnId = turnId := by
    intro g1 h1
    obtain ⟨ht, hs⟩ := pipelinePhase1_tables db turnId rng fuel g1 h1
    constructor
    · rw [ht]
      refine updateFirst_exists hturn (fun x hx => ?_)
      exact ⟨by simpa using hx, rfl⟩
    · exact hs
  have key2 : ∀ g1, pipelinePhase1 db turnId rng fuel = some g1 →
      (∃ t ∈ (phase2NextTurn g1 turnId adb.numPlayers).turns,
          t.turnId = turnId ∧ t.status = TurnStatus.resolved) ∧
        ∃ snap ∈ (phase2NextTurn g1 turnId adb.numPlayers).snapshots,
          snap.turnId = turnId := by
    intro g1 h1
    obtain ⟨⟨t, htmem, htprop⟩, ⟨snap, hsmem, hsprop⟩⟩ := key g1 h1
    have hturns2 : ∃ l, (phase2NextTurn g1 turnId adb.numPlayers).turns
        = g1.turns ++ [⟨turnId + 1, TurnStatus.active⟩] ++ l →
        True := ⟨[], fun _ => trivial⟩
    constructor
    · refine ⟨t, ?_, htprop⟩
      unfold phase2NextTurn
      have hmono : ∀ (d : GameDb) (il : List Nat), t ∈ d.turns →
          t ∈ (il.foldl (fun d i =>
            { d with pts := d.pts ++ [⟨turnId + 1, Int.ofNat (i + 1), false⟩] }) d).turns := by
        intro d il
        induction il generalizing d with
        | nil => intro h; exact h
        | cons i il ih => intro h; exact ih _ h
      exact hmono _ _ (List.mem_append.mpr (Or.inl htmem))
    · refine ⟨snap, ?_, hsprop⟩
      unfold phase2NextTurn
      have hmono : ∀ (d : GameDb) (il : List Nat), snap ∈ d.snapshots →
          snap ∈ (il.foldl (fun d i =>
            { d with pts := d.pts ++ [⟨turnId + 1, Int.ofNat (i + 1), false⟩] }) d).snapshots := by
        intro d il
        induction il generalizing d with
        | nil => intro h; exact h
        | cons i il ih => intro h; exact ih _ h
      exact hmono _ _ hsmem
  intro fp g a hfp
  cases fp with
  | duringPipeline =>
      simp only [resolve_turn_committed, Option.some.injEq, Prod.mk.injEq] at hfp
      exact Or.inl hfp.1.symm
  | afterFirstCommit =>
      simp only [resolve_turn_committed, Option.map_eq_some'] at hfp
      obtain ⟨g1, h1, heq⟩ := hfp
      obtain ⟨hg, -⟩ := Prod.mk.injEq .. ▸ heq
      exact Or.inr (by rw [← hg]; exact key g1 h1)
  | afterSecondCommit =>
      simp only [resolve_turn_committed, Option.map_eq_some'] at hfp
      obtain ⟨g1, h1, heq⟩ := hfp
      obtain ⟨hg, -⟩ := Prod.mk.injEq .. ▸ heq
      exact Or.inr (by rw [← hg]; exact key2 g1 h1)
  | noFailure =>
      simp only [resolve_turn_committed, resolve_turn] at hfp
      cases h1 : pipelinePhase1 db turnId rng fuel with
      | none => rw [h1] at hfp; cases hfp
      | some g1 =>
          rw [h1] at hfp
          simp only [Option.some.injEq, Prod.mk.injEq] at hfp
          exact Or.inr (by rw [← hfp.1]; exact key2 g1 h1)

/-- Witness for C3 (amended) at the concrete drain-move game. -/
theorem c3_amended_commit_stages_witness :
    (∃ t ∈ drainMoveDb.turns, (t.turnId == 1) = true) ∧
    resolve_turn_committed drainMoveDb soloAdmin 1 quietRng 4 FailPoint.duringPipeline
      = some (drainMoveDb, soloAdmin) :=
  ⟨by decide,
    (c3_amended_commit_stages drainMoveDb soloAdmin 1 quietRng 4 (by decide)).1⟩

/-- Claim C4 (amended): a mine created during a turn's resolution does
produce during that same turn: for every donor stock `a` and mining
values `v1`, `v2`, resolving the turn whose only order is the (validated)
`build_mine` on system 2 leaves system 2 with materials equal to its
mining value `v2` (not 0), because step 6 runs before step 7 and the
fresh mine is already owner-aligned. -/
theorem c4_amended_fresh_mine_produces (a v1 v2 : Int) :
    ((resolve_turn (mineBuildDbP a v1 v2) soloAdmin 1 quietRng 4).map (fun r =>
      (r.1.findSystem 2).map (fun s => s.materials))) = some (some v2) := by
  conv_rhs => rw [← zero_add v2]
  rfl

/-- Claim C5 (amended): the resolver deletes zero-count ship rows only at
systems where combat ran: whenever step 5 actually runs combat at a
system (at least two distinct players present among its positive-count
rows), the resulting ship table has no `count = 0` row at that system;
a system that sees no combat is never cleaned, so a `move_ships` of the
entire available count from a peaceful source leaves a zero-count row in
the committed post-resolution state (exhibited by the counterexample). -/
theorem c5_amended_combat_cleans (rng : Rng) (turnId fuel : Nat) (db : GameDb)
    (sid bi pc : Nat) (db' : GameDb) (bi' pc' : Nat)
    (h : step5One rng turnId fuel db sid bi pc = some (db', bi', pc'))
    (hc : ¬ (((db.ships.filter (fun s => s.systemId == sid && decide (0 < s.count))).map
        (fun s => s.playerIndex)).eraseDups).length < 2) :
    ∀ s ∈ db'.ships, s.systemId = sid → s.count ≠ 0 := by
  unfold step5One at h
  rw [if_neg hc] at h
  simp only [] at h
  cases hcl : combatLoop rng turnId sid fuel 1
      ((db.ships.filter (fun s => s.systemId == sid && decide (0 < s.count))).foldl
        (fun m s => dictInsert m s.playerIndex s.count) []) bi pc [] with
  | none => rw [hcl] at h; cases h
  | some r =>
      obtain ⟨cur', newLogs, nbi, npc⟩ := r
      rw [hcl] at h
      simp only [Option.some.injEq, Prod.mk.injEq] at h
      obtain ⟨hdb, -, -⟩ := h
      intro s hs hsid
      rw [← hdb] at hs
      simp only [List.mem_filter] at hs
      have hflag := hs.2
      simp only [Bool.not_eq_true', Bool.and_eq_false_iff, beq_eq_false_iff_ne] at hflag
      rcases hflag with hsys | hcnt
      · exact absurd hsid hsys
      · exact hcnt

/-- Witness for C5 (amended): at the contested one-system state, combat
runs and the write-back leaves no zero-count rows at that system. -/
theorem c5_amended_combat_cleans_witness :
    (¬ (((contestedDb.ships.filter (fun s => s.systemId == 1 && decide (0 < s.count))).map
        (fun s => s.playerIndex)).eraseDups).length < 2) ∧
    ∀ s ∈ c5Out.1.ships, s.systemId = 1 → s.count ≠ 0 :=
  ⟨by decide,
    c5_amended_combat_cleans hotRng 1 4 contestedDb 1 0 0 c5Out.1 c5Out.2.1 c5Out.2.2
      (by decide) (by decide)⟩

/-- Fold invariant: a property preserved by every applied step holds of
the fold result. -/
theorem foldl_invariant {β γ : Type} (P : β → Prop) (g : β → γ → β)
    (l : List γ) (b : β) (hb : P b) (h : ∀ b x, x ∈ l → P b → P (g b x)) :
    P (l.foldl g b) := by
  induction l generalizing b with
  | nil => exact hb
  | cons x xs ih =>
      exact ih (g b x) (h b x (List.mem_cons_self x xs) hb)
        (fun b y hy => h b y (List.mem_cons_of_mem x hy))

/-- `find?` is unchanged by `updateFirst` when the updated element (and
its image) can never satisfy the search predicate. -/
theorem find?_updateFirst_of_ne {α : Type} (l : List α) (pq pf : α → Bool)
    (f : α → α) (hdisj : ∀ x, pq x = true → pf x = false ∧ pf (f x) = false) :
    (updateFirst l pq f).find? pf = l.find? pf := by
  induction l with
  | nil => rfl
  | cons x xs ih =>
      by_cases hpq : pq x = true
      · obtain ⟨h1, h2⟩ := hdisj x hpq
        simp [updateFirst, hpq, List.find?_cons, h1, h2]
      · simp only [updateFirst, hpq, Bool.false_eq_true, if_false]
        by_cases hpf : pf x = true
        · simp [List.find?_cons, hpf]
        · simp only [List.find?_cons, hpf, Bool.false_eq_true, if_false] at *
          simpa [List.find?] using ih

/-- `find?` after `updateFirst` with the same predicate returns the
updated element, provided the image still satisfies the predicate. -/
theorem find?_updateFirst_same {α : Type} (l : List α) (p : α → Bool)
    (f : α → α) (x : α) (hfind : l.find? p = some x) (hf : p (f x) = true) :
    (updateFirst l p f).find? p = some (f x) := by
  induction l with
  | nil => simp at hfind
  | cons y ys ih =>
      by_cases hpy : p y = true
      · rw [List.find?_cons_of_pos _ hpy] at hfind
        obtain rfl := Option.some.injEq .. ▸ hfind
        simp [updateFirst, hpy, List.find?_cons_of_pos _ hf]
      · rw [List.find?_cons_of_neg _ (by simpa using hpy)] at hfind
        simp only [updateFirst, hpy, Bool.false_eq_true, if_false]
        rw [List.find?_cons_of_neg _ (by simpa using hpy)]
        exact ih hfind

/-- Filtering with `pA` ignores a conditional map applied only to
elements satisfying `pB`, when `pB`-elements (and their images) never
satisfy `pA`. -/
theorem filter_map_if_ne {α : Type} (l : List α) (pA pB : α → Bool) (g : α → α)
    (h1 : ∀ x, pB x = true → pA x = false) (h2 : ∀ x, pB x = true → pA (g x) = false) :
    (l.map (fun x => if pB x then g x else x)).filter pA = l.filter pA := by
  induction l with
  | nil => rfl
  | cons x xs ih =>
      by_cases hpb : pB x = true
      · simp only [List.map_cons, hpb, if_true, List.filter_cons, h1 x hpb, h2 x hpb,
          Bool.false_eq_true, if_false]
        exact ih
      · simp only [List.map_cons, hpb, Bool.false_eq_true, if_false, List.filter_cons]
        rw [ih]

/-- Filtering with `pA` after a conditional map on exactly the
`pA`-elements equals mapping the filtered list, when `g` preserves
membership in `pA`. -/
theorem filter_map_if_same {α : Type} (l : List α) (pA : α → Bool) (g : α → α)
    (hg : ∀ x, pA x = true → pA (g x) = true) :
    (l.map (fun x => if pA x then g x else x)).filter pA = (l.filter pA).map g := by
  induction l with
  | nil => rfl
  | cons x xs ih =>
      by_cases hpa : pA x = true
      · simp only [List.map_cons, hpa, if_true, List.filter_cons, hg x hpa]
        rw [ih]
      · simp only [List.map_cons, hpa, Bool.false_eq_true, if_false, List.filter_cons]
        rw [ih]

@[simp]
theorem step6One_ships (db : GameDb) (sid : Nat) :
    (step6One db sid).ships = db.ships := by
  unfold step6One
  simp only []
  split <;> try rfl
  split <;> try rfl
  split <;> rfl

@[simp]
theorem step7One_ships (db : GameDb) (sid : Nat) :
    (step7One db sid).ships = db.ships := by
  unfold step7One
  split <;> try rfl
  split <;> try rfl
  split <;> rfl

@[simp]
theorem step7One_structures (db : GameDb) (sid : Nat) :
    (step7One db sid).structures = db.structures := by
  unfold step7One
  split <;> try rfl
  split <;> try rfl
  split <;> rfl

/-- The owner transition of one system does not move the search result
for a different system. -/
theorem step6One_findSystem_ne (d : GameDb) (sid' sid : Nat) (hne : sid' ≠ sid) :
    (step6One d sid').findSystem sid = d.findSystem sid := by
  unfold step6One
  simp only []
  split <;> try rfl
  split <;> try rfl
  split <;> try rfl
  unfold GameDb.findSystem GameDb.updateSystem
  simp only []
  refine find?_updateFirst_of_ne _ _ _ _ (fun x hx => ?_)
  have hxid : x.systemId = sid' := by simpa using hx
  constructor <;> simp [hxid, hne]

/-- The structure transfer of one system leaves structures of a
different system untouched. -/
theorem step6One_structuresAt_ne (d : GameDb) (sid' sid : Nat) (hne : sid' ≠ sid) :
    structuresAt (step6One d sid') sid = structuresAt d sid := by
  unfold step6One
  simp only []
  split <;> try rfl
  split <;> try rfl
  split <;> try rfl
  unfold structuresAt GameDb.updateSystem
  simp only []
  refine filter_map_if_ne _ _ _ _ (fun x hx => ?_) (fun x hx => ?_) <;>
    · have hxid : x.systemId = sid' := by simpa using hx
      simp [hxid, hne]

/-- Mine production at one system leaves a different system's row
untouched (and never touches structures at all). -/
theorem step7One_preserves_ne (d : GameDb) (sid' sid : Nat) (hne : sid' ≠ sid) :
    (step7One d sid').findSystem sid = d.findSystem sid := by
  unfold step7One
  split <;> try rfl
  split <;> try rfl
  split <;> try rfl
  unfold GameDb.findSystem GameDb.updateSystem
  simp only []
  refine find?_updateFirst_of_ne _ _ _ _ (fun x hx => ?_)
  have hxid : x.systemId = sid' := by simpa using hx
  constructor <;> simp [hxid, hne]

/-- Claim C10: when a system carrying a mine is captured during
resolution (after combat exactly one player `q` has positive-count ships
there and `q` differs from the owner), step 6 sets the owner to `q` and
re-attributes every structure there to `q`, and step 7 then pays
`mining_value` materials to the captured system in the same turn: after
steps 6 and 7 the system's owner is `q`, its materials grew by its mining
value, and all its structures belong to `q`. -/
theorem c10_capture_transfers_mine_then_produces
    (db : GameDb) (sid : Nat) (S : SystemRec) (q : Int)
    (hfind : db.findSystem sid = some S)
    (hplayers : playersAt db sid = [q])
    (howner : S.ownerPlayerIndex ≠ some q)
    (hmine : ∃ st ∈ structuresAt db sid, st.stype = StructType.mine)
    (hnodup : (db.systems.map (fun s => s.systemId)).Nodup) :
    ((step7Production (step6Ownership db (db.systems.map (fun s => s.systemId)))
        (db.systems.map (fun s => s.systemId))).findSystem sid).map
        (fun s => (s.ownerPlayerIndex, s.materials))
      = some (some q, S.materials + S.miningValue) ∧
    ∀ st ∈ (step7Production (step6Ownership db (db.systems.map (fun s => s.systemId)))
        (db.systems.map (fun s => s.systemId))).structures,
      st.systemId = sid → st.playerIndex = q := by
  have hSmem : S ∈ db.systems := List.mem_of_find?_eq_some hfind
  have hSid : S.systemId = sid := by
    have := List.find?_some hfind
    simpa using this
  have hsidmem : sid ∈ db.systems.map (fun s => s.systemId) :=
    List.mem_map.mpr ⟨S, hSmem, hSid⟩
  obtain ⟨l1, l2, hsids⟩ := List.append_of_mem hsidmem
  rw [hsids] at hnodup
  have hl1 : sid ∉ l1 := by
    intro hmem
    have hd := (List.nodup_append.mp hnodup).2.2
    exact hd hmem (List.mem_cons_self sid l2)
  have hl2 : sid ∉ l2 :=
    (List.nodup_cons.mp (List.nodup_append.mp hnodup).2.1).1
  rw [hsids]
  set S' : SystemRec := { S with ownerPlayerIndex := some q } with hS'
  -- Phase 6, prefix l1: rows at sid untouched.
  set A := l1.foldl step6One db with hA
  have hAinv : A.findSystem sid = some S ∧ A.ships = db.ships ∧
      structuresAt A sid = structuresAt db sid := by
    refine foldl_invariant (fun d => d.findSystem sid = some S ∧ d.ships = db.ships ∧
        structuresAt d sid = structuresAt db sid)
      step6One l1 db ⟨hfind, rfl, rfl⟩ (fun d x hx h => ?_)
    have hxne : x ≠ sid := fun hcontra => hl1 (hcontra ▸ hx)
    exact ⟨(step6One_findSystem_ne d x sid hxne).trans h.1,
      (step6One_ships d x).trans h.2.1,
      (step6One_structuresAt_ne d x sid hxne).trans h.2.2⟩
  -- Phase 6 at sid: ownership and structures transfer.
  have hpa : ((A.ships.filter (fun s => s.systemId == sid && decide (0 < s.count))).map
      (fun s => s.playerIndex)).eraseDups = [q] := by
    have : playersAt A sid = [q] := by
      unfold playersAt
      rw [hAinv.2.1]
      exact hplayers
    simpa [playersAt] using this
  have hbeqfalse : (S.ownerPlayerIndex == some q) = false := by
    simpa using howner
  have e6 : step6One A sid =
      transferStructures (A.updateSystem sid (fun s => { s with ownerPlayerIndex := some q }))
        sid q := by
    unfold step6One transferStructures
    simp only []
    rw [hpa, hAinv.1]
    simp only [hbeqfalse, Bool.false_eq_true, if_false]
  set B := step6One A sid with hBdef
  have hBfind : B.findSystem sid = some S' := by
    rw [e6]
    unfold transferStructures GameDb.findSystem GameDb.updateSystem
    simp only []
    refine find?_updateFirst_same _ _ _ S hAinv.1 ?_
    simp [hSid]
  have hBstrAt : structuresAt B sid =
      (structuresAt db sid).map (fun st => { st with playerIndex := q }) := by
    rw [e6]
    unfold transferStructures structuresAt GameDb.updateSystem
    simp only []
    rw [filter_map_if_same _ _ _ (fun x hx => by simpa using hx)]
    rw [← structuresAt, ← structuresAt, hAinv.2.2]
  -- Phase 6, suffix l2.
  have hfold6 : (l1 ++ sid :: l2).foldl step6One db = l2.foldl step6One B := by
    rw [List.foldl_append]
    rfl
  set C := l2.foldl step6One B with hC
  have hCinv : C.findSystem sid = some S' ∧
      structuresAt C sid =
        (structuresAt db sid).map (fun st => { st with playerIndex := q }) := by
    refine foldl_invariant (fun d => d.findSystem sid = some S' ∧
        structuresAt d sid = (structuresAt db sid).map (fun st => { st with playerIndex := q }))
      step6One l2 B ⟨hBfind, hBstrAt⟩ (fun d x hx h => ?_)
    have hxne : x ≠ sid := fun hcontra => hl2 (hcontra ▸ hx)
    exact ⟨(step6One_findSystem_ne d x sid hxne).trans h.1,
      (step6One_structuresAt_ne d x sid hxne).trans h.2⟩
  -- Phase 7, prefix l1.
  set D := l1.foldl step7One C with hD
  have hDinv : D.findSystem sid = some S' ∧ D.structures = C.structures := by
    refine foldl_invariant (fun d => d.findSystem sid = some S' ∧ d.structures = C.structures)
      step7One l1 C ⟨hCinv.1, rfl⟩ (fun d x hx h => ?_)
    have hxne : x ≠ sid := fun hcontra => hl1 (hcontra ▸ hx)
    exact ⟨(step7One_preserves_ne d x sid hxne).trans h.1,
      (step7One_structures d x).trans h.2⟩
  -- Phase 7 at sid: the transferred mine is owner-aligned and produces.
  have hany : (D.structures.any (fun st =>
      st.systemId == sid && st.stype == StructType.mine && st.playerIndex == q)) = true := by
    obtain ⟨m, hmmem, hmtype⟩ := hmine
    have hmsid : m.systemId = sid := by
      have h1 : (m.systemId == sid) = true :=
        (List.mem_filter.mp
          (show m ∈ db.structures.filter (fun st => st.systemId == sid) from hmmem)).2
      simpa using h1
    have hmmem' : ({ m with playerIndex := q } : StructRec) ∈ structuresAt D sid := by
      have : structuresAt D sid =
          (structuresAt db sid).map (fun st => { st with playerIndex := q }) := by
        unfold structuresAt
        rw [hDinv.2]
        rw [← structuresAt, ← structuresAt]
        exact hCinv.2
      rw [this]
      exact List.mem_map.mpr ⟨m, hmmem, rfl⟩
    have hmem2 : ({ m with playerIndex := q } : StructRec) ∈ D.structures :=
      List.mem_of_mem_filter hmmem'
    refine List.any_eq_true.mpr ⟨_, hmem2, ?_⟩
    simp [hmsid, hmtype]
  have e7 : step7One D sid =
      D.updateSystem sid (fun s => { s with materials := s.materials + s.miningValue }) := by
    unfold step7One
    rw [hDinv.1]
    simp only []
    rw [if_pos hany]
  set E := step7One D sid with hE
  have hEfind : E.findSystem sid =
      some { S' with materials := S'.materials + S'.miningValue } := by
    rw [e7]
    unfold GameDb.findSystem GameDb.updateSystem
    simp only []
    refine find?_updateFirst_same _ _ _ S' hDinv.1 ?_
    simp [hS', hSid]
  have hEstr : E.structures = C.structures := by
    rw [e7]
    have : (D.updateSystem sid (fun s =>
        { s with materials := s.materials + s.miningValue })).structures = D.structures := rfl
    rw [this, hDinv.2]
  -- Phase 7, suffix l2.
  have hfold7 : (l1 ++ sid :: l2).foldl step7One C = l2.foldl step7One E := by
    rw [List.foldl_append]
    rfl
  have hfin : (l2.foldl step7One E).findSystem sid =
        some { S' with materials := S'.materials + S'.miningValue } ∧
      (l2.foldl step7One E).structures = C.structures := by
    refine foldl_invariant (fun d => d.findSystem sid =
        some { S' with materials := S'.materials + S'.miningValue } ∧ d.structures = C.structures)
      step7One l2 E ⟨hEfind, hEstr⟩ (fun d x hx h => ?_)
    have hxne : x ≠ sid := fun hcontra => hl2 (hcontra ▸ hx)
    exact ⟨(step7One_preserves_ne d x sid hxne).trans h.1,
      (step7One_structures d x).trans h.2⟩
  constructor
  · show ((step7Production (step6Ownership db (l1 ++ sid :: l2)) (l1 ++ sid :: l2)).findSystem
        sid).map (fun s => (s.ownerPlayerIndex, s.materials)) = _
    unfold step6Ownership step7Production
    rw [hfold6, hfold7, hfin.1]
    simp [hS']
  · show ∀ st ∈ (step7Production (step6Ownership db (l1 ++ sid :: l2)) (l1 ++ sid :: l2)).structures,
        st.systemId = sid → st.playerIndex = q
    unfold step6Ownership step7Production
    rw [hfold6, hfold7]
    intro st hmem hstid
    have hstAt : st ∈ structuresAt (l2.foldl step7One E) sid := by
      unfold structuresAt
      exact List.mem_filter.mpr ⟨hmem, by simp [hstid]⟩
    have : structuresAt (l2.foldl step7One E) sid =
        (structuresAt db sid).map (fun st => { st with playerIndex := q }) := by
      unfold structuresAt
      rw [hfin.2]
      rw [← structuresAt, ← structuresAt]
      exact hCinv.2
    rw [this] at hstAt
    obtain ⟨y, -, hy⟩ := List.mem_map.mp hstAt
    rw [← hy]

/-- Witness for C10 at the concrete capture scenario: player 2's ships
capture system 1 (owned by player 1, with player 1's mine); afterwards
player 2 owns the system, the mine is player 2's, and the system produced
its mining value 3 on top of its 10 materials. -/
theorem c10_capture_transfers_mine_then_produces_witness :
    playersAt captureDb 1 = [2] ∧
    ((((step7Production (step6Ownership captureDb
          (captureDb.systems.map (fun s => s.systemId)))
        (captureDb.systems.map (fun s => s.systemId))).findSystem 1).map
        (fun s => (s.ownerPlayerIndex, s.materials))
      = some (some 2, (10 : Int) + 3)) ∧
    ∀ st ∈ (step7Production (step6Ownership captureDb
          (captureDb.systems.map (fun s => s.systemId)))
        (captureDb.systems.map (fun s => s.systemId))).structures,
      st.systemId = 1 → st.playerIndex = 2) :=
  ⟨by decide,
    c10_capture_transfers_mine_then_produces captureDb 1
      ⟨1, "S", 0, 0, 3, 10, 0, false, false, some 1⟩ 2
      (by decide) (by decide) (by decide) (by decide) (by decide)⟩

/-- The per-donor loop errors exactly when some donor fails one of its
three checks. -/
theorem checkMaterialSources_error_iff (db : GameDb) (turnId : Nat) (p : Int)
    (buildSid : Nat) (l : List MaterialSourceInput) :
    (∃ e, checkMaterialSources db turnId p buildSid l = Except.error e) ↔
      ∃ ms ∈ l, donorFails db turnId p buildSid ms := by
  induction l with
  | nil => simp [checkMaterialSources]
  | cons ms rest ih =>
      by_cases h1 : (ms.systemId == buildSid) = true
      · have h1' : ms.systemId = buildSid := by simpa using h1
        refine iff_of_true
          ⟨"Material source must be a different system than the one being built on", ?_⟩
          ⟨ms, List.mem_cons_self ms rest, Or.inl h1'⟩
        simp only [checkMaterialSources]
        rw [if_pos h1]
      · have h1' : ¬ ms.systemId = buildSid := by simpa using h1
        cases hfs : db.findSystem ms.systemId with
        | none =>
            refine iff_of_true ⟨"System not owned by you", ?_⟩
              ⟨ms, List.mem_cons_self ms rest, Or.inr (Or.inl ?_)⟩
            · simp only [checkMaterialSources]
              rw [if_neg (by simpa using h1'), hfs]
            · rintro ⟨sys, hsys, -⟩
              rw [hfs] at hsys
              cases hsys
        | some sys =>
            by_cases h2 : (sys.ownerPlayerIndex == some p) = true
            · have h2' : sys.ownerPlayerIndex = some p := by simpa using h2
              by_cases h3 : sys.materials - committedMaterials db turnId p ms.systemId < ms.amount
              · refine iff_of_true ⟨"System only has available materials", ?_⟩
                  ⟨ms, List.mem_cons_self ms rest, Or.inr (Or.inr ⟨sys, hfs, h3⟩)⟩
                simp only [checkMaterialSources]
                rw [if_neg (by simpa using h1'), hfs]
                simp only [h2, Bool.not_true, Bool.false_eq_true, if_false]
                rw [if_pos h3]
              · have hcont : checkMaterialSources db turnId p buildSid (ms :: rest)
                    = checkMaterialSources db turnId p buildSid rest := by
                  simp only [checkMaterialSources]
                  rw [if_neg (by simpa using h1'), hfs]
                  simp only [h2, Bool.not_true, Bool.false_eq_true, if_false]
                  rw [if_neg h3]
                rw [hcont, ih]
                constructor
                · rintro ⟨ms', hmem, hfail⟩
                  exact ⟨ms', List.mem_cons_of_mem ms hmem, hfail⟩
                · rintro ⟨ms', hmem, hfail⟩
                  rcases List.mem_cons.mp hmem with rfl | hmem'
                  · exfalso
                    rcases hfail with hf | hf | hf
                    · exact h1' hf
                    · exact hf ⟨sys, hfs, h2'⟩
                    · obtain ⟨sys2, hsys2, hlt⟩ := hf
                      rw [hfs] at hsys2
                      obtain rfl := Option.some.injEq .. ▸ hsys2
                      exact h3 hlt
                  · exact ⟨ms', hmem', hfail⟩
            · refine iff_of_true ⟨"System not owned by you", ?_⟩
                ⟨ms, List.mem_cons_self ms rest, Or.inr (Or.inl ?_)⟩
              · simp only [checkMaterialSources]
                rw [if_neg (by simpa using h1'), hfs]
                simp only [h2]
                rw [if_pos (by simp [h2])]
              · rintro ⟨sys2, hsys2, hsys2own⟩
                rw [hfs] at hsys2
                obtain rfl := Option.some.injEq .. ▸ hsys2
                exact h2 (by simpa using hsys2own)

/-- Claim C9: for a `build_mine` request by a player who has not
submitted, on an existing source system the player owns, the request is
rejected with an invalid-order error if and only if one of the claim's
conditions holds (source already mined; duplicate pending `build_mine`;
donor list missing or empty; amounts not summing to 15; a donor equal to
the build system; a donor missing or not owned; a donor with fewer
available materials than its amount); otherwise the order is persisted
with its material-source rows. -/
theorem c9_build_mine_validation (db : GameDb) (turnId : Nat) (p : Int)
    (req : CreateOrderReq) (src : SystemRec)
    (hreq : req.orderType = "build_mine")
    (hsub : turnAlreadySubmitted db turnId p = false)
    (hsrc : db.findSystem req.sourceSystemId = some src)
    (hown : src.ownerPlayerIndex = some p) :
    ((∃ e, create_order db turnId p req = Except.error e) ↔
      buildMineRejected db turnId p req) ∧
    (∀ db' o, create_order db turnId p req = Except.ok (db', o) →
      o.otype = OrderType.buildMine ∧
      o.materialSources =
        (req.materialSources.getD []).map (fun ms => ⟨ms.systemId, ms.amount⟩) ∧
      db'.orders = db.orders ++ [o]) := by
  have hne1 : (req.orderType == "move_ships") = false := by rw [hreq]; decide
  have hne2 : (req.orderType == "build_mine") = true := by rw [hreq]; decide
  have hco0 : create_order db turnId p req =
      (if hasStructure db req.sourceSystemId StructType.mine then
        Except.error "System already has a mine"
      else if db.orders.any (fun o =>
          o.turnId == turnId && o.playerIndex == p &&
          o.otype == OrderType.buildMine && o.sourceSystemId == req.sourceSystemId) then
        Except.error "Already ordered a mine here this turn"
      else
        match req.materialSources with
        | none => Except.error "material_sources required for build_mine"
        | some msList =>
          if msList.isEmpty then Except.error "material_sources required for build_mine"
          else if !((msList.map (fun ms => ms.amount)).sum == 15) then
            Except.error "Material sources must sum to 15"
          else
            match checkMaterialSources db turnId p req.sourceSystemId msList with
            | Except.error e => Except.error e
            | Except.ok () =>
                Except.ok (db.addOrder turnId p OrderType.buildMine
                  req.sourceSystemId none none
                  (msList.map (fun ms => ⟨ms.systemId, ms.amount⟩)))) := by
    unfold create_order
    simp only [hsub, Bool.false_eq_true, if_false, hsrc, hne1, hne2, if_true, hown,
      beq_self_eq_true, Bool.not_true]
  rw [hco0]
  by_cases hA1 : hasStructure db req.sourceSystemId StructType.mine = true
  · rw [if_pos hA1]
    refine ⟨iff_of_true ⟨_, rfl⟩ (Or.inl hA1), fun db' o h => by cases h⟩
  · rw [if_neg (by simpa using hA1)]
    by_cases hA2 : (db.orders.any (fun o =>
        o.turnId == turnId && o.playerIndex == p &&
        o.otype == OrderType.buildMine && o.sourceSystemId == req.sourceSystemId)) = true
    · rw [if_pos hA2]
      refine ⟨iff_of_true ⟨_, rfl⟩ (Or.inr (Or.inl hA2)), fun db' o h => by cases h⟩
    · rw [if_neg (by simpa using hA2)]
      cases hms : req.materialSources with
      | none =>
          refine ⟨iff_of_true ⟨_, rfl⟩ (Or.inr (Or.inr (Or.inl hms))), fun db' o h => by cases h⟩
      | some msList =>
          simp only []
          by_cases hEmp : msList.isEmpty = true
          · rw [if_pos hEmp]
            have : msList = [] := by simpa using hEmp
            refine ⟨iff_of_true ⟨_, rfl⟩
              (Or.inr (Or.inr (Or.inr (Or.inl (by rw [hms, this]))))), fun db' o h => by cases h⟩
          · rw [if_neg (by simpa using hEmp)]
            by_cases hsum : ((msList.map (fun ms => ms.amount)).sum == 15) = true
            · have hsum' : (msList.map (fun ms => ms.amount)).sum = 15 := by simpa using hsum
              rw [if_neg (by simp [hsum])]
              cases hchk : checkMaterialSources db turnId p req.sourceSystemId msList with
              | error e =>
                  have hfail := (checkMaterialSources_error_iff db turnId p
                    req.sourceSystemId msList).mp ⟨e, hchk⟩
                  obtain ⟨ms, hmem, hf⟩ := hfail
                  have hmem' : ms ∈ req.materialSources.getD [] := by rw [hms]; exact hmem
                  refine ⟨iff_of_true ⟨e, rfl⟩ ?_, fun db' o h => by cases h⟩
                  rcases hf with hf | hf | hf
                  · exact Or.inr (Or.inr (Or.inr (Or.inr (Or.inr (Or.inl ⟨ms, hmem', hf⟩)))))
                  · exact Or.inr (Or.inr (Or.inr (Or.inr (Or.inr (Or.inr (Or.inl
                      ⟨ms, hmem', hf⟩))))))
                  · exact Or.inr (Or.inr (Or.inr (Or.inr (Or.inr (Or.inr (Or.inr
                      ⟨ms, hmem', hf⟩))))))
              | ok u =>
                  cases u
                  constructor
                  · refine iff_of_false (by rintro ⟨e, he⟩; cases he) ?_
                    rintro (hbad | hbad | hbad | hbad | hbad | hbad | hbad | hbad)
                    · exact hA1 hbad
                    · exact hA2 hbad
                    · rw [hms] at hbad; cases hbad
                    · rw [hms] at hbad
                      obtain rfl := Option.some.injEq .. ▸ hbad
                      simp at hEmp
                    · rw [hms] at hbad
                      exact hbad (by simpa using hsum')
                    · rw [hms] at hbad
                      obtain ⟨ms, hmem, hf⟩ := hbad
                      have : ∃ e, checkMaterialSources db turnId p req.sourceSystemId msList
                          = Except.error e :=
                        (checkMaterialSources_error_iff db turnId p req.sourceSystemId
                          msList).mpr ⟨ms, hmem, Or.inl hf⟩
                      obtain ⟨e, he⟩ := this
                      rw [hchk] at he; cases he
                    · rw [hms] at hbad
                      obtain ⟨ms, hmem, hf⟩ := hbad
                      have : ∃ e, checkMaterialSources db turnId p req.sourceSystemId msList
                          = Except.error e :=
                        (checkMaterialSources_error_iff db turnId p req.sourceSystemId
                          msList).mpr ⟨ms, hmem, Or.inr (Or.inl hf)⟩
                      obtain ⟨e, he⟩ := this
                      rw [hchk] at he; cases he
                    · rw [hms] at hbad
                      obtain ⟨ms, hmem, hf⟩ := hbad
                      have : ∃ e, checkMaterialSources db turnId p req.sourceSystemId msList
                          = Except.error e :=
                        (checkMaterialSources_error_iff db turnId p req.sourceSystemId
                          msList).mpr ⟨ms, hmem, Or.inr (Or.inr hf)⟩
                      obtain ⟨e, he⟩ := this
                      rw [hchk] at he; cases he
                  · intro db' o h
                    simp only [Except.ok.injEq] at h
                    have h1 : (db.addOrder turnId p OrderType.buildMine req.sourceSystemId
                        none none (msList.map (fun ms => ⟨ms.systemId, ms.amount⟩))).1 = db' := by
                      rw [h]
                    have h2 : (db.addOrder turnId p OrderType.buildMine req.sourceSystemId
                        none none (msList.map (fun ms => ⟨ms.systemId, ms.amount⟩))).2 = o := by
                      rw [h]
                    refine ⟨?_, ?_, ?_⟩
                    · rw [← h2]
                      exact rfl
                    · rw [← h2]
                      exact rfl
                    · rw [← h1, ← h2]
                      exact rfl
            · rw [if_pos (by simp [hsum])]
              refine ⟨iff_of_true ⟨_, rfl⟩ ?_, fun db' o h => by cases h⟩
              refine Or.inr (Or.inr (Or.inr (Or.inr (Or.inl ?_))))
              rw [hms]
              simpa using hsum

/-- Witness for C9 at a concrete request: a two-donor split summing to
15 on an owned, mine-free system. -/
theorem c9_build_mine_validation_witness :
    ((∃ e, create_order mineReqDb 1 1 twoDonorReq = Except.error e) ↔
      buildMineRejected mineReqDb 1 1 twoDonorReq) ∧
    (∀ db' o, create_order mineReqDb 1 1 twoDonorReq = Except.ok (db', o) →
      o.otype = OrderType.buildMine ∧
      o.materialSources =
        (twoDonorReq.materialSources.getD []).map (fun ms => ⟨ms.systemId, ms.amount⟩) ∧
      db'.orders = mineReqDb.orders ++ [o]) :=
  c9_build_mine_validation mineReqDb 1 1 twoDonorReq
    ⟨3, "C", 200, 0, 3, 0, 0, false, false, some 1⟩
    rfl (by decide) (by decide) (by decide)

theorem mem_updateFirst {α : Type} {l : List α} {p : α → Bool} {f : α → α} {y : α}
    (hy : y ∈ updateFirst l p f) : y ∈ l ∨ ∃ x ∈ l, y = f x := by
  induction l with
  | nil => simp [updateFirst] at hy
  | cons a l ih =>
      by_cases hpa : p a = true
      · simp only [updateFirst, hpa, if_true] at hy
        rcases List.mem_cons.mp hy with rfl | hy'
        · exact Or.inr ⟨a, List.mem_cons_self a l, rfl⟩
        · exact Or.inl (List.mem_cons_of_mem a hy')
      · simp only [updateFirst, hpa, Bool.false_eq_true, if_false] at hy
        rcases List.mem_cons.mp hy with rfl | hy'
        · exact Or.inl (List.mem_cons_self y l)
        · rcases ih hy' with h | ⟨x, hx, hfx⟩
          · exact Or.inl (List.mem_cons_of_mem a h)
          · exact Or.inr ⟨x, List.mem_cons_of_mem a hx, hfx⟩

theorem ownersOk_updateSystem {N : Nat} {db : GameDb} (sid : Nat) (f : SystemRec → SystemRec)
    (hf : ∀ s, (f s).ownerPlayerIndex = s.ownerPlayerIndex)
    (h : OwnersOk N db) : OwnersOk N (db.updateSystem sid f) := by
  intro sys hmem
  rcases mem_updateFirst hmem with hmem' | ⟨x, hx, rfl⟩
  · exact h sys hmem'
  · rw [hf x]
    exact h x hx

theorem playersOk_modifyShip {N : Nat} {db : GameDb} (sid : Nat) (p : Int) (f : Int → Int)
    (hp : validPlayerIdx N p) (h : PlayersOk N db) :
    PlayersOk N (db.modifyShip sid p f) := by
  intro s hmem
  unfold GameDb.modifyShip GameDb.getOrCreateShip at hmem
  cases hfind : db.findShip sid p with
  | some srow =>
      rw [hfind] at hmem
      simp only [GameDb.updateShipCount] at hmem
      rcases mem_updateFirst hmem with hmem' | ⟨x, hx, rfl⟩
      · exact h s hmem'
      · exact h x hx
  | none =>
      rw [hfind] at hmem
      simp only [GameDb.updateShipCount] at hmem
      rcases mem_updateFirst hmem with hmem' | ⟨x, hx, rfl⟩
      · rcases List.mem_append.mp hmem' with hmem'' | hmem''
        · exact h s hmem''
        · obtain rfl := List.mem_singleton.mp hmem''
          exact hp
      · rcases List.mem_append.mp hx with hx' | hx'
        · exact h x hx'
        · obtain rfl := List.mem_singleton.mp hx'
          exact hp

@[simp]
theorem addStructure_ships (db : GameDb) (sid : Nat) (p : Int) (t : StructType) :
    (db.addStructure sid p t).ships = db.ships := rfl

@[simp]
theorem updateSystem_ships (db : GameDb) (sid : Nat) (f : SystemRec → SystemRec) :
    (db.updateSystem sid f).ships = db.ships := rfl

theorem modifyShip_systems (db : GameDb) (sid : Nat) (p : Int) (f : Int → Int) :
    (db.modifyShip sid p f).systems = db.systems := by
  unfold GameDb.modifyShip GameDb.getOrCreateShip
  cases db.findShip sid p <;> rfl

theorem step1_ships (db : GameDb) (os : List OrderRec) :
    (step1BuildMines db os).ships = db.ships := by
  refine foldl_proj_eq _ _ _ _ (fun b o => ?_)
  by_cases h : o.otype == OrderType.buildMine
  · simp only [step1BuildMines, h, if_pos]
    refine Eq.trans (foldl_proj_eq _ _ _ _ (fun b ms => ?_)) ?_ <;> simp [GameDb.updateSystem]
  · simp [h]

theorem step2_ships (db : GameDb) (os : List OrderRec) :
    (step2BuildShipyards db os).ships = db.ships := by
  refine foldl_proj_eq _ _ _ _ (fun b o => ?_)
  by_cases h : o.otype == OrderType.buildShipyard <;> simp [h, GameDb.updateSystem]

theorem step1_systems_ownersOk {N : Nat} (db : GameDb) (os : List OrderRec)
    (h : OwnersOk N db) : OwnersOk N (step1BuildMines db os) := by
  refine foldl_invariant (OwnersOk N) _ os db h (fun b o _ hb => ?_)
  by_cases ht : o.otype == OrderType.buildMine
  · simp only [ht, if_pos]
    refine foldl_invariant (OwnersOk N) _ o.materialSources _ ?_ (fun b ms _ hb2 => ?_)
    · intro sys hmem
      exact hb sys hmem
    · exact ownersOk_updateSystem _ _ (fun s => rfl) hb2
  · simpa [ht] using hb

theorem step2_systems_ownersOk {N : Nat} (db : GameDb) (os : List OrderRec)
    (h : OwnersOk N db) : OwnersOk N (step2BuildShipyards db os) := by
  refine foldl_invariant (OwnersOk N) _ os db h (fun b o _ hb => ?_)
  by_cases ht : o.otype == OrderType.buildShipyard
  · simp only [ht, if_pos]
    exact ownersOk_updateSystem _ _ (fun s => rfl) (fun sys hmem => hb sys hmem)
  · simpa [ht] using hb

theorem step3_ok {N : Nat} (db : GameDb) (os : List OrderRec)
    (hos : OrdersOk N os) (hp : PlayersOk N db) (ho : OwnersOk N db) :
    PlayersOk N (step3BuildShips db os) ∧ OwnersOk N (step3BuildShips db os) := by
  refine foldl_invariant (fun d => PlayersOk N d ∧ OwnersOk N d) _ os db ⟨hp, ho⟩
    (fun b o hmem hb => ?_)
  by_cases ht : o.otype == OrderType.buildShips
  · simp only [ht, if_pos]
    constructor
    · refine playersOk_modifyShip _ _ _ (Or.inr (hos o hmem)) ?_
      intro s hs
      exact hb.1 s hs
    · intro sys hmem2
      rw [modifyShip_systems] at hmem2
      exact ownersOk_updateSystem o.sourceSystemId
        (fun s => { s with materials := s.materials - o.quantity.getD 0 })
        (fun s => rfl) hb.2 sys hmem2
  · simpa [ht] using hb

theorem step4_ok {N : Nat} (db : GameDb) (os : List OrderRec)
    (hos : OrdersOk N os) (hp : PlayersOk N db) (ho : OwnersOk N db) :
    PlayersOk N (step4MoveShips db os) ∧ OwnersOk N (step4MoveShips db os) := by
  refine foldl_invariant (fun d => PlayersOk N d ∧ OwnersOk N d) _ os db ⟨hp, ho⟩
    (fun b o hmem hb => ?_)
  by_cases ht : o.otype == OrderType.moveShips
  · simp only [ht, if_pos]
    constructor
    · exact playersOk_modifyShip _ _ _ (Or.inr (hos o hmem))
        (playersOk_modifyShip _ _ _ (Or.inr (hos o hmem)) hb.1)
    · intro sys hmem2
      rw [modifyShip_systems, modifyShip_systems] at hmem2
      exact hb.2 sys hmem2
  · simpa [ht] using hb

theorem mem_eraseDups_loop {α : Type} [BEq α] :
    ∀ (as bs : List α) (x : α), x ∈ List.eraseDups.loop as bs → x ∈ as ∨ x ∈ bs := by
  intro as
  induction as with
  | nil =>
      intro bs x h
      simp only [List.eraseDups.loop] at h
      exact Or.inr (List.mem_reverse.mp h)
  | cons a as ih =>
      intro bs x h
      simp only [List.eraseDups.loop] at h
      cases helem : bs.elem a with
      | true =>
          rw [helem] at h
          rcases ih bs x h with h' | h'
          · exact Or.inl (List.mem_cons_of_mem a h')
          · exact Or.inr h'
      | false =>
          rw [helem] at h
          rcases ih (a :: bs) x h with h' | h'
          · exact Or.inl (List.mem_cons_of_mem a h')
          · rcases List.mem_cons.mp h' with rfl | h''
            · exact Or.inl (List.mem_cons_self x as)
            · exact Or.inr h''

theorem mem_of_mem_eraseDups {α : Type} [BEq α] {l : List α} {x : α}
    (h : x ∈ l.eraseDups) : x ∈ l := by
  rcases mem_eraseDups_loop l [] x h with h' | h'
  · exact h'
  · simp at h'

theorem dictKeys_dictInsert {m : List (Int × Int)} {k v : Int} {x : Int}
    (hx : x ∈ dictKeys (dictInsert m k v)) : x ∈ dictKeys m ∨ x = k := by
  unfold dictInsert at hx
  by_cases hany : (m.any (fun kv => kv.1 == k)) = true
  · rw [if_pos hany] at hx
    unfold dictKeys at hx
    obtain ⟨kv, hkv, hkvx⟩ := List.mem_map.mp hx
    obtain ⟨kv0, hkv0, hkv0eq⟩ := List.mem_map.mp hkv
    by_cases hk : (kv0.1 == k) = true
    · rw [if_pos hk] at hkv0eq
      right
      rw [← hkvx, ← hkv0eq]
    · rw [if_neg hk] at hkv0eq
      left
      exact List.mem_map.mpr ⟨kv0, hkv0, by rw [← hkvx, ← hkv0eq]⟩
  · rw [if_neg hany] at hx
    unfold dictKeys at hx
    rw [List.map_append] at hx
    rcases List.mem_append.mp hx with h' | h'
    · exact Or.inl h'
    · right
      simpa using h'

theorem mem_activeOf {m : List (Int × Int)} {x : Int} (hx : x ∈ activeOf m) :
    x ∈ dictKeys m := by
  unfold activeOf at hx
  obtain ⟨kv, hkv, hkvx⟩ := List.mem_map.mp hx
  exact List.mem_map.mpr ⟨kv, List.mem_of_mem_filter hkv, hkvx⟩

/-- Keys added by a fold of dict inserts come from the folded list. -/
theorem foldl_dictInsert_keys {A : Type} (kf : A → Int)
    (vf : List (Int × Int) → A → Int) :
    ∀ (l : List A) (init : List (Int × Int)) (x : Int),
    x ∈ dictKeys (l.foldl (fun m a => dictInsert m (kf a) (vf m a)) init) →
    x ∈ dictKeys init ∨ x ∈ l.map kf := by
  intro l
  induction l with
  | nil => exact fun init x hx => Or.inl hx
  | cons a l ih =>
      intro init x hx
      rw [List.foldl_cons] at hx
      rcases ih (dictInsert init (kf a) (vf init a)) x hx with h' | h'
      · rcases dictKeys_dictInsert h' with h'' | h''
        · exact Or.inl h''
        · exact Or.inr (by simp [h''])
      · obtain ⟨y, hy, hyx⟩ := List.mem_map.mp h'
        exact Or.inr (List.mem_map.mpr ⟨y, List.mem_cons_of_mem a hy, hyx⟩)

theorem combatRound_keys (rng : Rng) (cur : List (Int × Int)) (bi pc : Nat)
    {x : Int} (hx : x ∈ dictKeys (combatRound rng cur bi pc).1) :
    x ∈ dictKeys cur := by
  unfold combatRound at hx
  simp only [] at hx
  rcases foldl_dictInsert_keys (fun p => p)
      (fun c p => max 0 (dictGet c p - dictGet _ p)) (activeOf cur) cur x hx with h' | h'
  · exact h'
  · obtain ⟨y, hy, hyx⟩ := List.mem_map.mp h'
    exact hyx ▸ mem_activeOf hy

theorem combatLoop_keys (rng : Rng) (turnId sysId : Nat) :
    ∀ (fuel roundNum : Nat) (cur : List (Int × Int)) (bi pc : Nat)
      (logs : List CombatLogRec) (res : List (Int × Int) × List CombatLogRec × Nat × Nat),
    combatLoop rng turnId sysId fuel roundNum cur bi pc logs = some res →
    ∀ x, x ∈ dictKeys res.1 → x ∈ dictKeys cur := by
  intro fuel
  induction fuel with
  | zero =>
      intro roundNum cur bi pc logs res h x hx
      unfold combatLoop at h
      by_cases hac : (activeOf cur).length ≤ 1
      · rw [if_pos hac] at h
        obtain rfl := Option.some.injEq .. ▸ h
        exact hx
      · rw [if_neg hac] at h
        cases h
  | succ f ih =>
      intro roundNum cur bi pc logs res h x hx
      unfold combatLoop at h
      by_cases hac : (activeOf cur).length ≤ 1
      · rw [if_pos hac] at h
        obtain rfl := Option.some.injEq .. ▸ h
        exact hx
      · rw [if_neg hac] at h
        simp only [] at h
        exact combatRound_keys rng cur bi pc
          (ih _ _ _ _ _ res h x hx)

theorem step5One_systems (rng : Rng) (turnId fuel : Nat) (db : GameDb) (sid bi pc : Nat)
    (db' : GameDb) (bi' pc' : Nat)
    (h : step5One rng turnId fuel db sid bi pc = some (db', bi', pc')) :
    db'.systems = db.systems := by
  unfold step5One at h
  by_cases hp :
      (((db.ships.filter (fun s => s.systemId == sid && decide (0 < s.count))).map
        (fun s => s.playerIndex)).eraseDups).length < 2
  · simp only [if_pos hp] at h
    cases h; rfl
  · simp only [if_neg hp] at h
    cases hcl : combatLoop rng turnId sid fuel 1
        ((db.ships.filter (fun s => s.systemId == sid && decide (0 < s.count))).foldl
          (fun m s => dictInsert m s.playerIndex s.count) []) bi pc [] with
    | none => rw [hcl] at h; cases h
    | some r =>
        obtain ⟨cur', newLogs, nbi, npc⟩ := r
        rw [hcl] at h
        simp only [Option.some.injEq, Prod.mk.injEq] at h
        obtain ⟨hdb, -, -⟩ := h
        subst hdb
        have : ∀ (d : GameDb) (kv : Int × Int),
            (d.modifyShip sid kv.1 (fun _ => kv.2)).systems = d.systems := by
          intro d kv; rw [modifyShip_systems]
        simpa using foldl_proj_eq GameDb.systems
          (fun d kv => d.modifyShip sid kv.1 (fun _ => kv.2)) cur' db this

theorem step5One_playersOk {N : Nat} (rng : Rng) (turnId fuel : Nat) (db : GameDb)
    (sid bi pc : Nat) (db' : GameDb) (bi' pc' : Nat)
    (h : step5One rng turnId fuel db sid bi pc = some (db', bi', pc'))
    (hp : PlayersOk N db) : PlayersOk N db' := by
  unfold step5One at h
  by_cases hskip :
      (((db.ships.filter (fun s => s.systemId == sid && decide (0 < s.count))).map
        (fun s => s.playerIndex)).eraseDups).length < 2
  · simp only [if_pos hskip] at h
    simp only [Option.some.injEq, Prod.mk.injEq] at h
    obtain ⟨hdb, -, -⟩ := h
    subst hdb
    exact hp
  · simp only [if_neg hskip] at h
    cases hcl : combatLoop rng turnId sid fuel 1
        ((db.ships.filter (fun s => s.systemId == sid && decide (0 < s.count))).foldl
          (fun m s => dictInsert m s.playerIndex s.count) []) bi pc [] with
    | none => rw [hcl] at h; cases h
    | some r =>
        obtain ⟨cur', newLogs, nbi, npc⟩ := r
        rw [hcl] at h
        simp only [Option.some.injEq, Prod.mk.injEq] at h
        obtain ⟨hdb, -, -⟩ := h
        subst hdb
        intro s hs
        have hs2 : s ∈ (cur'.foldl
            (fun d kv => d.modifyShip sid kv.1 (fun _ => kv.2)) db).ships :=
          List.mem_of_mem_filter hs
        have hwb : PlayersOk N (cur'.foldl
            (fun d kv => d.modifyShip sid kv.1 (fun _ => kv.2)) db) := by
          refine foldl_invariant (PlayersOk N) _ cur' db hp (fun d kv hkv hd => ?_)
          refine playersOk_modifyShip _ _ _ ?_ hd
          have hkey : kv.1 ∈ dictKeys cur' := List.mem_map.mpr ⟨kv, hkv, rfl⟩
          have hkey0 := combatLoop_keys rng turnId sid fuel 1 _ bi pc [] _ hcl kv.1 hkey
          have hcase : kv.1 ∈ dictKeys ([] : List (Int × Int)) ∨
              kv.1 ∈ (db.ships.filter
                (fun srow => srow.systemId == sid && decide (0 < srow.count))).map
                (fun srow => srow.playerIndex) :=
            foldl_dictInsert_keys (fun srow => srow.playerIndex)
              (fun m srow => srow.count)
              (db.ships.filter (fun srow => srow.systemId == sid && decide (0 < srow.count)))
              [] kv.1 hkey0
          rcases hcase with hbad | hgood
          · simp [dictKeys] at hbad
          · obtain ⟨row, hrow, hrowk⟩ := List.mem_map.mp hgood
            rw [← hrowk]
            exact hp row (List.mem_of_mem_filter hrow)
        exact hwb s hs2

theorem step5Combat_ok {N : Nat} (rng : Rng) (turnId fuel : Nat) :
    ∀ (sids : List Nat) (db : GameDb) (bi pc : Nat) (db' : GameDb) (bi' pc' : Nat),
    step5Combat rng turnId fuel sids db bi pc = some (db', bi', pc') →
    PlayersOk N db → db'.systems = db.systems ∧ PlayersOk N db' := by
  intro sids
  induction sids with
  | nil =>
      intro db bi pc db' bi' pc' h hp
      simp only [step5Combat, Option.some.injEq, Prod.mk.injEq] at h
      obtain ⟨hdb, -, -⟩ := h
      subst hdb
      exact ⟨rfl, hp⟩
  | cons sid rest ih =>
      intro db bi pc db' bi' pc' h hp
      simp only [step5Combat] at h
      cases h1 : step5One rng turnId fuel db sid bi pc with
      | none => rw [h1] at h; cases h
      | some r =>
          obtain ⟨dmid, bmid, pmid⟩ := r
          rw [h1] at h
          obtain ⟨hsys, hpl⟩ := ih dmid bmid pmid db' bi' pc' h
            (step5One_playersOk rng turnId fuel db sid bi pc dmid bmid pmid h1 hp)
          exact ⟨hsys.trans (step5One_systems rng turnId fuel db sid bi pc dmid bmid pmid h1),
            hpl⟩

theorem step6One_ok {N : Nat} (db : GameDb) (sid : Nat)
    (hp : PlayersOk N db) (ho : OwnersOk N db) :
    PlayersOk N (step6One db sid) ∧ OwnersOk N (step6One db sid) := by
  refine ⟨fun s hs => hp s (by rwa [step6One_ships] at hs), ?_⟩
  unfold step6One
  simp only []
  cases hpl : ((db.ships.filter (fun s => s.systemId == sid && decide (0 < s.count))).map
      (fun s => s.playerIndex)).eraseDups with
  | nil => exact ho
  | cons q rest =>
      cases rest with
      | cons a b => exact ho
      | nil =>
          have hq : validPlayerIdx N q := by
            have hq1 : q ∈ ((db.ships.filter
                (fun s => s.systemId == sid && decide (0 < s.count))).map
                (fun s => s.playerIndex)).eraseDups := by
              rw [hpl]; exact List.mem_singleton_self q
            obtain ⟨row, hrow, hrowq⟩ := List.mem_map.mp (mem_of_mem_eraseDups hq1)
            rw [← hrowq]
            exact hp row (List.mem_of_mem_filter hrow)
          cases hfs : db.findSystem sid with
          | none => exact ho
          | some sys =>
              by_cases hbeq : (sys.ownerPlayerIndex == some q) = true
              · simp only [hbeq, if_true]
                exact ho
              · simp only [hbeq, Bool.false_eq_true, if_false]
                intro sys2 hmem
                have hmem' : sys2 ∈ (db.updateSystem sid
                    (fun s => { s with ownerPlayerIndex := some q })).systems := hmem
                rcases mem_updateFirst hmem' with hmem'' | ⟨x, hx, rfl⟩
                · exact ho sys2 hmem''
                · exact Or.inr ⟨q, rfl, hq⟩

theorem step7One_ownersOk {N : Nat} (db : GameDb) (sid : Nat)
    (ho : OwnersOk N db) : OwnersOk N (step7One db sid) := by
  unfold step7One
  split <;> try exact ho
  split <;> try exact ho
  split <;> try exact ho
  exact ownersOk_updateSystem sid
    (fun s => { s with materials := s.materials + s.miningValue }) (fun s => rfl) ho

theorem phase2_systems (db : GameDb) (t n : Nat) :
    (phase2NextTurn db t n).systems = db.systems := by
  unfold phase2NextTurn
  exact foldl_proj_eq GameDb.systems _ _ _ (fun b i => rfl)

/-- Through a successful phase 1 the owner indices stay valid: owners
change only in step 6, to the index of a positive-count ship group, and
ship groups only ever carry initial-ship or order player indices. -/
theorem pipelinePhase1_ownersOk {N : Nat} (db : GameDb) (turnId : Nat) (rng : Rng)
    (fuel : Nat) (g1 : GameDb) (h : pipelinePhase1 db turnId rng fuel = some g1)
    (hp : PlayersOk N db) (ho : OwnersOk N db)
    (hord : OrdersOk N (db.orders.filter (fun o => o.turnId == turnId))) :
    OwnersOk N g1 := by
  unfold pipelinePhase1 at h
  simp only [] at h
  set orders := db.orders.filter (fun o => o.turnId == turnId) with horders
  set d1 := step1BuildMines db orders with hd1
  set d2 := step2BuildShipyards d1 orders with hd2
  set d3 := step3BuildShips d2 orders with hd3
  set d4 := step4MoveShips d3 orders with hd4
  set sids := d4.systems.map (fun s => s.systemId) with hsids
  have hp1 : PlayersOk N d1 := by
    intro s hs; rw [hd1, step1_ships] at hs; exact hp s hs
  have ho1 : OwnersOk N d1 := hd1 ▸ step1_systems_ownersOk db orders ho
  have hp2 : PlayersOk N d2 := by
    intro s hs; rw [hd2, step2_ships] at hs; exact hp1 s hs
  have ho2 : OwnersOk N d2 := hd2 ▸ step2_systems_ownersOk d1 orders ho1
  have h3 := step3_ok d2 orders hord hp2 ho2
  have h4 := step4_ok d3 orders hord (hd3 ▸ h3.1) (hd3 ▸ h3.2)
  cases h5 : step5Combat rng turnId fuel sids d4 0 0 with
  | none => rw [h5] at h; cases h
  | some r =>
      obtain ⟨d5, bi5, pc5⟩ := r
      rw [h5] at h
      simp only [Option.some.injEq] at h
      obtain ⟨hsys5, hp5⟩ := step5Combat_ok rng turnId fuel sids d4 0 0 d5 bi5 pc5 h5
        (hd4 ▸ h4.1)
      have ho5 : OwnersOk N d5 := by
        intro sys hs; rw [hsys5] at hs; exact (hd4 ▸ h4.2) sys hs
      have h6 : PlayersOk N (step6Ownership d5 sids) ∧ OwnersOk N (step6Ownership d5 sids) := by
        refine foldl_invariant (fun d => PlayersOk N d ∧ OwnersOk N d) step6One sids d5
          ⟨hp5, ho5⟩ (fun b x _ hb => step6One_ok b x hb.1 hb.2)
      have h7 : OwnersOk N (step7Production (step6Ownership d5 sids) sids) := by
        refine foldl_invariant (OwnersOk N) step7One sids _ h6.2
          (fun b x _ hb => step7One_ownersOk b x hb)
      intro sys hs
      rw [← h] at hs
      exact h7 sys hs

/-- Claim C6: after resolving any turn (from valid player-index data and
an active game), the game completes - with the winner set to Founder's
World's owner - if and only if Founder's World's post-resolution owner is
a real player index in 1..N; ownership by the neutral index -1 or by
nobody never completes the game. -/
theorem c6_victory_check (db : GameDb) (adb : AdminDb) (turnId : Nat) (rng : Rng)
    (fuel : Nat) (gdb' : GameDb) (adb' : AdminDb)
    (hres : resolve_turn db adb turnId rng fuel = some (gdb', adb'))
    (hstatus : adb.status = GameStatus.active)
    (hp : PlayersOk adb.numPlayers db) (ho : OwnersOk adb.numPlayers db)
    (hord : OrdersOk adb.numPlayers (db.orders.filter (fun o => o.turnId == turnId))) :
    (adb'.status = GameStatus.completed ↔
      ∃ i, fwOwner gdb' = some i ∧ 1 ≤ i ∧ i ≤ (adb.numPlayers : Int)) ∧
    (adb'.status = GameStatus.completed → adb'.winnerPlayerIndex = fwOwner gdb') := by
  unfold resolve_turn at hres
  cases h1 : pipelinePhase1 db turnId rng fuel with
  | none => rw [h1] at hres; cases hres
  | some g1 =>
      rw [h1] at hres
      simp only [Option.some.injEq, Prod.mk.injEq] at hres
      obtain ⟨hg, ha⟩ := hres
      subst hg
      subst ha
      have hOg2 : OwnersOk adb.numPlayers (phase2NextTurn g1 turnId adb.numPlayers) := by
        intro sys hs
        rw [phase2_systems] at hs
        exact pipelinePhase1_ownersOk db turnId rng fuel g1 h1 hp ho hord sys hs
      set g2 := phase2NextTurn g1 turnId adb.numPlayers with hg2
      cases hfw : g2.systems.find? (fun s => s.isFoundersWorld) with
      | none =>
          have hst : (phase3Admin adb g2 turnId).status = adb.status := by
            unfold phase3Admin
            simp only []
            rw [hfw]
          have hfwo : fwOwner g2 = none := by
            unfold fwOwner
            rw [hfw]
            rfl
          rw [hst, hstatus, hfwo]
          refine ⟨iff_of_false (fun hx => by cases hx) ?_, fun hx => by cases hx⟩
          rintro ⟨i, hi, -⟩
          cases hi
      | some fw =>
          have hfwo0 : fwOwner g2 = fw.ownerPlayerIndex := by
            unfold fwOwner
            rw [hfw]
            rfl
          cases hown2 : fw.ownerPlayerIndex with
          | none =>
              have hst : (phase3Admin adb g2 turnId).status = adb.status := by
                unfold phase3Admin
                simp only []
                rw [hfw]
                simp only []
                rw [hown2]
              rw [hst, hstatus, hfwo0, hown2]
              refine ⟨iff_of_false (fun hx => by cases hx) ?_, fun hx => by cases hx⟩
              rintro ⟨i, hi, -⟩
              cases hi
          | some o =>
              by_cases hneg : (o == -1) = true
              · have ho' : o = -1 := by simpa using hneg
                have hst : (phase3Admin adb g2 turnId).status = adb.status := by
                  unfold phase3Admin
                  simp only []
                  rw [hfw]
                  simp only []
                  rw [hown2]
                  simp only [hneg, if_true]
                rw [hst, hstatus, hfwo0, hown2, ho']
                refine ⟨iff_of_false (fun hx => by cases hx) ?_, fun hx => by cases hx⟩
                rintro ⟨i, hi, hge, -⟩
                obtain rfl : (-1 : Int) = i := by simpa using hi
                exact absurd hge (by decide)
              · have hst : (phase3Admin adb g2 turnId).status = GameStatus.completed ∧
                    (phase3Admin adb g2 turnId).winnerPlayerIndex = some o := by
                  unfold phase3Admin
                  simp only []
                  rw [hfw]
                  simp only []
                  rw [hown2]
                  simp only [hneg, Bool.false_eq_true, if_false]
                  exact ⟨by trivial, by trivial⟩
                have hfwmem : fw ∈ g2.systems := List.mem_of_find?_eq_some hfw
                rcases hOg2 fw hfwmem with hbad | ⟨i, hi, hvi⟩
                · rw [hown2] at hbad
                  cases hbad
                · rw [hown2] at hi
                  obtain rfl : o = i := by simpa using hi
                  rcases hvi with hneg1 | hrange
                  · exact absurd hneg1 (by simpa using hneg)
                  · rw [hst.1, hfwo0, hown2]
                    exact ⟨iff_of_true rfl ⟨o, rfl, hrange.1, hrange.2⟩,
                      fun _ => hst.2.trans rfl⟩

/-- Witness for C6: three player-1 ships on an unowned Founder's World;
resolution completes the game with winner 1, matching the owner-in-1..N
criterion. -/
theorem c6_victory_check_witness :
    (duoAdmin.status = GameStatus.active ∧ PlayersOk duoAdmin.numPlayers fwDb) ∧
    ((c6Out.2.status = GameStatus.completed ↔
        ∃ i, fwOwner c6Out.1 = some i ∧ 1 ≤ i ∧ i ≤ (duoAdmin.numPlayers : Int)) ∧
      (c6Out.2.status = GameStatus.completed →
        c6Out.2.winnerPlayerIndex = fwOwner c6Out.1)) :=
  ⟨⟨rfl, by decide⟩,
    c6_victory_check fwDb duoAdmin 1 quietRng 4 c6Out.1 c6Out.2
      (by decide) rfl (by decide) (by decide) (by decide)⟩

/-- C8: `generate_map` is a pure function of `(num_players, seed)` - all
randomness (sizes, clusters, shuffles, choices, layout jitter, spring
seed, names, mining rolls) is drawn from `random.Random(seed)`, so with
a seed given the ambient-entropy source is never consulted and two
invocations return identical systems, jump lines and clusters. -/
theorem c8_generate_map_deterministic (prng : Nat → Nat → Nat)
    (layoutFn : LayoutFn) (numPlayers : Nat) (seed : Nat)
    (world1 world2 : Nat → Nat) :
    generate_map prng layoutFn numPlayers (some seed) world1 =
      generate_map prng layoutFn numPlayers (some seed) world2 := rfl

/- ====================================================================
Map-generator lemmas: basic graph facts.
==================================================================== -/

theorem addNode_edges (G : Graph) (n : Nat) : (G.addNode n).edges = G.edges := by
  unfold Graph.addNode; split <;> rfl

theorem mem_addNode_self (G : Graph) (n : Nat) : n ∈ (G.addNode n).nodes := by
  unfold Graph.addNode; split
  · assumption
  · simp

theorem mem_addNode_of_mem (G : Graph) (n m : Nat) (h : m ∈ G.nodes) :
    m ∈ (G.addNode n).nodes := by
  unfold Graph.addNode; split
  · exact h
  · simp [h]

theorem addNode_of_mem (G : Graph) (n : Nat) (h : n ∈ G.nodes) :
    G.addNode n = G := by
  unfold Graph.addNode; simp [h]

theorem addEdge_nodes (G : Graph) (a b : Nat) :
    (G.addEdge a b).nodes = ((G.addNode a).addNode b).nodes := by
  unfold Graph.addEdge; simp only []; split <;> rfl

theorem mem_addEdge_of_mem (G : Graph) (a b m : Nat) (h : m ∈ G.nodes) :
    m ∈ (G.addEdge a b).nodes := by
  rw [addEdge_nodes]
  exact mem_addNode_of_mem _ _ _ (mem_addNode_of_mem _ _ _ h)

theorem addEdge_nodes_of_mem (G : Graph) (a b : Nat) (ha : a ∈ G.nodes)
    (hb : b ∈ G.nodes) : (G.addEdge a b).nodes = G.nodes := by
  rw [addEdge_nodes, addNode_of_mem _ _ ha, addNode_of_mem _ _ hb]

theorem adjB_iff (es : List (Nat × Nat)) (a b : Nat) :
    adjB es a b = true ↔ Adj es a b := by
  unfold adjB Adj
  rw [List.any_eq_true]
  constructor
  · rintro ⟨e, he, hcond⟩
    rcases Bool.or_eq_true_iff.mp hcond with h | h
    · left
      obtain ⟨h1, h2⟩ := Bool.and_eq_true_iff.mp h
      have : e = (a, b) := Prod.ext (by simpa using h1) (by simpa using h2)
      rwa [this] at he
    · right
      obtain ⟨h1, h2⟩ := Bool.and_eq_true_iff.mp h
      have : e = (b, a) := Prod.ext (by simpa using h1) (by simpa using h2)
      rwa [this] at he
  · rintro (h | h)
    · exact ⟨(a, b), h, by simp⟩
    · exact ⟨(b, a), h, by simp⟩

theorem hasEdge_eq_adjB (G : Graph) (a b : Nat) :
    G.hasEdge a b = adjB G.edges a b := rfl

theorem adj_symm {es : List (Nat × Nat)} {a b : Nat} (h : Adj es a b) :
    Adj es b a := h.symm

theorem reach_symm {es : List (Nat × Nat)} {a b : Nat} (h : Reach es a b) :
    Reach es b a :=
  Relation.ReflTransGen.symmetric (fun _ _ hadj => adj_symm hadj) h

theorem reach_single {es : List (Nat × Nat)} {a b : Nat} (h : Adj es a b) :
    Reach es a b :=
  Relation.ReflTransGen.single h

theorem addEdge_edges_spec (G : Graph) (a b : Nat) :
    ((G.addEdge a b).edges = G.edges ∧ Adj G.edges a b) ∨
      (G.addEdge a b).edges = G.edges ++ [(a, b)] := by
  unfold Graph.addEdge
  simp only []
  split
  · left
    constructor
    · rw [addNode_edges, addNode_edges]
    · have h : ((G.addNode a).addNode b).hasEdge a b = true := by assumption
      rw [hasEdge_eq_adjB, addNode_edges, addNode_edges] at h
      exact (adjB_iff _ _ _).mp h
  · right
    simp only []
    rw [addNode_edges, addNode_edges]

theorem adj_addEdge_iff (G : Graph) (a b x y : Nat) :
    Adj (G.addEdge a b).edges x y ↔
      Adj G.edges x y ∨ (x = a ∧ y = b) ∨ (x = b ∧ y = a) := by
  rcases addEdge_edges_spec G a b with ⟨he, hadj⟩ | he <;> rw [he]
  · constructor
    · exact Or.inl
    · rintro (h | ⟨rfl, rfl⟩ | ⟨rfl, rfl⟩)
      · exact h
      · exact hadj
      · exact adj_symm hadj
  · unfold Adj
    simp only [List.mem_append, List.mem_singleton, Prod.mk.injEq]
    tauto

theorem adj_addEdge_self (G : Graph) (a b : Nat) :
    Adj (G.addEdge a b).edges a b :=
  (adj_addEdge_iff G a b a b).mpr (Or.inr (Or.inl ⟨rfl, rfl⟩))

theorem reach_mono_addEdge (G : Graph) (a b x y : Nat)
    (h : Reach G.edges x y) : Reach (G.addEdge a b).edges x y :=
  Relation.ReflTransGen.mono
    (fun _ _ hadj => (adj_addEdge_iff G a b _ _).mpr (Or.inl hadj)) h

theorem reach_addEdge_iff (G : Graph) (a b x y : Nat) :
    Reach (G.addEdge a b).edges x y ↔
      Reach G.edges x y ∨ (Reach G.edges x a ∧ Reach G.edges b y) ∨
        (Reach G.edges x b ∧ Reach G.edges a y) := by
  constructor
  · intro h
    induction h with
    | refl => exact Or.inl Relation.ReflTransGen.refl
    | tail _ hadj ih =>
        rcases (adj_addEdge_iff G a b _ _).mp hadj with hG | ⟨rfl, rfl⟩ | ⟨rfl, rfl⟩
        · rcases ih with h1 | ⟨h1, h2⟩ | ⟨h1, h2⟩
          · exact Or.inl (h1.tail hG)
          · exact Or.inr (Or.inl ⟨h1, h2.tail hG⟩)
          · exact Or.inr (Or.inr ⟨h1, h2.tail hG⟩)
        · rcases ih with h1 | ⟨h1, h2⟩ | ⟨h1, h2⟩
          · exact Or.inr (Or.inl ⟨h1, Relation.ReflTransGen.refl⟩)
          · exact Or.inr (Or.inl ⟨h1, Relation.ReflTransGen.refl⟩)
          · exact Or.inl h1
        · rcases ih with h1 | ⟨h1, h2⟩ | ⟨h1, h2⟩
          · exact Or.inr (Or.inr ⟨h1, Relation.ReflTransGen.refl⟩)
          · exact Or.inl h1
          · exact Or.inr (Or.inr ⟨h1, Relation.ReflTransGen.refl⟩)
  · rintro (h | ⟨h1, h2⟩ | ⟨h1, h2⟩)
    · exact reach_mono_addEdge G a b x y h
    · exact ((reach_mono_addEdge G a b x a h1).tail
        (adj_addEdge_self G a b)).trans (reach_mono_addEdge G a b b y h2)
    · exact ((reach_mono_addEdge G a b x b h1).tail
        (adj_symm (adj_addEdge_self G a b))).trans (reach_mono_addEdge G a b a y h2)

theorem degree_eq_degE (G : Graph) (n : Nat) : G.degree n = degE G.edges n := rfl

theorem degE_foldl_acc (es : List (Nat × Nat)) (n : Nat) : ∀ acc : Nat,
    es.foldl
      (fun acc e => acc + (if e.1 = n then 1 else 0) + (if e.2 = n then 1 else 0)) acc =
      acc + degE es n := by
  induction es with
  | nil => intro acc; simp [degE]
  | cons e rest ih =>
      intro acc
      show rest.foldl _ (acc + _ + _) = _
      rw [ih]
      have h2 : degE (e :: rest) n =
          (0 + (if e.1 = n then 1 else 0) + (if e.2 = n then 1 else 0)) + degE rest n := by
        show rest.foldl _ (0 + _ + _) = _
        exact ih _
      rw [h2]
      omega

theorem degE_cons (e : Nat × Nat) (es : List (Nat × Nat)) (n : Nat) :
    degE (e :: es) n =
      (if e.1 = n then 1 else 0) + (if e.2 = n then 1 else 0) + degE es n := by
  show es.foldl _ (0 + _ + _) = _
  rw [degE_foldl_acc]
  omega

theorem degE_append_one (es : List (Nat × Nat)) (a b n : Nat) :
    degE (es ++ [(a, b)]) n =
      degE es n + (if a = n then 1 else 0) + (if b = n then 1 else 0) := by
  unfold degE
  rw [List.foldl_append]
  show List.foldl _ _ [(a, b)] = _
  simp only [List.foldl_cons, List.foldl_nil]

theorem addEdge_degree_le (G : Graph) (a b n : Nat) :
    (G.addEdge a b).degree n ≤
      G.degree n + (if a = n then 1 else 0) + (if b = n then 1 else 0) := by
  rw [degree_eq_degE, degree_eq_degE]
  rcases addEdge_edges_spec G a b with ⟨he, _⟩ | he <;> rw [he]
  · omega
  · rw [degE_append_one]

theorem addEdge_degree_ne (G : Graph) (a b n : Nat) (hna : a ≠ n) (hnb : b ≠ n) :
    (G.addEdge a b).degree n = G.degree n := by
  rw [degree_eq_degE, degree_eq_degE]
  rcases addEdge_edges_spec G a b with ⟨he, _⟩ | he <;> rw [he]
  rw [degE_append_one]
  simp [hna, hnb]

theorem degE_pos_of_incident (es : List (Nat × Nat)) (n : Nat) (e : Nat × Nat)
    (he : e ∈ es) (h : e.1 = n ∨ e.2 = n) : 1 ≤ degE es n := by
  induction es with
  | nil => cases he
  | cons f rest ih =>
      rw [degE_cons]
      rcases List.mem_cons.mp he with rfl | hmem
      · rcases h with h1 | h1 <;> simp [h1] <;> omega
      · have := ih hmem
        omega

theorem degE_zero_of_avoid (es : List (Nat × Nat)) (n : Nat)
    (h : ∀ e ∈ es, e.1 ≠ n ∧ e.2 ≠ n) : degE es n = 0 := by
  induction es with
  | nil => rfl
  | cons f rest ih =>
      rw [degE_cons]
      have hf := h f (List.mem_cons_self f rest)
      rw [ih (fun e he => h e (List.mem_cons_of_mem f he))]
      simp [hf.1, hf.2]

theorem wf_addEdge (G : Graph) (a b : Nat) (h : G.WF) : (G.addEdge a b).WF := by
  intro e he
  rcases addEdge_edges_spec G a b with ⟨hedges, _⟩ | hedges
  · rw [hedges] at he
    exact ⟨mem_addEdge_of_mem G a b _ (h e he).1, mem_addEdge_of_mem G a b _ (h e he).2⟩
  · rw [hedges, List.mem_append] at he
    rcases he with he | he
    · exact ⟨mem_addEdge_of_mem G a b _ (h e he).1, mem_addEdge_of_mem G a b _ (h e he).2⟩
    · have : e = (a, b) := by simpa using he
      subst this
      constructor
      · rw [addEdge_nodes]
        exact mem_addNode_of_mem _ _ _ (mem_addNode_self G a)
      · rw [addEdge_nodes]
        exact mem_addNode_self _ b

/-- A node that reaches a different node has an incident edge. -/
theorem degE_pos_of_reach_ne (es : List (Nat × Nat)) (n m : Nat)
    (h : Reach es n m) (hne : n ≠ m) : 1 ≤ degE es n := by
  rcases Relation.ReflTransGen.cases_head h with rfl | ⟨c, hadj, _⟩
  · exact absurd rfl hne
  · rcases hadj with hmem | hmem
    · exact degE_pos_of_incident es n _ hmem (Or.inl rfl)
    · exact degE_pos_of_incident es n _ hmem (Or.inr rfl)

/- ====================================================================
Map-generator lemmas: the executable reachability closure is sound and,
with enough fuel, complete.
==================================================================== -/

theorem subset_closeStep (es : List (Nat × Nat)) (nodes S : Finset Nat) :
    S ⊆ closeStep es nodes S :=
  Finset.subset_union_left

theorem mem_closeStep_of_adj (es : List (Nat × Nat)) (nodes S : Finset Nat)
    (x y : Nat) (hx : x ∈ S) (hy : y ∈ nodes) (hadj : Adj es x y) :
    y ∈ closeStep es nodes S := by
  unfold closeStep
  refine Finset.mem_union_right _ (Finset.mem_filter.mpr ⟨hy, x, hx, ?_⟩)
  exact (adjB_iff es x y).mpr hadj

theorem reachSet_succ (es : List (Nat × Nat)) (nodes : Finset Nat) (a k : Nat) :
    reachSet es nodes a (k + 1) = closeStep es nodes (reachSet es nodes a k) := rfl

theorem reachSet_le_succ (es : List (Nat × Nat)) (nodes : Finset Nat) (a k : Nat) :
    reachSet es nodes a k ⊆ reachSet es nodes a (k + 1) :=
  subset_closeStep es nodes _

theorem reachSet_mono_fuel (es : List (Nat × Nat)) (nodes : Finset Nat) (a : Nat)
    {k m : Nat} (h : k ≤ m) : reachSet es nodes a k ⊆ reachSet es nodes a m := by
  induction h with
  | refl => exact fun x hx => hx
  | step _ ih => exact fun x hx => reachSet_le_succ es nodes a _ (ih hx)

theorem mem_reachSet_self (es : List (Nat × Nat)) (nodes : Finset Nat) (a k : Nat) :
    a ∈ reachSet es nodes a k :=
  reachSet_mono_fuel es nodes a (Nat.zero_le k) (Finset.mem_singleton_self a)

theorem reachSet_sound (es : List (Nat × Nat)) (nodes : Finset Nat) (a : Nat) :
    ∀ (k : Nat) (x : Nat), x ∈ reachSet es nodes a k → Reach es a x := by
  intro k
  induction k with
  | zero =>
      intro x hx
      have : x = a := Finset.mem_singleton.mp hx
      rw [this]
      exact Relation.ReflTransGen.refl
  | succ k ih =>
      intro x hx
      rcases Finset.mem_union.mp hx with hx | hx
      · exact ih x hx
      · obtain ⟨hxn, y, hy, hadj⟩ := Finset.mem_filter.mp hx
        exact (ih y hy).tail ((adjB_iff es y x).mp hadj)

theorem reachSet_subset_insert (es : List (Nat × Nat)) (nodes : Finset Nat)
    (a : Nat) : ∀ k, reachSet es nodes a k ⊆ insert a nodes := by
  intro k
  induction k with
  | zero => simp [reachSet]
  | succ k ih =>
      intro x hx
      rcases Finset.mem_union.mp hx with hx | hx
      · exact ih hx
      · exact Finset.mem_insert_of_mem (Finset.mem_filter.mp hx).1

theorem reachSet_stable (es : List (Nat × Nat)) (nodes : Finset Nat) (a k : Nat)
    (hfix : closeStep es nodes (reachSet es nodes a k) = reachSet es nodes a k) :
    ∀ m, reachSet es nodes a (k + m) = reachSet es nodes a k := by
  intro m
  induction m with
  | zero => rfl
  | succ m ih =>
      show closeStep es nodes (reachSet es nodes a (k + m)) = _
      rw [ih, hfix]

theorem reachSet_growth (es : List (Nat × Nat)) (nodes : Finset Nat) (a : Nat) :
    ∀ m, (∀ j < m, reachSet es nodes a (j + 1) ≠ reachSet es nodes a j) →
      m + 1 ≤ (reachSet es nodes a m).card := by
  intro m
  induction m with
  | zero => intro _; simp [reachSet]
  | succ m ih =>
      intro h
      have h1 : m + 1 ≤ (reachSet es nodes a m).card :=
        ih (fun j hj => h j (Nat.lt_succ_of_lt hj))
      have hss : reachSet es nodes a m ⊂ reachSet es nodes a (m + 1) :=
        Finset.ssubset_iff_subset_ne.mpr
          ⟨reachSet_le_succ es nodes a m, fun he => h m (Nat.lt_succ_self m) he.symm⟩
      have := Finset.card_lt_card hss
      omega

theorem reachSet_saturates (es : List (Nat × Nat)) (nodes : Finset Nat) (a : Nat)
    (ha : a ∈ nodes) :
    ∃ k ≤ nodes.card, closeStep es nodes (reachSet es nodes a k) = reachSet es nodes a k := by
  by_contra hno
  push_neg at hno
  have hgrow := reachSet_growth es nodes a (nodes.card + 1)
    (fun j hj => hno j (by omega))
  have hsub : reachSet es nodes a (nodes.card + 1) ⊆ nodes := by
    intro x hx
    have := reachSet_subset_insert es nodes a (nodes.card + 1) hx
    rcases Finset.mem_insert.mp this with rfl | hxm
    · exact ha
    · exact hxm
  have := Finset.card_le_card hsub
  omega

theorem reachSet_complete (es : List (Nat × Nat)) (nodesF : Finset Nat)
    (a b fuel : Nat) (ha : a ∈ nodesF)
    (hes : ∀ e ∈ es, e.1 ∈ nodesF ∧ e.2 ∈ nodesF)
    (hfuel : nodesF.card ≤ fuel) (hr : Reach es a b) :
    b ∈ reachSet es nodesF a fuel := by
  obtain ⟨k, hk, hfix⟩ := reachSet_saturates es nodesF a ha
  have hful : reachSet es nodesF a fuel = reachSet es nodesF a k := by
    have : fuel = k + (fuel - k) := by omega
    rw [this]
    exact reachSet_stable es nodesF a k hfix (fuel - k)
  rw [hful]
  clear hful hfuel
  induction hr with
  | refl => exact mem_reachSet_self es nodesF a k
  | @tail x y hxy hadj ih =>
      have hyn : y ∈ nodesF := by
        rcases hadj with hmem | hmem
        · exact (hes _ hmem).2
        · exact (hes _ hmem).1
      have := mem_closeStep_of_adj es nodesF (reachSet es nodesF a k) x y ih hyn hadj
      rwa [hfix] at this

theorem reachList_subset (G : Graph) (a : Nat) : ∀ b ∈ reachList G a, b ∈ G.nodes :=
  fun _ hb => (List.mem_filter.mp hb).1

theorem self_mem_reachList (G : Graph) (a : Nat) (ha : a ∈ G.nodes) :
    a ∈ reachList G a :=
  List.mem_filter.mpr ⟨ha, by
    simp only [decide_eq_true_eq]
    exact mem_reachSet_self _ _ a _⟩

theorem mem_reachList_iff (G : Graph) (a b : Nat) (ha : a ∈ G.nodes)
    (hwf : G.WF) : b ∈ reachList G a ↔ b ∈ G.nodes ∧ Reach G.edges a b := by
  constructor
  · intro hb
    obtain ⟨h1, h2⟩ := List.mem_filter.mp hb
    simp only [decide_eq_true_eq] at h2
    exact ⟨h1, reachSet_sound _ _ a _ b h2⟩
  · rintro ⟨hbn, hr⟩
    refine List.mem_filter.mpr ⟨hbn, ?_⟩
    simp only [decide_eq_true_eq]
    exact reachSet_complete G.edges G.nodes.toFinset a b G.nodes.length
      (List.mem_toFinset.mpr ha)
      (fun e he => ⟨List.mem_toFinset.mpr (hwf e he).1, List.mem_toFinset.mpr (hwf e he).2⟩)
      G.nodes.toFinset_card_le hr

/- ====================================================================
Map-generator lemmas: connected components and the repair loop.
==================================================================== -/

theorem choiceD_mem {α : Type} (g : Nat → Nat) (c : Nat) (l : List α) (d : α)
    (h : l ≠ []) : (choiceD g c l d).1 ∈ l := by
  unfold choiceD
  have hlen : 0 < l.length := List.length_pos.mpr h
  have hlt : g c % l.length < l.length := Nat.mod_lt _ hlen
  simp only []
  rw [List.getD_eq_getElem l d hlt]
  exact List.getElem_mem hlt

theorem componentsList_aux (G : Graph) (hwf : G.WF) :
    ∀ (l : List Nat) (acc : List (List Nat)),
      (∀ n ∈ l, n ∈ G.nodes) → compsOk G acc →
      compsOk G (l.foldl
        (fun comps n =>
          if comps.any (fun c => n ∈ c) then comps else comps ++ [reachList G n]) acc) ∧
      (∀ c ∈ acc, c ∈ l.foldl
        (fun comps n =>
          if comps.any (fun c => n ∈ c) then comps else comps ++ [reachList G n]) acc) ∧
      (∀ n ∈ l, ∃ c ∈ l.foldl
        (fun comps n =>
          if comps.any (fun c => n ∈ c) then comps else comps ++ [reachList G n]) acc, n ∈ c) := by
  intro l
  induction l with
  | nil =>
      intro acc _ hok
      exact ⟨hok, fun c hc => hc, fun n hn => absurd hn (List.not_mem_nil n)⟩
  | cons n rest ih =>
      intro acc hmem hok
      simp only [List.foldl_cons]
      by_cases hany : acc.any (fun c => n ∈ c) = true
      · rw [if_pos hany]
        obtain ⟨hok2, hpres, hcov⟩ := ih acc
          (fun m hm => hmem m (List.mem_cons_of_mem n hm)) hok
        refine ⟨hok2, hpres, fun m hm => ?_⟩
        rcases List.mem_cons.mp hm with rfl | hm2
        · obtain ⟨c, hc, hnc⟩ := List.any_eq_true.mp hany
          exact ⟨c, hpres c hc, by simpa using hnc⟩
        · exact hcov m hm2
      · rw [if_neg hany]
        have hnn : n ∈ G.nodes := hmem n (List.mem_cons_self n rest)
        have hnotin : ∀ c ∈ acc, n ∉ c := by
          intro c hc hnc
          exact hany (List.any_eq_true.mpr ⟨c, hc, by simpa using hnc⟩)
        have hok' : compsOk G (acc ++ [reachList G n]) := by
          obtain ⟨hclos, hpw⟩ := hok
          constructor
          · intro c hc
            rcases List.mem_append.mp hc with hc | hc
            · exact hclos c hc
            · have : c = reachList G n := by simpa using hc
              exact ⟨n, hnn, this⟩
          · rw [List.pairwise_append]
            refine ⟨hpw, List.pairwise_singleton _ _, ?_⟩
            intro c hc d hd x hx y hy hreach
            have hd2 : d = reachList G n := by simpa using hd
            subst hd2
            obtain ⟨r, hr, rfl⟩ := hclos c hc
            have hrx : Reach G.edges r x :=
              ((mem_reachList_iff G r x hr hwf).mp hx).2
            have hny : Reach G.edges n y :=
              ((mem_reachList_iff G n y hnn hwf).mp hy).2
            have hrn : Reach G.edges r n :=
              ((hrx.trans hreach).trans (reach_symm hny))
            exact hnotin _ hc ((mem_reachList_iff G r n hr hwf).mpr ⟨hnn, hrn⟩)
        obtain ⟨hok2, hpres, hcov⟩ := ih (acc ++ [reachList G n])
          (fun m hm => hmem m (List.mem_cons_of_mem n hm)) hok'
        refine ⟨hok2, fun c hc => hpres c (List.mem_append_left _ hc), fun m hm => ?_⟩
        rcases List.mem_cons.mp hm with rfl | hm2
        · exact ⟨reachList G m,
            hpres _ (List.mem_append_right _ (List.mem_singleton_self _)),
            self_mem_reachList G m hnn⟩
        · exact hcov m hm2

theorem componentsList_ok (G : Graph) (hwf : G.WF) :
    compsOk G (componentsList G) ∧
      ∀ n ∈ G.nodes, ∃ c ∈ componentsList G, n ∈ c := by
  have := componentsList_aux G hwf G.nodes []
    (fun n hn => hn) ⟨fun c hc => absurd hc (List.not_mem_nil c), List.Pairwise.nil⟩
  exact ⟨this.1, this.2.2⟩

theorem connected_of_comps_le_one (G : Graph) (hwf : G.WF)
    (h : (componentsList G).length ≤ 1) : GraphConnected G := by
  obtain ⟨⟨hclos, _⟩, hcov⟩ := componentsList_ok G hwf
  intro a ha b hb
  obtain ⟨ca, hca, hain⟩ := hcov a ha
  obtain ⟨cb, hcb, hbin⟩ := hcov b hb
  have hcacb : ca = cb := by
    cases hc : componentsList G with
    | nil => rw [hc] at hca; cases hca
    | cons c0 rest =>
        rw [hc] at h
        have : rest = [] := by
          cases rest with
          | nil => rfl
          | cons _ _ => simp at h
        subst this
        rw [hc] at hca hcb
        have h1 : ca = c0 := by simpa using hca
        have h2 : cb = c0 := by simpa using hcb
        rw [h1, h2]
  subst hcacb
  obtain ⟨r, hr, rfl⟩ := hclos ca hca
  have h1 : Reach G.edges r a := ((mem_reachList_iff G r a hr hwf).mp hain).2
  have h2 : Reach G.edges r b := ((mem_reachList_iff G r b hr hwf).mp hbin).2
  exact (reach_symm h1).trans h2

theorem comps_two_nonreach (G : Graph) (hwf : G.WF) {ca cb : List Nat}
    {rest : List (List Nat)} (hc : componentsList G = ca :: cb :: rest)
    {a b : Nat} (haa : a ∈ ca) (hbb : b ∈ cb) :
    a ∈ G.nodes ∧ b ∈ G.nodes ∧ ¬ Reach G.edges a b := by
  obtain ⟨⟨hclos, hpw⟩, _⟩ := componentsList_ok G hwf
  rw [hc] at hclos hpw
  have hr := (List.pairwise_cons.mp hpw).1 cb (List.mem_cons_self cb rest) a haa b hbb
  obtain ⟨ra, hra, hcae⟩ := hclos ca (List.mem_cons_self ca _)
  obtain ⟨rb, hrb, hcbe⟩ := hclos cb (List.mem_cons_of_mem ca (List.mem_cons_self cb rest))
  subst hcae; subst hcbe
  exact ⟨reachList_subset G ra a haa, reachList_subset G rb b hbb, hr⟩

theorem comps_mem_ne_nil (G : Graph) (hwf : G.WF) {c : List Nat}
    (hc : c ∈ componentsList G) : c ≠ [] := by
  obtain ⟨⟨hclos, _⟩, _⟩ := componentsList_ok G hwf
  obtain ⟨r, hr, rfl⟩ := hclos c hc
  intro hnil
  have := self_mem_reachList G r hr
  rw [hnil] at this
  cases this

theorem mem_unlinkedSet_iff (G : Graph) (hwf : G.WF) (p : Nat × Nat) :
    p ∈ unlinkedSet G ↔
      p.1 ∈ G.nodes ∧ p.2 ∈ G.nodes ∧ ¬ Reach G.edges p.1 p.2 := by
  unfold unlinkedSet
  rw [Finset.mem_filter, Finset.mem_product]
  constructor
  · rintro ⟨⟨h1, h2⟩, h3⟩
    refine ⟨List.mem_toFinset.mp h1, List.mem_toFinset.mp h2, fun hreach => h3 ?_⟩
    exact reachSet_complete G.edges G.nodes.toFinset p.1 p.2 G.nodes.length h1
      (fun e he => ⟨List.mem_toFinset.mpr (hwf e he).1, List.mem_toFinset.mpr (hwf e he).2⟩)
      G.nodes.toFinset_card_le hreach
  · rintro ⟨h1, h2, h3⟩
    exact ⟨⟨List.mem_toFinset.mpr h1, List.mem_toFinset.mpr h2⟩,
      fun hmem => h3 (reachSet_sound _ _ _ _ _ hmem)⟩

theorem unlinked_lt (G : Graph) (hwf : G.WF) (a b : Nat) (ha : a ∈ G.nodes)
    (hb : b ∈ G.nodes) (hnr : ¬ Reach G.edges a b) :
    unlinked (G.addEdge a b) < unlinked G := by
  have hwf' := wf_addEdge G a b hwf
  have hnodes : (G.addEdge a b).nodes = G.nodes := addEdge_nodes_of_mem G a b ha hb
  apply Finset.card_lt_card
  rw [Finset.ssubset_iff_of_subset]
  · refine ⟨(a, b), ?_, ?_⟩
    · exact (mem_unlinkedSet_iff G hwf (a, b)).mpr ⟨ha, hb, hnr⟩
    · intro hmem
      have := ((mem_unlinkedSet_iff _ hwf' (a, b)).mp hmem).2.2
      exact this (reach_single (adj_addEdge_self G a b))
  · intro p hp
    obtain ⟨h1, h2, h3⟩ := (mem_unlinkedSet_iff _ hwf' p).mp hp
    rw [hnodes] at h1 h2
    refine (mem_unlinkedSet_iff G hwf p).mpr ⟨h1, h2, fun hreach => ?_⟩
    exact h3 (reach_mono_addEdge G a b _ _ hreach)

theorem unlinked_le (G : Graph) : unlinked G ≤ G.nodes.length * G.nodes.length := by
  unfold unlinked unlinkedSet
  calc ((G.nodes.toFinset ×ˢ G.nodes.toFinset).filter _).card
      ≤ (G.nodes.toFinset ×ˢ G.nodes.toFinset).card := Finset.card_filter_le _ _
    _ = G.nodes.toFinset.card * G.nodes.toFinset.card := Finset.card_product _ _
    _ ≤ G.nodes.length * G.nodes.length :=
        Nat.mul_le_mul G.nodes.toFinset_card_le G.nodes.toFinset_card_le

theorem repairLoop_connected (g : Nat → Nat) :
    ∀ (fuel : Nat) (G : Graph) (c : Nat) (fb : Bool), G.WF →
      unlinked G < fuel → GraphConnected (repairLoop g fuel G c fb).1 := by
  intro fuel
  induction fuel with
  | zero => intro G c fb _ hm; omega
  | succ fuel ih =>
      intro G c fb hwf hm
      show GraphConnected (repairLoop g (fuel + 1) G c fb).1
      unfold repairLoop
      cases hc : componentsList G with
      | nil =>
          simp only []
          exact connected_of_comps_le_one G hwf (by rw [hc]; simp)
      | cons ca rest =>
          cases rest with
          | nil =>
              simp only []
              exact connected_of_comps_le_one G hwf (by rw [hc]; simp)
          | cons cb rest2 =>
              simp only []
              split
              · rename_i hcond
                obtain ⟨h1c, h2c⟩ := Bool.and_eq_true_iff.mp hcond
                have hcaNe : ca.filter (fun n => decide (G.degree n < 4)) ≠ [] := by
                  intro hnil
                  simp [hnil] at h1c
                have hcbNe : cb.filter (fun n => decide (G.degree n < 4)) ≠ [] := by
                  intro hnil
                  simp [hnil] at h2c
                have hamem := choiceD_mem g c
                  (ca.filter (fun n => decide (G.degree n < 4))) 0 hcaNe
                have hbmem := choiceD_mem g
                  (choiceD g c (ca.filter (fun n => decide (G.degree n < 4))) 0).2
                  (cb.filter (fun n => decide (G.degree n < 4))) 0 hcbNe
                obtain ⟨hxa, hxb, hnr⟩ := comps_two_nonreach G hwf hc
                  (List.mem_of_mem_filter hamem) (List.mem_of_mem_filter hbmem)
                refine ih _ _ _ (wf_addEdge G _ _ hwf) ?_
                have := unlinked_lt G hwf _ _ hxa hxb hnr
                omega
              · have hcaNe : ca ≠ [] :=
                  comps_mem_ne_nil G hwf (by rw [hc]; exact List.mem_cons_self _ _)
                have hcbNe : cb ≠ [] :=
                  comps_mem_ne_nil G hwf
                    (by rw [hc]; exact List.mem_cons_of_mem _ (List.mem_cons_self _ _))
                have haca := choiceD_mem g c ca 0 hcaNe
                have hbcb := choiceD_mem g (choiceD g c ca 0).2 cb 0 hcbNe
                obtain ⟨hxa, hxb, hnr⟩ := comps_two_nonreach G hwf hc haca hbcb
                refine ih _ _ _ (wf_addEdge G _ _ hwf) ?_
                have := unlinked_lt G hwf _ _ hxa hxb hnr
                omega

/- ====================================================================
Map-generator lemmas: well-formedness and node membership through the
construction phases; connectivity of the final graph.
==================================================================== -/

theorem foldl_addNode_edges (l : List Nat) (G : Graph) :
    (l.foldl Graph.addNode G).edges = G.edges :=
  foldl_proj_eq Graph.edges Graph.addNode l G addNode_edges

theorem foldl_addNode_mem (l : List Nat) (G : Graph) (m : Nat)
    (h : m ∈ G.nodes) : m ∈ (l.foldl Graph.addNode G).nodes :=
  foldl_invariant (fun H => m ∈ H.nodes) Graph.addNode l G h
    (fun H x _ hm => mem_addNode_of_mem H x m hm)

theorem foldl_addNode_mem_self (s : Nat) : ∀ (l : List Nat) (G : Graph),
    s ∈ l → s ∈ (l.foldl Graph.addNode G).nodes := by
  intro l
  induction l with
  | nil => intro G h; cases h
  | cons a rest ih =>
      intro G h
      rw [List.foldl_cons]
      rcases List.mem_cons.mp h with rfl | h2
      · exact foldl_addNode_mem rest _ s (mem_addNode_self G s)
      · exact ih _ h2

theorem addPathEdges_wf : ∀ (l : List Nat) (G : Graph), G.WF →
    (addPathEdges G l).WF := by
  intro l
  induction l with
  | nil => intro G h; exact h
  | cons a rest ih =>
      intro G h
      cases rest with
      | nil => exact h
      | cons b rest2 => exact ih (G.addEdge a b) (wf_addEdge G a b h)

theorem addPathEdges_mem (m : Nat) : ∀ (l : List Nat) (G : Graph),
    m ∈ G.nodes → m ∈ (addPathEdges G l).nodes := by
  intro l
  induction l with
  | nil => intro G h; exact h
  | cons a rest ih =>
      intro G h
      cases rest with
      | nil => exact h
      | cons b rest2 => exact ih (G.addEdge a b) (mem_addEdge_of_mem G a b m h)

theorem intraExtras_wf (g : Nat → Nat) (ids : List Nat) : ∀ (k : Nat) (G : Graph)
    (c : Nat), G.WF → (intraExtras g ids k G c).1.WF := by
  intro k
  induction k with
  | zero => intro G c h; exact h
  | succ k ih =>
      intro G c h
      unfold intraExtras
      simp only []
      split
      · exact h
      · exact ih _ _ (wf_addEdge G _ _ h)

theorem intraExtras_mem (g : Nat → Nat) (ids : List Nat) (m : Nat) :
    ∀ (k : Nat) (G : Graph) (c : Nat), m ∈ G.nodes →
      m ∈ (intraExtras g ids k G c).1.nodes := by
  intro k
  induction k with
  | zero => intro G c h; exact h
  | succ k ih =>
      intro G c h
      unfold intraExtras
      simp only []
      split
      · exact h
      · exact ih _ _ (mem_addEdge_of_mem G _ _ m h)

theorem intraCluster_wf (g : Nat → Nat) (st : Graph × Nat) (cl : MGCluster)
    (h : st.1.WF) : (intraCluster g st cl).1.WF := by
  unfold intraCluster
  simp only []
  split
  · exact h
  · exact intraExtras_wf g _ _ _ _ (addPathEdges_wf _ st.1 h)

theorem intraCluster_mem (g : Nat → Nat) (st : Graph × Nat) (cl : MGCluster)
    (m : Nat) (h : m ∈ st.1.nodes) : m ∈ (intraCluster g st cl).1.nodes := by
  unfold intraCluster
  simp only []
  split
  · exact h
  · exact intraExtras_mem g _ m _ _ _ (addPathEdges_mem m _ st.1 h)

theorem ringPhase_wf (g : Nat → Nat) (pcl : List MGCluster) (G : Graph) (c : Nat)
    (h : G.WF) : (ringPhase g pcl G c).1.WF := by
  unfold ringPhase
  refine foldl_invariant (fun st => st.1.WF) _ _ (G, c) h (fun st i _ hst => ?_)
  simp only []
  split
  · exact hst
  · exact wf_addEdge _ _ _ hst

theorem ringPhase_mem (g : Nat → Nat) (pcl : List MGCluster) (G : Graph) (c : Nat)
    (m : Nat) (h : m ∈ G.nodes) : m ∈ (ringPhase g pcl G c).1.nodes := by
  unfold ringPhase
  refine foldl_invariant (fun st => m ∈ st.1.nodes) _ _ (G, c) h (fun st i _ hst => ?_)
  simp only []
  split
  · exact hst
  · exact mem_addEdge_of_mem _ _ _ m hst

theorem bridgeTo_wf (g : Nat → Nat) (neutral : MGCluster) (st : Graph × Nat)
    (pc : MGCluster) (h : st.1.WF) : (bridgeTo g neutral st pc).1.WF := by
  unfold bridgeTo
  simp only []
  split
  · exact h
  · split
    · exact h
    · exact wf_addEdge _ _ _ h

theorem bridgeTo_mem (g : Nat → Nat) (neutral : MGCluster) (st : Graph × Nat)
    (pc : MGCluster) (m : Nat) (h : m ∈ st.1.nodes) :
    m ∈ (bridgeTo g neutral st pc).1.nodes := by
  unfold bridgeTo
  simp only []
  split
  · exact h
  · split
    · exact h
    · exact mem_addEdge_of_mem _ _ _ m h

theorem bridgePhase_wf (g : Nat → Nat) (pcl ncl : List MGCluster) (G : Graph)
    (c : Nat) (h : G.WF) : (bridgePhase g pcl ncl G c).1.1.WF := by
  unfold bridgePhase
  refine foldl_invariant
    (fun acc : (Graph × Nat) × List (Nat × (Nat × Nat)) => acc.1.1.WF)
    _ ncl.enum ((G, c), []) h (fun acc p _ hacc => ?_)
  simp only []
  exact bridgeTo_wf g _ _ _ (bridgeTo_wf g _ _ _ hacc)

theorem bridgePhase_mem (g : Nat → Nat) (pcl ncl : List MGCluster) (G : Graph)
    (c : Nat) (m : Nat) (h : m ∈ G.nodes) :
    m ∈ (bridgePhase g pcl ncl G c).1.1.nodes := by
  unfold bridgePhase
  refine foldl_invariant
    (fun acc : (Graph × Nat) × List (Nat × (Nat × Nat)) => m ∈ acc.1.1.nodes)
    _ ncl.enum ((G, c), []) h (fun acc p _ hacc => ?_)
  simp only []
  exact bridgeTo_mem g _ _ _ m (bridgeTo_mem g _ _ _ m hacc)

theorem fwSpokes_wf (g : Nat → Nat) : ∀ (cls : List MGCluster) (st : Graph × Nat),
    st.1.WF → (fwSpokes g cls st).1.WF := by
  intro cls
  induction cls with
  | nil => intro st h; exact h
  | cons cl rest ih =>
      intro st h
      unfold fwSpokes
      simp only []
      split
      · exact h
      · split
        · exact ih st h
        · exact ih _ (wf_addEdge _ _ _ h)

theorem fwSpokes_mem (g : Nat → Nat) (m : Nat) : ∀ (cls : List MGCluster)
    (st : Graph × Nat), m ∈ st.1.nodes → m ∈ (fwSpokes g cls st).1.nodes := by
  intro cls
  induction cls with
  | nil => intro st h; exact h
  | cons cl rest ih =>
      intro st h
      unfold fwSpokes
      simp only []
      split
      · exact h
      · split
        · exact ih st h
        · exact ih _ (mem_addEdge_of_mem _ _ _ m h)

theorem forceFw_wf (g : Nat → Nat) (st : Graph × Nat) (h : st.1.WF) :
    (forceFw g st).1.WF := by
  unfold forceFw
  split
  · simp only []
    split
    · exact h
    · exact wf_addEdge _ _ _ h
  · exact h

theorem forceFw_mem (g : Nat → Nat) (st : Graph × Nat) (m : Nat)
    (h : m ∈ st.1.nodes) : m ∈ (forceFw g st).1.nodes := by
  unfold forceFw
  split
  · simp only []
    split
    · exact h
    · exact mem_addEdge_of_mem _ _ _ m h
  · exact h

theorem repairLoop_mem (g : Nat → Nat) (m : Nat) : ∀ (fuel : Nat) (G : Graph)
    (c : Nat) (fb : Bool), m ∈ G.nodes →
      m ∈ (repairLoop g fuel G c fb).1.nodes := by
  intro fuel
  induction fuel with
  | zero => intro G c fb h; exact h
  | succ fuel ih =>
      intro G c fb h
      unfold repairLoop
      cases hc : componentsList G with
      | nil => simp only []; exact h
      | cons ca rest =>
          cases rest with
          | nil => simp only []; exact h
          | cons cb rest2 =>
              simp only []
              split
              · exact ih _ _ _ (mem_addEdge_of_mem _ _ _ m h)
              · exact ih _ _ _ (mem_addEdge_of_mem _ _ _ m h)

/-- Well-formedness carries through the repair loop. -/
theorem repairLoop_wf (g : Nat → Nat) : ∀ (fuel : Nat) (G : Graph) (c : Nat)
    (fb : Bool), G.WF → (repairLoop g fuel G c fb).1.WF := by
  intro fuel
  induction fuel with
  | zero => intro G c fb h; exact h
  | succ fuel ih =>
      intro G c fb h
      unfold repairLoop
      cases hc : componentsList G with
      | nil => simp only []; exact h
      | cons ca rest =>
          cases rest with
          | nil => simp only []; exact h
          | cons cb rest2 =>
              simp only []
              split
              · exact ih _ _ _ (wf_addEdge _ _ _ h)
              · exact ih _ _ _ (wf_addEdge _ _ _ h)

/-- Both graph facts of `_build_graph`: its result is well-formed and
connected, for every draw stream. -/
theorem buildGraph_connected_wf (clusters : List MGCluster) (g : Nat → Nat)
    (c : Nat) : GraphConnected (buildGraph clusters g c).graph ∧
      (buildGraph clusters g c).graph.WF := by
  have hedges0 : (clusters.foldl
      (fun G cl => cl.systemIds.foldl Graph.addNode G)
      ((Graph.mk [] []).addNode 0)).edges = [] := by
    rw [foldl_proj_eq Graph.edges (fun G cl => cl.systemIds.foldl Graph.addNode G)
      clusters ((Graph.mk [] []).addNode 0)
      (fun G cl => foldl_addNode_edges cl.systemIds G)]
    rw [addNode_edges]
  have hG0wf : (clusters.foldl
      (fun G cl => cl.systemIds.foldl Graph.addNode G)
      ((Graph.mk [] []).addNode 0)).WF := by
    intro e he
    rw [hedges0] at he
    cases he
  unfold buildGraph
  simp only []
  constructor
  · apply repairLoop_connected
    · apply forceFw_wf
      apply fwSpokes_wf
      apply bridgePhase_wf
      apply ringPhase_wf
      exact foldl_invariant (fun st : Graph × Nat => st.1.WF) (intraCluster g)
        clusters _ hG0wf (fun st cl _ hh => intraCluster_wf g st cl hh)
    · exact Nat.lt_succ_of_le (unlinked_le _)
  · apply repairLoop_wf
    apply forceFw_wf
    apply fwSpokes_wf
    apply bridgePhase_wf
    apply ringPhase_wf
    exact foldl_invariant (fun st : Graph × Nat => st.1.WF) (intraCluster g)
      clusters _ hG0wf (fun st cl _ hh => intraCluster_wf g st cl hh)

/- ====================================================================
Map-generator lemmas: `_ensure_safe_paths` only adds edges between
existing nodes, so connectivity survives it.
==================================================================== -/

theorem head?_mem {α : Type} {l : List α} {x : α} (h : l.head? = some x) :
    x ∈ l := by
  cases l with
  | nil => cases h
  | cons a rest =>
      have hax : a = x := by simpa using h
      rw [← hax]
      exact List.mem_cons_self a rest

theorem mem_pairList {φ : Nat → Nat → Bool} {l1 l2 : List Nat} {q : Nat × Nat}
    (h : q ∈ (l1.map (fun a =>
      (l2.filter (fun b => φ a b)).map (fun b => (a, b)))).flatten) :
    q.1 ∈ l1 ∧ q.2 ∈ l2 ∧ φ q.1 q.2 = true := by
  rcases List.mem_flatten.mp h with ⟨l, hl, hq⟩
  rcases List.mem_map.mp hl with ⟨a, ha, rfl⟩
  rcases List.mem_map.mp hq with ⟨b, hb, rfl⟩
  exact ⟨ha, List.mem_of_mem_filter hb, (List.mem_filter.mp hb).2⟩

theorem argminBy_mem {α : Type} (f : α → Nat) (l : List α) (x : α)
    (h : argminBy f l = some x) : x ∈ l := by
  cases l with
  | nil => cases h
  | cons a rest =>
      have hx : x = rest.foldl (fun best y => if f y < f best then y else best) a := by
        have := h
        unfold argminBy at this
        exact (Option.some.injEq _ _ ▸ this.symm).symm ▸ rfl
      rw [hx]
      refine foldl_invariant (fun b => b ∈ a :: rest) _ rest a
        (List.mem_cons_self a rest) (fun b y hy hb => ?_)
      simp only []
      split
      · exact List.mem_cons_of_mem a hy
      · exact hb

theorem safeReachList_subset (G : Graph) (safe : List Nat) (a : Nat) :
    ∀ b ∈ safeReachList G safe a, b ∈ G.nodes :=
  fun _ hb => (List.mem_filter.mp hb).1

theorem connected_addEdge_of_mem (G : Graph) (a b : Nat)
    (h : GraphConnected G) (ha : a ∈ G.nodes) (hb : b ∈ G.nodes) :
    GraphConnected (G.addEdge a b) := by
  intro x hx y hy
  rw [addEdge_nodes_of_mem G a b ha hb] at hx hy
  exact reach_mono_addEdge G a b x y (h x hx y hy)

theorem safeBridge_connected (G : Graph) (safe : List Nat) (home : Nat)
    (fb : Bool) (h : GraphConnected G) :
    GraphConnected (safeBridge G safe home fb).1 := by
  unfold safeBridge
  simp only []
  split
  · exact h
  · split
    · rename_i q hq
      obtain ⟨h1, h2, _⟩ := mem_pairList (argminBy_mem _ _ q hq)
      exact connected_addEdge_of_mem _ _ _ h
        (safeReachList_subset _ _ _ _ h1) (safeReachList_subset _ _ _ _ h2)
    · split
      · rename_i q hq
        obtain ⟨h1, h2, _⟩ := mem_pairList (head?_mem hq)
        exact connected_addEdge_of_mem _ _ _ h
          (safeReachList_subset _ _ _ _ h1) (safeReachList_subset _ _ _ _ h2)
      · exact h

theorem safePathOne_connected (clusters : List MGCluster) (st : Graph × Bool)
    (ph : Nat × Nat) (h : GraphConnected st.1) :
    GraphConnected (safePathOne clusters st ph).1 :=
  safeBridge_connected st.1 _ ph.2 st.2 h

theorem safeBridge_mem (G : Graph) (safe : List Nat) (home : Nat) (fb : Bool)
    (m : Nat) (h : m ∈ G.nodes) : m ∈ (safeBridge G safe home fb).1.nodes := by
  unfold safeBridge
  simp only []
  split
  · exact h
  · split
    · exact mem_addEdge_of_mem _ _ _ m h
    · split
      · exact mem_addEdge_of_mem _ _ _ m h
      · exact h

theorem safePathOne_mem (clusters : List MGCluster) (st : Graph × Bool)
    (ph : Nat × Nat) (m : Nat) (h : m ∈ st.1.nodes) :
    m ∈ (safePathOne clusters st ph).1.nodes :=
  safeBridge_mem st.1 _ ph.2 st.2 m h

theorem ensureSafePaths_connected (clusters : List MGCluster) (G : Graph)
    (fb : Bool) (h : GraphConnected G) :
    GraphConnected (ensureSafePaths clusters G fb).1 := by
  unfold ensureSafePaths
  exact foldl_invariant (fun st : Graph × Bool => GraphConnected st.1)
    (safePathOne clusters) (playerHomes clusters) (G, fb) h
    (fun st ph _ hst => safePathOne_connected clusters st ph hst)

theorem ensureSafePaths_mem (clusters : List MGCluster) (G : Graph)
    (fb : Bool) (m : Nat) (h : m ∈ G.nodes) :
    m ∈ (ensureSafePaths clusters G fb).1.nodes := by
  unfold ensureSafePaths
  exact foldl_invariant (fun st : Graph × Bool => m ∈ st.1.nodes)
    (safePathOne clusters) (playerHomes clusters) (G, fb) h
    (fun st ph _ hst => safePathOne_mem clusters st ph m hst)

/- ====================================================================
Map-generator lemmas: degrees through the intra-cluster phase.
==================================================================== -/

theorem degLe4_addEdge_guard (G : Graph) (a b : Nat) (h : DegLe4 G)
    (ha : G.degree a < 4) (hb : G.degree b < 4) (hab : a ≠ b) :
    DegLe4 (G.addEdge a b) := by
  intro n
  have hle := addEdge_degree_le G a b n
  by_cases hna : a = n
  · subst hna
    rw [if_pos rfl, if_neg (fun hbn => hab hbn.symm)] at hle
    omega
  · by_cases hnb : b = n
    · subst hnb
      rw [if_neg hna, if_pos rfl] at hle
      omega
    · rw [if_neg hna, if_neg hnb] at hle
      have := h n
      omega

theorem length_eraseIdx_lt {α : Type} : ∀ (l : List α) (j : Nat),
    j < l.length → (l.eraseIdx j).length = l.length - 1 := by
  intro l
  induction l with
  | nil => intro j hj; cases hj
  | cons a t ih =>
      intro j hj
      cases j with
      | zero => simp
      | succ j =>
          have hj2 : j < t.length := by simpa using hj
          show (a :: t.eraseIdx j).length = _
          simp only [List.length_cons]
          rw [ih j hj2]
          omega

theorem perm_getD_cons_eraseIdx {α : Type} (d : α) :
    ∀ (l : List α) (j : Nat), j < l.length →
      l.Perm (l.getD j d :: l.eraseIdx j) := by
  intro l
  induction l with
  | nil => intro j hj; cases hj
  | cons a t ih =>
      intro j hj
      cases j with
      | zero => exact List.Perm.refl _
      | succ j =>
          have hj2 : j < t.length := by simpa using hj
          show (a :: t).Perm (t.getD j d :: a :: t.eraseIdx j)
          exact ((ih j hj2).cons a).trans (List.Perm.swap _ _ _)

theorem shuffleD_perm {α : Type} (g : Nat → Nat) (d : α) :
    ∀ (fuel : Nat) (l : List α) (c : Nat), l.length = fuel →
      (shuffleD g d fuel l c).1.Perm l := by
  intro fuel
  induction fuel with
  | zero =>
      intro l c hl
      have : l = [] := List.length_eq_zero.mp hl
      subst this
      exact List.Perm.refl _
  | succ fuel ih =>
      intro l c hl
      have hne : ¬ l.isEmpty := by
        cases l with
        | nil => simp at hl
        | cons a t => simp
      unfold shuffleD
      rw [if_neg (by simpa using hne)]
      simp only []
      have hlen : 0 < l.length := by omega
      have hjlt : g c % l.length < l.length := Nat.mod_lt _ hlen
      have hrest : (l.eraseIdx (g c % l.length)).length = fuel := by
        rw [length_eraseIdx_lt l _ hjlt]
        omega
      exact (List.Perm.cons _ (ih _ (c + 1) hrest)).trans
        (perm_getD_cons_eraseIdx d l _ hjlt).symm

theorem addPathEdges_degree_not_mem : ∀ (l : List Nat) (G : Graph) (n : Nat),
    n ∉ l → (addPathEdges G l).degree n = G.degree n := by
  intro l
  induction l with
  | nil => intro G n _; rfl
  | cons a rest ih =>
      intro G n hn
      cases rest with
      | nil => rfl
      | cons b rest2 =>
          show (addPathEdges (G.addEdge a b) (b :: rest2)).degree n = _
          rw [ih (G.addEdge a b) n (fun hmem => hn (List.mem_cons_of_mem a hmem))]
          exact addEdge_degree_ne G a b n
            (fun he => hn (he ▸ List.mem_cons_self a _))
            (fun he => hn (he ▸ List.mem_cons_of_mem a (List.mem_cons_self b _)))

theorem addPathEdges_degree_le : ∀ (l : List Nat), l.Nodup →
    ∀ (G : Graph) (n : Nat), (addPathEdges G l).degree n ≤
      G.degree n + (if l.head? = some n then 1 else 2) := by
  intro l
  induction l with
  | nil =>
      intro _ G n
      show G.degree n ≤ _
      split <;> omega
  | cons a rest ih =>
      intro hnd G n
      obtain ⟨hanotin, hnd2⟩ := List.nodup_cons.mp hnd
      cases rest with
      | nil =>
          show G.degree n ≤ _
          split <;> omega
      | cons b rest2 =>
          show (addPathEdges (G.addEdge a b) (b :: rest2)).degree n ≤ _
          have hab : a ≠ b := fun he => hanotin (he ▸ List.mem_cons_self b rest2)
          by_cases hna : n = a
          · subst hna
            rw [addPathEdges_degree_not_mem (b :: rest2) _ n hanotin]
            have hle := addEdge_degree_le G n b n
            rw [if_pos rfl, if_neg (fun he => hab (he.symm))] at hle
            have hout : (if (n :: b :: rest2 : List Nat).head? = some n then 1 else 2) = 1 := by
              rw [if_pos (by simp)]
            rw [hout]
            omega
          · have h2 := ih hnd2 (G.addEdge a b) n
            by_cases hnb : n = b
            · subst hnb
              have hle := addEdge_degree_le G a n n
              rw [if_neg (fun he => hna he.symm), if_pos rfl] at hle
              rw [if_pos (by simp)] at h2
              have hout : (if (a :: n :: rest2 : List Nat).head? = some n then 1 else 2) = 2 := by
                simp only [List.head?_cons, Option.some.injEq]
                rw [if_neg hab]
              rw [hout]
              omega
            · have he1 : (G.addEdge a b).degree n = G.degree n :=
                addEdge_degree_ne G a b n (fun he => hna he.symm) (fun he => hnb he.symm)
              rw [he1] at h2
              have hin : (if (b :: rest2 : List Nat).head? = some n then 1 else 2) = 2 := by
                simp only [List.head?_cons, Option.some.injEq]
                rw [if_neg (fun he => hnb he.symm)]
              rw [hin] at h2
              have hout : (if (a :: b :: rest2 : List Nat).head? = some n then 1 else 2) = 2 := by
                simp only [List.head?_cons, Option.some.injEq]
                rw [if_neg (fun he => hna he.symm)]
              rw [hout]
              omega

theorem addPathEdges_edges_sub : ∀ (l : List Nat) (G : Graph),
    ∀ e ∈ (addPathEdges G l).edges, e ∈ G.edges ∨ (e.1 ∈ l ∧ e.2 ∈ l) := by
  intro l
  induction l with
  | nil => intro G e he; exact Or.inl he
  | cons a rest ih =>
      intro G e he
      cases rest with
      | nil => exact Or.inl he
      | cons b rest2 =>
          rcases ih (G.addEdge a b) e he with h | ⟨h1, h2⟩
          · rcases addEdge_edges_spec G a b with ⟨hs, _⟩ | hs
            · rw [hs] at h
              exact Or.inl h
            · rw [hs, List.mem_append] at h
              rcases h with h | h
              · exact Or.inl h
              · have he2 : e = (a, b) := by simpa using h
                subst he2
                exact Or.inr ⟨List.mem_cons_self a _,
                  List.mem_cons_of_mem a (List.mem_cons_self b _)⟩
          · exact Or.inr ⟨List.mem_cons_of_mem a h1, List.mem_cons_of_mem a h2⟩

theorem mem_intraCandidates (G : Graph) (ids : List Nat) (q : Nat × Nat)
    (h : q ∈ intraCandidates G ids) :
    q.1 ∈ ids ∧ q.2 ∈ ids ∧ q.1 ≠ q.2 ∧ G.degree q.1 < 4 ∧ G.degree q.2 < 4 := by
  unfold intraCandidates at h
  obtain ⟨h1, h2, h3⟩ := mem_pairList h
  simp only [Bool.and_eq_true, decide_eq_true_eq] at h3
  obtain ⟨⟨⟨hlt, _⟩, hda⟩, hdb⟩ := h3
  exact ⟨h1, h2, Nat.ne_of_lt hlt, hda, hdb⟩

theorem intraExtras_inv (g : Nat → Nat) (ids sids done : List Nat)
    (hids : ∀ x ∈ ids, x ∈ sids) :
    ∀ (k : Nat) (G : Graph) (c : Nat), DegLe4 G →
      (∀ e ∈ G.edges, (e.1 ∈ done ∨ e.1 ∈ sids) ∧ (e.2 ∈ done ∨ e.2 ∈ sids)) →
      DegLe4 (intraExtras g ids k G c).1 ∧
        ∀ e ∈ (intraExtras g ids k G c).1.edges,
          (e.1 ∈ done ∨ e.1 ∈ sids) ∧ (e.2 ∈ done ∨ e.2 ∈ sids) := by
  intro k
  induction k with
  | zero => intro G c h1 h2; exact ⟨h1, h2⟩
  | succ k ih =>
      intro G c h1 h2
      unfold intraExtras
      simp only []
      split
      · exact ⟨h1, h2⟩
      · rename_i hne
        have hcne : intraCandidates G ids ≠ [] := by
          intro hnil
          rw [hnil] at hne
          exact hne rfl
        obtain ⟨hq1, hq2, hq3, hq4, hq5⟩ :=
          mem_intraCandidates G ids _ (choiceD_mem g c _ (0, 0) hcne)
        refine ih _ _ (degLe4_addEdge_guard G _ _ h1 hq4 hq5 hq3) ?_
        intro e he
        rcases addEdge_edges_spec G _ _ with ⟨hs, _⟩ | hs
        · rw [hs] at he
          exact h2 e he
        · rw [hs, List.mem_append] at he
          rcases he with he | he
          · exact h2 e he
          · have he2 : e = ((choiceD g c (intraCandidates G ids) (0, 0)).1.1,
                (choiceD g c (intraCandidates G ids) (0, 0)).1.2) := by
              simpa using he
            subst he2
            exact ⟨Or.inr (hids _ hq1), Or.inr (hids _ hq2)⟩

theorem intraAfterShuffle_inv (g : Nat → Nat) (G : Graph) (c : Nat)
    (ids sids done : List Nat) (k : Nat) (hnd : ids.Nodup)
    (hmemS : ∀ x ∈ ids, x ∈ sids)
    (hdisj : ∀ x ∈ sids, x ∉ done)
    (hedges : ∀ e ∈ G.edges, e.1 ∈ done ∧ e.2 ∈ done)
    (hdeg : DegLe4 G) :
    DegLe4 (intraExtras g ids k (addPathEdges G ids) c).1 ∧
      ∀ e ∈ (intraExtras g ids k (addPathEdges G ids) c).1.edges,
        (e.1 ∈ done ∨ e.1 ∈ sids) ∧ (e.2 ∈ done ∨ e.2 ∈ sids) := by
  have hpathdeg : DegLe4 (addPathEdges G ids) := by
    intro n
    by_cases hn : n ∈ ids
    · have hz : G.degree n = 0 := by
        rw [degree_eq_degE]
        apply degE_zero_of_avoid
        intro e he
        have h1 := hedges e he
        constructor
        · intro he1
          exact hdisj n (hmemS n hn) (he1 ▸ h1.1)
        · intro he2
          exact hdisj n (hmemS n hn) (he2 ▸ h1.2)
      have hb := addPathEdges_degree_le ids hnd G n
      rw [hz] at hb
      split at hb <;> omega
    · rw [addPathEdges_degree_not_mem ids G n hn]
      exact hdeg n
  have hpathedge : ∀ e ∈ (addPathEdges G ids).edges,
      (e.1 ∈ done ∨ e.1 ∈ sids) ∧ (e.2 ∈ done ∨ e.2 ∈ sids) := by
    intro e he
    rcases addPathEdges_edges_sub ids G e he with h | ⟨h1, h2⟩
    · exact ⟨Or.inl (hedges e h).1, Or.inl (hedges e h).2⟩
    · exact ⟨Or.inr (hmemS _ h1), Or.inr (hmemS _ h2)⟩
  exact intraExtras_inv g ids sids done hmemS k _ c hpathdeg hpathedge

theorem intraCluster_inv (g : Nat → Nat) (st : Graph × Nat) (cl : MGCluster)
    (done : List Nat) (hnd : cl.systemIds.Nodup)
    (hdisj : ∀ x ∈ cl.systemIds, x ∉ done)
    (hedges : ∀ e ∈ st.1.edges, e.1 ∈ done ∧ e.2 ∈ done)
    (hdeg : DegLe4 st.1) :
    DegLe4 (intraCluster g st cl).1 ∧
      ∀ e ∈ (intraCluster g st cl).1.edges,
        (e.1 ∈ done ∨ e.1 ∈ cl.systemIds) ∧ (e.2 ∈ done ∨ e.2 ∈ cl.systemIds) := by
  unfold intraCluster
  simp only []
  split
  · exact ⟨hdeg, fun e he => ⟨Or.inl (hedges e he).1, Or.inl (hedges e he).2⟩⟩
  · have hperm : (shuffleD g 0 cl.systemIds.length cl.systemIds st.2).1.Perm
        cl.systemIds := shuffleD_perm g 0 _ _ _ rfl
    exact intraAfterShuffle_inv g st.1 _ _ cl.systemIds done _
      (hperm.nodup_iff.mpr hnd) (fun x hx => hperm.subset hx) hdisj hedges hdeg

theorem intraFold_degLe4 (g : Nat → Nat) :
    ∀ (cs : List MGCluster) (st : Graph × Nat) (done : List Nat),
      (∀ e ∈ st.1.edges, e.1 ∈ done ∧ e.2 ∈ done) → DegLe4 st.1 →
      (∀ cl ∈ cs, cl.systemIds.Nodup ∧ ∀ x ∈ cl.systemIds, x ∉ done) →
      List.Pairwise (fun c1 c2 => ∀ x ∈ c1.systemIds, x ∉ c2.systemIds) cs →
      DegLe4 (cs.foldl (intraCluster g) st).1 := by
  intro cs
  induction cs with
  | nil => intro st done _ h2 _ _; exact h2
  | cons cl rest ih =>
      intro st done hedges hdeg hcls hpw
      rw [List.foldl_cons]
      obtain ⟨hnd, hdisj⟩ := hcls cl (List.mem_cons_self cl rest)
      obtain ⟨hdeg2, hedge2⟩ := intraCluster_inv g st cl done hnd hdisj hedges hdeg
      obtain ⟨hR, hpw2⟩ := List.pairwise_cons.mp hpw
      refine ih _ (done ++ cl.systemIds) ?_ hdeg2 ?_ hpw2
      · intro e he
        obtain ⟨h1, h2⟩ := hedge2 e he
        constructor
        · rcases h1 with h | h
          · exact List.mem_append_left _ h
          · exact List.mem_append_right _ h
        · rcases h2 with h | h
          · exact List.mem_append_left _ h
          · exact List.mem_append_right _ h
      · intro cl2 hcl2
        obtain ⟨hnd2, hdisj2⟩ := hcls cl2 (List.mem_cons_of_mem cl hcl2)
        refine ⟨hnd2, fun x hx hxd => ?_⟩
        rcases List.mem_append.mp hxd with h | h
        · exact hdisj2 x hx h
        · exact hR cl2 hcl2 x h hx

/- ====================================================================
Map-generator lemmas: degrees through the guarded phases.
==================================================================== -/

theorem mem_of_mem_enumFrom {α : Type} :
    ∀ (l : List α) (n : Nat) (p : Nat × α), p ∈ l.enumFrom n → p.2 ∈ l := by
  intro l
  induction l with
  | nil => intro n p hp; cases hp
  | cons a t ih =>
      intro n p hp
      rcases List.mem_cons.mp hp with rfl | hp2
      · exact List.mem_cons_self a t
      · exact List.mem_cons_of_mem a (ih (n + 1) p hp2)

theorem mem_of_mem_enum {α : Type} {l : List α} {p : Nat × α}
    (h : p ∈ l.enum) : p.2 ∈ l :=
  mem_of_mem_enumFrom l 0 p h

theorem pairwise_disjoint_getD (pcl : List MGCluster)
    (hpw : List.Pairwise (fun c1 c2 => ∀ x ∈ c1.systemIds, x ∉ c2.systemIds) pcl)
    (i j : Nat) (hi : i < pcl.length) (hj : j < pcl.length) (hij : i ≠ j)
    (x : Nat) (hx : x ∈ (pcl.getD i dfltCluster).systemIds) :
    x ∉ (pcl.getD j dfltCluster).systemIds := by
  rw [List.getD_eq_getElem _ _ hi] at hx
  rw [List.getD_eq_getElem _ _ hj]
  rcases Nat.lt_or_ge i j with h | h
  · exact (List.pairwise_iff_getElem.mp hpw i j hi hj h) x hx
  · have hji : j < i := by omega
    intro hxj
    exact (List.pairwise_iff_getElem.mp hpw j i hj hi hji) x hxj hx

theorem mem_degFilter {G : Graph} {l : List Nat} {x : Nat}
    (h : x ∈ l.filter (fun s => decide (G.degree s < 4))) :
    x ∈ l ∧ G.degree x < 4 := by
  obtain ⟨h1, h2⟩ := List.mem_filter.mp h
  exact ⟨h1, by simpa using h2⟩

theorem ringPhase_degLe4 (g : Nat → Nat) (pcl : List MGCluster) (G : Graph)
    (c : Nat) (hlen : 2 ≤ pcl.length)
    (hpw : List.Pairwise (fun c1 c2 => ∀ x ∈ c1.systemIds, x ∉ c2.systemIds) pcl)
    (hdeg : DegLe4 G) : DegLe4 (ringPhase g pcl G c).1 := by
  unfold ringPhase
  refine foldl_invariant (fun st : Graph × Nat => DegLe4 st.1) _
    (List.range pcl.length) (G, c) hdeg (fun st i hi hst => ?_)
  simp only []
  split
  · exact hst
  · rename_i hcond
    rw [Bool.or_eq_true_iff] at hcond
    push_neg at hcond
    have hc1 : (pcl.getD i dfltCluster).systemIds.filter
        (fun s => decide (st.1.degree s < 4)) ≠ [] := by
      intro hnil
      exact hcond.1 (by rw [hnil]; rfl)
    have hc2 : (pcl.getD ((i + 1) % pcl.length) dfltCluster).systemIds.filter
        (fun s => decide (st.1.degree s < 4)) ≠ [] := by
      intro hnil
      exact hcond.2 (by rw [hnil]; rfl)
    obtain ⟨ha1, ha2⟩ := mem_degFilter (choiceD_mem g st.2 _ 0 hc1)
    obtain ⟨hb1, hb2⟩ := mem_degFilter (choiceD_mem g _ _ 0 hc2)
    have hilt : i < pcl.length := List.mem_range.mp hi
    have hmlt : (i + 1) % pcl.length < pcl.length := Nat.mod_lt _ (by omega)
    have hne : i ≠ (i + 1) % pcl.length := by
      have hmod : (i + 1) % pcl.length = if i + 1 < pcl.length then i + 1 else 0 := by
        split
        · exact Nat.mod_eq_of_lt (by assumption)
        · have h2 : i + 1 = pcl.length := by omega
          rw [h2, Nat.mod_self]
      rw [hmod]
      split <;> omega
    refine degLe4_addEdge_guard _ _ _ hst ha2 hb2 (fun he => ?_)
    exact pairwise_disjoint_getD pcl hpw i _ hilt hmlt hne _ ha1 (he ▸ hb1)

theorem bridgeTo_degLe4 (g : Nat → Nat) (neutral : MGCluster) (st : Graph × Nat)
    (pc : MGCluster) (hdisj : ∀ x ∈ neutral.systemIds, x ∉ pc.systemIds)
    (hdeg : DegLe4 st.1) : DegLe4 (bridgeTo g neutral st pc).1 := by
  unfold bridgeTo
  simp only []
  split
  · exact hdeg
  · rename_i hcond
    rw [Bool.or_eq_true_iff] at hcond
    push_neg at hcond
    have hc1 : neutral.systemIds.filter (fun s => decide (st.1.degree s < 4)) ≠ [] := by
      intro hnil
      exact hcond.1 (by rw [hnil]; rfl)
    have hc2 : pc.systemIds.filter (fun s => decide (st.1.degree s < 4)) ≠ [] := by
      intro hnil
      exact hcond.2 (by rw [hnil]; rfl)
    obtain ⟨ha1, ha2⟩ := mem_degFilter (choiceD_mem g st.2 _ 0 hc1)
    obtain ⟨hb1, hb2⟩ := mem_degFilter (choiceD_mem g _ _ 0 hc2)
    split
    · exact hdeg
    · exact degLe4_addEdge_guard _ _ _ hdeg ha2 hb2
        (fun he => hdisj _ ha1 (he ▸ hb1))

theorem getD_mem_of_lt (pcl : List MGCluster) (i : Nat) (hi : i < pcl.length) :
    pcl.getD i dfltCluster ∈ pcl := by
  rw [List.getD_eq_getElem _ _ hi]
  exact List.getElem_mem hi

theorem bridgePhase_degLe4 (g : Nat → Nat) (pcl ncl : List MGCluster)
    (G : Graph) (c : Nat)
    (hcross : ∀ nc ∈ ncl, ∀ pc ∈ pcl, ∀ x ∈ nc.systemIds, x ∉ pc.systemIds)
    (hdeg : DegLe4 G) : DegLe4 (bridgePhase g pcl ncl G c).1.1 := by
  unfold bridgePhase
  refine foldl_invariant
    (fun acc : (Graph × Nat) × List (Nat × (Nat × Nat)) => DegLe4 acc.1.1)
    _ ncl.enum ((G, c), []) hdeg (fun acc p hp hacc => ?_)
  simp only []
  have hnc : p.2 ∈ ncl := mem_of_mem_enum hp
  have hd : ∀ j, ∀ x ∈ p.2.systemIds,
      x ∉ (pcl.getD j dfltCluster).systemIds := by
    intro j x hx
    by_cases hj : j < pcl.length
    · exact hcross p.2 hnc _ (getD_mem_of_lt pcl j hj) x hx
    · rw [List.getD_eq_default _ _ (by omega)]
      exact List.not_mem_nil x
  exact bridgeTo_degLe4 g _ _ _ (hd _)
    (bridgeTo_degLe4 g _ _ _ (hd _) hacc)

theorem fwSpokes_degLe4 (g : Nat → Nat) : ∀ (cls : List MGCluster)
    (st : Graph × Nat), (∀ cl ∈ cls, 0 ∉ cl.systemIds) → DegLe4 st.1 →
      DegLe4 (fwSpokes g cls st).1 := by
  intro cls
  induction cls with
  | nil => intro st _ h; exact h
  | cons cl rest ih =>
      intro st h0 hdeg
      unfold fwSpokes
      simp only []
      split
      · exact hdeg
      · rename_i hlt
        split
        · exact ih st (fun c hc => h0 c (List.mem_cons_of_mem cl hc)) hdeg
        · rename_i hne
          have hcne : cl.systemIds.filter (fun s => decide (st.1.degree s < 4)) ≠ [] := by
            intro hnil
            rw [hnil] at hne
            exact hne rfl
          obtain ⟨ht1, ht2⟩ := mem_degFilter (choiceD_mem g st.2 _ 0 hcne)
          refine ih _ (fun c hc => h0 c (List.mem_cons_of_mem cl hc)) ?_
          refine degLe4_addEdge_guard _ _ _ hdeg (by omega) ht2 (fun he => ?_)
          exact h0 cl (List.mem_cons_self cl rest) (he ▸ ht1)

theorem forceFw_degLe4 (g : Nat → Nat) (st : Graph × Nat)
    (hdeg : DegLe4 st.1) : DegLe4 (forceFw g st).1 := by
  unfold forceFw
  split
  · rename_i hz
    simp only []
    split
    · exact hdeg
    · rename_i hne
      have hcne : st.1.nodes.filter
          (fun n => decide (n ≠ 0) && decide (st.1.degree n < 4)) ≠ [] := by
        intro hnil
        rw [hnil] at hne
        exact hne rfl
      have hmem := choiceD_mem g st.2 _ 0 hcne
      obtain ⟨h1, h2⟩ := List.mem_filter.mp hmem
      rw [Bool.and_eq_true] at h2
      have hne0 : (choiceD g st.2 (st.1.nodes.filter
          (fun n => decide (n ≠ 0) && decide (st.1.degree n < 4))) 0).1 ≠ 0 := by
        simpa using h2.1
      have hd4 : st.1.degree (choiceD g st.2 (st.1.nodes.filter
          (fun n => decide (n ≠ 0) && decide (st.1.degree n < 4))) 0).1 < 4 := by
        simpa using h2.2
      exact degLe4_addEdge_guard _ _ _ hdeg (by omega) hd4 (fun he => hne0 he.symm)
  · exact hdeg

theorem repairLoop_flag_mono (g : Nat → Nat) : ∀ (fuel : Nat) (G : Graph)
    (c : Nat), (repairLoop g fuel G c true).2.2 = true := by
  intro fuel
  induction fuel with
  | zero => intro G c; rfl
  | succ fuel ih =>
      intro G c
      unfold repairLoop
      cases hc : componentsList G with
      | nil => rfl
      | cons ca rest =>
          cases rest with
          | nil => rfl
          | cons cb rest2 =>
              simp only []
              split
              · exact ih _ _
              · exact ih _ _

theorem repairLoop_degLe4 (g : Nat → Nat) : ∀ (fuel : Nat) (G : Graph)
    (c : Nat) (fb : Bool), G.WF → DegLe4 G →
      (repairLoop g fuel G c fb).2.2 = false →
      DegLe4 (repairLoop g fuel G c fb).1 := by
  intro fuel
  induction fuel with
  | zero => intro G c fb _ hdeg _; exact hdeg
  | succ fuel ih =>
      intro G c fb hwf hdeg hflag
      unfold repairLoop at hflag ⊢
      cases hc : componentsList G with
      | nil => exact hdeg
      | cons ca rest =>
          cases rest with
          | nil => exact hdeg
          | cons cb rest2 =>
              rw [hc] at hflag
              simp only [] at hflag ⊢
              split at hflag
              · rename_i hcond
                rw [if_pos hcond]
                rw [Bool.and_eq_true] at hcond
                have hcaNe : ca.filter (fun n => decide (G.degree n < 4)) ≠ [] := by
                  intro hnil
                  rw [hnil] at hcond
                  simp at hcond
                have hcbNe : cb.filter (fun n => decide (G.degree n < 4)) ≠ [] := by
                  intro hnil
                  rw [hnil] at hcond
                  simp at hcond
                obtain ⟨ha1, ha2⟩ := mem_degFilter (choiceD_mem g c _ 0 hcaNe)
                obtain ⟨hb1, hb2⟩ := mem_degFilter (choiceD_mem g
                  (choiceD g c (ca.filter (fun n => decide (G.degree n < 4))) 0).2 _ 0 hcbNe)
                obtain ⟨_, _, hnr⟩ := comps_two_nonreach G hwf hc ha1 hb1
                have hne : (choiceD g c (ca.filter (fun n => decide (G.degree n < 4))) 0).1 ≠
                    (choiceD g (choiceD g c (ca.filter (fun n => decide (G.degree n < 4))) 0).2
                      (cb.filter (fun n => decide (G.degree n < 4))) 0).1 := by
                  intro he
                  rw [he] at hnr
                  exact hnr Relation.ReflTransGen.refl
                exact ih _ _ _ (wf_addEdge _ _ _ hwf)
                  (degLe4_addEdge_guard _ _ _ hdeg ha2 hb2 hne) hflag
              · rename_i hcond
                rw [if_neg hcond]
                rw [repairLoop_flag_mono g fuel _ _] at hflag
                cases hflag

/- ====================================================================
Map-generator lemmas: degrees through `_ensure_safe_paths`.
==================================================================== -/

theorem mem_safeReachList (G : Graph) (safe : List Nat) (a b : Nat) :
    b ∈ safeReachList G safe a ↔ b ∈ G.nodes ∧
      b ∈ reachSet (safeEdges G safe)
        ((G.nodes.filter (fun n => decide (n ∈ safe))).toFinset) a
        G.nodes.length := by
  unfold safeReachList
  simp only []
  rw [List.mem_filter]
  constructor
  · rintro ⟨h1, h2⟩
    exact ⟨h1, by simpa using h2⟩
  · rintro ⟨h1, h2⟩
    exact ⟨h1, by simpa using h2⟩

theorem safe_comp_disjoint (G : Graph) (safe : List Nat) (a : Nat)
    (hwf : G.WF) (ha : a ∈ G.nodes) (hsafe : a ∈ safe) (h0 : 0 ∈ G.nodes)
    (hno : 0 ∉ safeReachList G safe a) (x : Nat)
    (hx : x ∈ safeReachList G safe a) (h0x : x ∈ safeReachList G safe 0) :
    False := by
  obtain ⟨hx1, hx2⟩ := (mem_safeReachList G safe a x).mp hx
  obtain ⟨h01, h02⟩ := (mem_safeReachList G safe 0 x).mp h0x
  have hr1 : Reach (safeEdges G safe) a x := reachSet_sound _ _ _ _ _ hx2
  have hr2 : Reach (safeEdges G safe) 0 x := reachSet_sound _ _ _ _ _ h02
  have hr : Reach (safeEdges G safe) a 0 := hr1.trans (reach_symm hr2)
  apply hno
  refine (mem_safeReachList G safe a 0).mpr ⟨h0, ?_⟩
  refine reachSet_complete _ _ _ _ _ ?_ ?_ ?_ hr
  · exact List.mem_toFinset.mpr (List.mem_filter.mpr ⟨ha, by simpa using hsafe⟩)
  · intro e he
    obtain ⟨heG, hcond⟩ := List.mem_filter.mp he
    rw [Bool.and_eq_true] at hcond
    exact ⟨List.mem_toFinset.mpr (List.mem_filter.mpr ⟨(hwf e heG).1, hcond.1⟩),
      List.mem_toFinset.mpr (List.mem_filter.mpr ⟨(hwf e heG).2, hcond.2⟩)⟩
  · calc ((G.nodes.filter (fun n => decide (n ∈ safe))).toFinset).card
        ≤ (G.nodes.filter (fun n => decide (n ∈ safe))).length :=
          List.toFinset_card_le _
      _ ≤ G.nodes.length := List.length_filter_le _ _

theorem safeBridge_degLe4 (G : Graph) (safe : List Nat) (home : Nat)
    (fb : Bool) (hwf : G.WF) (hdeg : DegLe4 G) (hsafe : home ∈ safe)
    (hnode : home ∈ G.nodes) (h0 : 0 ∈ G.nodes)
    (hflag : (safeBridge G safe home fb).2 = false) :
    DegLe4 (safeBridge G safe home fb).1 := by
  unfold safeBridge at hflag ⊢
  simp only [] at hflag ⊢
  by_cases hpr : 0 ∈ safeReachList G safe home
  · rw [if_pos hpr]
    exact hdeg
  · rw [if_neg hpr] at hflag ⊢
    split
    · rename_i q hq
      obtain ⟨hq1, hq2, hφ⟩ := mem_pairList (argminBy_mem _ _ q hq)
      rw [Bool.and_eq_true, Bool.and_eq_true] at hφ
      obtain ⟨⟨hd1, hd2⟩, _⟩ := hφ
      refine degLe4_addEdge_guard _ _ _ hdeg (by simpa using hd1)
        (by simpa using hd2) (fun he => ?_)
      exact safe_comp_disjoint G safe home hwf hnode hsafe h0 hpr q.1 hq1 (he ▸ hq2)
    · rename_i hargm
      rw [hargm] at hflag
      simp only [] at hflag
      split
      · rename_i q hq
        rw [hq] at hflag
        simp only [] at hflag
        cases hflag
      · exact hdeg

theorem safeBridge_wf (G : Graph) (safe : List Nat) (home : Nat) (fb : Bool)
    (hwf : G.WF) : (safeBridge G safe home fb).1.WF := by
  unfold safeBridge
  simp only []
  split
  · exact hwf
  · split
    · exact wf_addEdge _ _ _ hwf
    · split
      · exact wf_addEdge _ _ _ hwf
      · exact hwf

theorem safeBridge_flag_mono (G : Graph) (safe : List Nat) (home : Nat)
    (h : (safeBridge G safe home true).2 = false) : False := by
  unfold safeBridge at h
  simp only [] at h
  split at h
  · cases h
  · split at h
    · cases h
    · split at h
      · cases h
      · cases h

theorem playerHomes_safe (clusters : List MGCluster)
    (hok : ∀ cl ∈ clusters, cl.isHomeCluster = true → cl.playerIndex.isSome = true)
    (ph : Nat × Nat) (hph : ph ∈ playerHomes clusters) :
    ph.2 ∈ safeNodesFor clusters ph.1 := by
  unfold playerHomes at hph
  obtain ⟨cl, hcl, heq⟩ := List.mem_filterMap.mp hph
  by_cases hh : cl.isHomeCluster = true
  · rw [if_pos hh] at heq
    cases hhead : cl.systemIds.head? with
    | none => rw [hhead] at heq; cases heq
    | some h2 =>
        rw [hhead] at heq
        have hph2 : ph = (cl.playerIndex.getD 0, h2) := by
          have := heq
          simpa using this.symm
        subst hph2
        obtain ⟨k, hk⟩ := Option.isSome_iff_exists.mp (hok cl hcl hh)
        unfold safeNodesFor
        refine List.mem_cons_of_mem 0
          (List.mem_flatten.mpr ⟨cl.systemIds, ?_, head?_mem hhead⟩)
        refine List.mem_map.mpr ⟨cl, hcl, ?_⟩
        have hcond : (!cl.isHomeCluster ||
            cl.playerIndex == some (cl.playerIndex.getD 0)) = true := by
          rw [hk]
          simp
        rw [if_pos hcond]
  · rw [if_neg hh] at heq
    cases heq

theorem safeFold_flag_mono (clusters : List MGCluster) :
    ∀ (l : List (Nat × Nat)) (st : Graph × Bool), st.2 = true →
      (l.foldl (safePathOne clusters) st).2 = true := by
  intro l
  induction l with
  | nil => intro st h; exact h
  | cons q rest ih =>
      intro st h
      rw [List.foldl_cons]
      apply ih
      show (safeBridge st.1 (safeNodesFor clusters q.1) q.2 st.2).2 = true
      rw [h]
      cases hx : (safeBridge st.1 (safeNodesFor clusters q.1) q.2 true).2 with
      | false => exact (safeBridge_flag_mono _ _ _ hx).elim
      | true => rfl

theorem ensureSafePaths_degLe4 (clusters : List MGCluster) :
    ∀ (phs : List (Nat × Nat)) (G : Graph) (fb : Bool),
      G.WF → DegLe4 G → 0 ∈ G.nodes →
      (∀ ph ∈ phs, ph.2 ∈ safeNodesFor clusters ph.1) →
      (∀ ph ∈ phs, ph.2 ∈ G.nodes) →
      (phs.foldl (safePathOne clusters) (G, fb)).2 = false →
      DegLe4 (phs.foldl (safePathOne clusters) (G, fb)).1 := by
  intro phs
  induction phs with
  | nil => intro G fb _ hdeg _ _ _ _; exact hdeg
  | cons ph rest ih =>
      intro G fb hwf hdeg h0 hsafeAll hnodeAll hflag
      rw [List.foldl_cons] at hflag ⊢
      have hflag1 : (safePathOne clusters (G, fb) ph).2 = false := by
        cases hx : (safePathOne clusters (G, fb) ph).2 with
        | false => rfl
        | true =>
            rw [safeFold_flag_mono clusters rest _ hx] at hflag
            cases hflag
      have hdeg1 : DegLe4 (safePathOne clusters (G, fb) ph).1 :=
        safeBridge_degLe4 G (safeNodesFor clusters ph.1) ph.2 fb hwf hdeg
          (hsafeAll ph (List.mem_cons_self ph rest))
          (hnodeAll ph (List.mem_cons_self ph rest)) h0 hflag1
      have hwf1 : (safePathOne clusters (G, fb) ph).1.WF :=
        safeBridge_wf G _ ph.2 fb hwf
      have h01 : 0 ∈ (safePathOne clusters (G, fb) ph).1.nodes :=
        safePathOne_mem clusters (G, fb) ph 0 h0
      have hrest : ∀ q ∈ rest, q.2 ∈ (safePathOne clusters (G, fb) ph).1.nodes :=
        fun q hq => safePathOne_mem clusters (G, fb) ph q.2
          (hnodeAll q (List.mem_cons_of_mem ph hq))
      exact ih (safePathOne clusters (G, fb) ph).1
        (safePathOne clusters (G, fb) ph).2 hwf1 hdeg1 h01
        (fun q hq => hsafeAll q (List.mem_cons_of_mem ph hq)) hrest hflag

/- ====================================================================
Map-generator lemmas: structure of the distributed clusters.
==================================================================== -/

theorem reserveIds_const_spec (k : Nat) : ∀ (cs : List MGCluster) (n : Nat),
    (∀ cl ∈ cs, cl.systemIds = []) →
    n ≤ (reserveIds (fun _ => k) cs n).2 ∧
    (∀ cl2 ∈ (reserveIds (fun _ => k) cs n).1,
      cl2.systemIds.Nodup ∧ cl2.systemIds.length = k ∧
      ∀ x ∈ cl2.systemIds, n ≤ x ∧ x < (reserveIds (fun _ => k) cs n).2) ∧
    List.Pairwise (fun c1 c2 => ∀ x ∈ c1.systemIds, x ∉ c2.systemIds)
      (reserveIds (fun _ => k) cs n).1 ∧
    (reserveIds (fun _ => k) cs n).1.map
      (fun cl => (cl.isHomeCluster, cl.playerIndex)) =
      cs.map (fun cl => (cl.isHomeCluster, cl.playerIndex)) := by
  intro cs
  induction cs with
  | nil =>
      intro n _
      exact ⟨Nat.le_refl n, fun cl2 hcl2 => absurd hcl2 (List.not_mem_nil cl2),
        List.Pairwise.nil, rfl⟩
  | cons cl rest ih =>
      intro n hempty
      obtain ⟨hle, helem, hpw, hmap⟩ :=
        ih (n + k) (fun c hc => hempty c (List.mem_cons_of_mem cl hc))
      have hclsids : cl.systemIds = [] := hempty cl (List.mem_cons_self cl rest)
      unfold reserveIds
      simp only []
      rw [hclsids]
      simp only [List.nil_append]
      refine ⟨by omega, ?_, ?_, ?_⟩
      · intro cl2 hcl2
        rcases List.mem_cons.mp hcl2 with rfl | hcl2m
        · refine ⟨?_, ?_, ?_⟩
          · simp only []
            exact (List.nodup_range k).map (fun a b hab => by omega)
          · simp
          · intro x hx
            obtain ⟨j, hj, rfl⟩ := List.mem_map.mp hx
            have := List.mem_range.mp hj
            omega
        · obtain ⟨h1, h2, h3⟩ := helem cl2 hcl2m
          exact ⟨h1, h2, fun x hx => by
            have := h3 x hx
            omega⟩
      · rw [List.pairwise_cons]
        refine ⟨?_, hpw⟩
        intro cl2 hcl2 x hx hxmem
        obtain ⟨j, hj, rfl⟩ := List.mem_map.mp hx
        have hjr := List.mem_range.mp hj
        obtain ⟨_, _, h3⟩ := helem cl2 hcl2
        have := (h3 _ hxmem).1
        omega
      · simp only [List.map_cons]
        rw [hmap]

theorem appendIdAt_inv : ∀ (cs : List MGCluster) (idx nid : Nat), 1 ≤ nid →
    (∀ cl ∈ cs, cl.systemIds.Nodup ∧ ∀ x ∈ cl.systemIds, 1 ≤ x ∧ x < nid) →
    List.Pairwise (fun c1 c2 => ∀ x ∈ c1.systemIds, x ∉ c2.systemIds) cs →
    (∀ cl ∈ appendIdAt cs idx nid, cl.systemIds.Nodup ∧
      ∀ x ∈ cl.systemIds, 1 ≤ x ∧ x < nid + 1) ∧
    List.Pairwise (fun c1 c2 => ∀ x ∈ c1.systemIds, x ∉ c2.systemIds)
      (appendIdAt cs idx nid) ∧
    (appendIdAt cs idx nid).map (fun cl => (cl.isHomeCluster, cl.playerIndex)) =
      cs.map (fun cl => (cl.isHomeCluster, cl.playerIndex)) ∧
    (∀ cl ∈ appendIdAt cs idx nid, ∃ cl0 ∈ cs,
      cl.isHomeCluster = cl0.isHomeCluster ∧ cl.playerIndex = cl0.playerIndex ∧
      ∃ tail, cl.systemIds = cl0.systemIds ++ tail ∧ ∀ y ∈ tail, y = nid) := by
  intro cs
  induction cs with
  | nil =>
      intro idx nid _ _ _
      refine ⟨fun cl hcl => absurd hcl (List.not_mem_nil cl), ?_, ?_,
        fun cl hcl => absurd hcl (List.not_mem_nil cl)⟩
      · cases idx <;> exact List.Pairwise.nil
      · cases idx <;> rfl
  | cons cl rest ih =>
      intro idx nid hnid hbnd hpw
      have hclb := hbnd cl (List.mem_cons_self cl rest)
      have hpwrest := (List.pairwise_cons.mp hpw).2
      have hrel := (List.pairwise_cons.mp hpw).1
      cases idx with
      | zero =>
          simp only [appendIdAt]
          refine ⟨?_, ?_, ?_, ?_⟩
          · intro cl2 hcl2
            rcases List.mem_cons.mp hcl2 with rfl | hcl2m
            · constructor
              · simp only []
                rw [List.nodup_append]
                refine ⟨hclb.1, List.nodup_singleton nid, ?_⟩
                intro x hx
                have := (hclb.2 x hx).2
                simp only [List.mem_singleton]
                omega
              · intro x hx
                simp only [] at hx
                rcases List.mem_append.mp hx with hx | hx
                · have := hclb.2 x hx
                  omega
                · have : x = nid := by simpa using hx
                  omega
            · obtain ⟨h1, h2⟩ := hbnd cl2 (List.mem_cons_of_mem cl hcl2m)
              exact ⟨h1, fun x hx => by have := h2 x hx; omega⟩
          · rw [List.pairwise_cons]
            refine ⟨?_, hpwrest⟩
            intro cl2 hcl2 x hx hxmem
            simp only [] at hx
            rcases List.mem_append.mp hx with hx | hx
            · exact hrel cl2 hcl2 x hx hxmem
            · have hxe : x = nid := by simpa using hx
              subst hxe
              obtain ⟨_, h2⟩ := hbnd cl2 (List.mem_cons_of_mem cl hcl2)
              have := (h2 x hxmem).2
              omega
          · simp
          · intro cl2 hcl2
            rcases List.mem_cons.mp hcl2 with rfl | hcl2m
            · exact ⟨cl, List.mem_cons_self cl rest, rfl, rfl, [nid], rfl,
                fun y hy => by simpa using hy⟩
            · exact ⟨cl2, List.mem_cons_of_mem cl hcl2m, rfl, rfl, [],
                (List.append_nil _).symm, fun y hy => absurd hy (List.not_mem_nil y)⟩
      | succ idx =>
          obtain ⟨ha, hb, hc, hd⟩ := ih idx nid hnid
            (fun c hc2 => hbnd c (List.mem_cons_of_mem cl hc2)) hpwrest
          simp only [appendIdAt]
          refine ⟨?_, ?_, ?_, ?_⟩
          · intro cl2 hcl2
            rcases List.mem_cons.mp hcl2 with rfl | hcl2m
            · exact ⟨hclb.1, fun x hx => by have := hclb.2 x hx; omega⟩
            · exact ha cl2 hcl2m
          · rw [List.pairwise_cons]
            refine ⟨?_, hb⟩
            intro cl2 hcl2 x hx hxmem
            obtain ⟨cl0, hcl0, _, _, tail, htail, htnid⟩ := hd cl2 hcl2
            rw [htail] at hxmem
            rcases List.mem_append.mp hxmem with hxm | hxm
            · exact hrel cl0 hcl0 x hx hxm
            · have hxn := htnid x hxm
              have := (hclb.2 x hx).2
              omega
          · simp only [List.map_cons]
            rw [hc]
          · intro cl2 hcl2
            rcases List.mem_cons.mp hcl2 with rfl | hcl2m
            · exact ⟨cl2, List.mem_cons_self cl2 rest, rfl, rfl, [],
                (List.append_nil _).symm, fun y hy => absurd hy (List.not_mem_nil y)⟩
            · obtain ⟨cl0, hcl0, he1, he2, tail, htail, htnid⟩ := hd cl2 hcl2m
              exact ⟨cl0, List.mem_cons_of_mem cl hcl0, he1, he2, tail, htail, htnid⟩

theorem map_eq_exists {α β : Type} (f : α → β) :
    ∀ (l1 l2 : List α), l1.map f = l2.map f →
      ∀ x ∈ l1, ∃ y ∈ l2, f x = f y := by
  intro l1 l2 h x hx
  have hmem : f x ∈ l2.map f := by
    rw [← h]
    exact List.mem_map_of_mem f hx
  obtain ⟨y, hy, he⟩ := List.mem_map.mp hmem
  exact ⟨y, hy, he.symm⟩

theorem distributeExtras_inv (g : Nat → Nat) : ∀ (m : Nat) (cs : List MGCluster)
    (nid c : Nat), 1 ≤ nid →
    (∀ cl ∈ cs, cl.systemIds.Nodup ∧ ∀ x ∈ cl.systemIds, 1 ≤ x ∧ x < nid) →
    List.Pairwise (fun c1 c2 => ∀ x ∈ c1.systemIds, x ∉ c2.systemIds) cs →
    (∀ cl ∈ (distributeExtras g m cs nid c).1, cl.systemIds.Nodup ∧
      ∀ x ∈ cl.systemIds, 1 ≤ x) ∧
    List.Pairwise (fun c1 c2 => ∀ x ∈ c1.systemIds, x ∉ c2.systemIds)
      (distributeExtras g m cs nid c).1 ∧
    (distributeExtras g m cs nid c).1.map
      (fun cl => (cl.isHomeCluster, cl.playerIndex)) =
      cs.map (fun cl => (cl.isHomeCluster, cl.playerIndex)) ∧
    (∀ cl ∈ (distributeExtras g m cs nid c).1, ∃ cl0 ∈ cs,
      cl.isHomeCluster = cl0.isHomeCluster ∧ cl.playerIndex = cl0.playerIndex ∧
      ∃ tail, cl.systemIds = cl0.systemIds ++ tail) := by
  intro m
  induction m with
  | zero =>
      intro cs nid c _ hbnd hpw
      refine ⟨fun cl hcl => ⟨(hbnd cl hcl).1, fun x hx => ((hbnd cl hcl).2 x hx).1⟩,
        hpw, rfl, fun cl hcl => ⟨cl, hcl, rfl, rfl, [], (List.append_nil _).symm⟩⟩
  | succ m ih =>
      intro cs nid c hnid hbnd hpw
      unfold distributeExtras
      simp only []
      obtain ⟨ha, hb, hc, hd⟩ :=
        appendIdAt_inv cs (g c % cs.length) nid hnid hbnd hpw
      obtain ⟨ia, ib, ic, id2⟩ := ih (appendIdAt cs (g c % cs.length) nid)
        (nid + 1) (c + 1) (by omega) ha hb
      refine ⟨ia, ib, ic.trans hc, fun cl hcl => ?_⟩
      obtain ⟨cl1, hcl1, he1, he2, t1, ht1⟩ := id2 cl hcl
      obtain ⟨cl0, hcl0, hf1, hf2, t0, ht0, _⟩ := hd cl1 hcl1
      exact ⟨cl0, hcl0, he1.trans hf1, he2.trans hf2, t0 ++ t1, by
        rw [ht1, ht0, List.append_assoc]⟩

theorem buildClusters_spec (numPlayers : Nat) (g : Nat → Nat) (c : Nat) :
    (∀ cl ∈ (buildClusters numPlayers g c).1, cl.systemIds = [] ∧
      (cl.isHomeCluster = true → cl.playerIndex.isSome = true)) ∧
    ((buildClusters numPlayers g c).1.filter
      (fun cl => cl.isHomeCluster)).length = numPlayers := by
  unfold buildClusters
  simp only []
  constructor
  · intro cl hcl
    rcases List.mem_append.mp hcl with h | h
    · obtain ⟨i, _, rfl⟩ := List.mem_map.mp h
      exact ⟨rfl, fun _ => rfl⟩
    · obtain ⟨i, _, rfl⟩ := List.mem_map.mp h
      exact ⟨rfl, fun hh => by cases hh⟩
  · rw [List.filter_append]
    have h1 : ((List.range numPlayers).map
        (fun i => MGCluster.mk i true (some (i + 1)) [] none)).filter
        (fun cl => cl.isHomeCluster) =
        (List.range numPlayers).map
          (fun i => MGCluster.mk i true (some (i + 1)) [] none) := by
      apply List.filter_eq_self.mpr
      intro cl hcl
      obtain ⟨i, _, rfl⟩ := List.mem_map.mp hcl
      rfl
    have h2 : ((List.range (max 1 (randintD g c 1
        (max 1 (numPlayers / 2 + 1))).1)).map
        (fun i => MGCluster.mk (numPlayers + i) false none [] none)).filter
        (fun cl => cl.isHomeCluster) = [] := by
      apply List.filter_eq_nil_iff.mpr
      intro cl hcl
      obtain ⟨i, _, rfl⟩ := List.mem_map.mp hcl
      simp
    rw [h1, h2]
    simp

theorem filter_isHome_length_eq (l1 l2 : List MGCluster)
    (h : l1.map (fun cl => (cl.isHomeCluster, cl.playerIndex)) =
      l2.map (fun cl => (cl.isHomeCluster, cl.playerIndex))) :
    (l1.filter (fun cl => cl.isHomeCluster)).length =
      (l2.filter (fun cl => cl.isHomeCluster)).length := by
  rw [← List.countP_eq_length_filter, ← List.countP_eq_length_filter]
  have e1 : l1.countP (fun cl => cl.isHomeCluster) =
      (l1.map (fun cl => (cl.isHomeCluster, cl.playerIndex))).countP
        (fun pr => pr.1) := by
    rw [List.countP_map]
    rfl
  have e2 : l2.countP (fun cl => cl.isHomeCluster) =
      (l2.map (fun cl => (cl.isHomeCluster, cl.playerIndex))).countP
        (fun pr => pr.1) := by
    rw [List.countP_map]
    rfl
  rw [e1, e2, h]

theorem distributeSystems_ok (numSystems : Nat) (bcs : List MGCluster)
    (g : Nat → Nat) (c : Nat)
    (hempty : ∀ cl ∈ bcs, cl.systemIds = [])
    (hhome : ∀ cl ∈ bcs, cl.isHomeCluster = true → cl.playerIndex.isSome = true) :
    ClustersOk (distributeSystems numSystems bcs g c).1 ∧
    ((distributeSystems numSystems bcs g c).1.filter
      (fun cl => cl.isHomeCluster)).length =
      (bcs.filter (fun cl => cl.isHomeCluster)).length ∧
    (∀ cl ∈ (distributeSystems numSystems bcs g c).1,
      cl.isHomeCluster = true → cl.systemIds ≠ []) := by
  have hpe : ∀ cl ∈ bcs.filter (fun cl => cl.isHomeCluster), cl.systemIds = [] :=
    fun cl hcl => hempty cl (List.mem_of_mem_filter hcl)
  have hnee : ∀ cl ∈ bcs.filter (fun cl => !cl.isHomeCluster), cl.systemIds = [] :=
    fun cl hcl => hempty cl (List.mem_of_mem_filter hcl)
  obtain ⟨hp1, hp2, hp3, hp4⟩ := reserveIds_const_spec 3
    (bcs.filter (fun cl => cl.isHomeCluster)) 1 hpe
  obtain ⟨hn1, hn2, hn3, hn4⟩ := reserveIds_const_spec 1
    (bcs.filter (fun cl => !cl.isHomeCluster))
    (reserveIds (fun _ => 3) (bcs.filter (fun cl => cl.isHomeCluster)) 1).2 hnee
  have hbase_bnd : ∀ cl ∈
      (reserveIds (fun _ => 3) (bcs.filter (fun cl => cl.isHomeCluster)) 1).1 ++
      (reserveIds (fun _ => 1) (bcs.filter (fun cl => !cl.isHomeCluster))
        (reserveIds (fun _ => 3) (bcs.filter (fun cl => cl.isHomeCluster)) 1).2).1,
      cl.systemIds.Nodup ∧ ∀ x ∈ cl.systemIds, 1 ≤ x ∧ x <
        (reserveIds (fun _ => 1) (bcs.filter (fun cl => !cl.isHomeCluster))
          (reserveIds (fun _ => 3) (bcs.filter (fun cl => cl.isHomeCluster)) 1).2).2 := by
    intro cl hcl
    rcases List.mem_append.mp hcl with h | h
    · obtain ⟨h1, _, h3⟩ := hp2 cl h
      exact ⟨h1, fun x hx => by have := h3 x hx; omega⟩
    · obtain ⟨h1, _, h3⟩ := hn2 cl h
      exact ⟨h1, fun x hx => by have := h3 x hx; omega⟩
  have hbase_pw : List.Pairwise (fun c1 c2 => ∀ x ∈ c1.systemIds, x ∉ c2.systemIds)
      ((reserveIds (fun _ => 3) (bcs.filter (fun cl => cl.isHomeCluster)) 1).1 ++
      (reserveIds (fun _ => 1) (bcs.filter (fun cl => !cl.isHomeCluster))
        (reserveIds (fun _ => 3) (bcs.filter (fun cl => cl.isHomeCluster)) 1).2).1) := by
    rw [List.pairwise_append]
    refine ⟨hp3, hn3, ?_⟩
    intro c1 h1 c2 h2 x hx hx2
    obtain ⟨_, _, hb1⟩ := hp2 c1 h1
    obtain ⟨_, _, hb2⟩ := hn2 c2 h2
    have i1 := (hb1 x hx).2
    have i2 := (hb2 x hx2).1
    omega
  have hall := fun m c2 => distributeExtras_inv g m
    ((reserveIds (fun _ => 3) (bcs.filter (fun cl => cl.isHomeCluster)) 1).1 ++
      (reserveIds (fun _ => 1) (bcs.filter (fun cl => !cl.isHomeCluster))
        (reserveIds (fun _ => 3) (bcs.filter (fun cl => cl.isHomeCluster)) 1).2).1)
    (reserveIds (fun _ => 1) (bcs.filter (fun cl => !cl.isHomeCluster))
      (reserveIds (fun _ => 3) (bcs.filter (fun cl => cl.isHomeCluster)) 1).2).2
    c2 (by omega) hbase_bnd hbase_pw
  unfold distributeSystems
  simp only []
  obtain ⟨ea, eb, ec, ed⟩ := hall _ c
  have hmemBase : ∀ cl0 ∈
      (reserveIds (fun _ => 3) (bcs.filter (fun cl => cl.isHomeCluster)) 1).1 ++
      (reserveIds (fun _ => 1) (bcs.filter (fun cl => !cl.isHomeCluster))
        (reserveIds (fun _ => 3) (bcs.filter (fun cl => cl.isHomeCluster)) 1).2).1,
      cl0.isHomeCluster = true →
        cl0.playerIndex.isSome = true ∧ 3 ≤ cl0.systemIds.length := by
    intro cl0 hcl0 hhome0
    rcases List.mem_append.mp hcl0 with h | h
    · obtain ⟨y, hy, hfy⟩ := map_eq_exists _ _ _ hp4 cl0 h
      rw [Prod.mk.injEq] at hfy
      have hyhome : y.isHomeCluster = true := hfy.1 ▸ hhome0
      have hsome := hhome y (List.mem_of_mem_filter hy) hyhome
      obtain ⟨_, hlen, _⟩ := hp2 cl0 h
      exact ⟨hfy.2 ▸ hsome, by omega⟩
    · obtain ⟨y, hy, hfy⟩ := map_eq_exists _ _ _ hn4 cl0 h
      rw [Prod.mk.injEq] at hfy
      have := (List.mem_filter.mp hy).2
      rw [← hfy.1] at this
      rw [hhome0] at this
      cases this
  refine ⟨⟨?_, eb⟩, ?_, ?_⟩
  · intro cl hcl
    obtain ⟨hnd, hpos⟩ := ea cl hcl
    refine ⟨hnd, ?_, ?_⟩
    · intro h0
      have := hpos 0 h0
      omega
    · intro hh
      obtain ⟨cl0, hcl0, he1, he2, _, _⟩ := ed cl hcl
      rw [he2]
      exact (hmemBase cl0 hcl0 (he1 ▸ hh)).1
  · rw [filter_isHome_length_eq _ _ ec]
    rw [List.filter_append]
    have hrp_all : (reserveIds (fun _ => 3)
        (bcs.filter (fun cl => cl.isHomeCluster)) 1).1.filter
        (fun cl => cl.isHomeCluster) =
        (reserveIds (fun _ => 3) (bcs.filter (fun cl => cl.isHomeCluster)) 1).1 := by
      apply List.filter_eq_self.mpr
      intro cl hcl
      obtain ⟨y, hy, hfy⟩ := map_eq_exists _ _ _ hp4 cl hcl
      rw [Prod.mk.injEq] at hfy
      rw [hfy.1]
      exact (List.mem_filter.mp hy).2
    have hrn_none : (reserveIds (fun _ => 1)
        (bcs.filter (fun cl => !cl.isHomeCluster))
        (reserveIds (fun _ => 3) (bcs.filter (fun cl => cl.isHomeCluster)) 1).2).1.filter
        (fun cl => cl.isHomeCluster) = [] := by
      apply List.filter_eq_nil_iff.mpr
      intro cl hcl
      obtain ⟨y, hy, hfy⟩ := map_eq_exists _ _ _ hn4 cl hcl
      rw [Prod.mk.injEq] at hfy
      have := (List.mem_filter.mp hy).2
      intro hcontra
      rw [← hfy.1] at this
      rw [hcontra] at this
      cases this
    rw [hrp_all, hrn_none]
    have hlenp : (reserveIds (fun _ => 3)
        (bcs.filter (fun cl => cl.isHomeCluster)) 1).1.length =
        (bcs.filter (fun cl => cl.isHomeCluster)).length := by
      have := congrArg List.length hp4
      simpa using this
    simp [hlenp]
  · intro cl hcl hh
    obtain ⟨cl0, hcl0, he1, he2, tail, htail⟩ := ed cl hcl
    have h3 := (hmemBase cl0 hcl0 (he1 ▸ hh)).2
    intro hnil
    have := congrArg List.length htail
    rw [hnil] at this
    simp at this
    omega

/- ====================================================================
Map-generator lemmas: assembling the degree bound for `_build_graph`.
==================================================================== -/

theorem disj_symm : Symmetric
    (fun c1 c2 : MGCluster => ∀ x ∈ c1.systemIds, x ∉ c2.systemIds) :=
  fun _ _ h x hx2 hx1 => h x hx1 hx2

theorem setBridge_fields (pairs : List (Nat × (Nat × Nat))) (cl : MGCluster) :
    (setBridge pairs cl).isHomeCluster = cl.isHomeCluster ∧
    (setBridge pairs cl).playerIndex = cl.playerIndex ∧
    (setBridge pairs cl).systemIds = cl.systemIds := by
  unfold setBridge
  split <;> exact ⟨rfl, rfl, rfl⟩

theorem buildGraph_clusters_spec (clusters : List MGCluster) (g : Nat → Nat)
    (c : Nat) : ∀ cl ∈ (buildGraph clusters g c).clusters, ∃ cl0 ∈ clusters,
      cl.isHomeCluster = cl0.isHomeCluster ∧ cl.playerIndex = cl0.playerIndex ∧
      cl.systemIds = cl0.systemIds := by
  unfold buildGraph
  simp only []
  intro cl hcl
  obtain ⟨cl0, hcl0, rfl⟩ := List.mem_map.mp hcl
  obtain ⟨h1, h2, h3⟩ := setBridge_fields _ cl0
  exact ⟨cl0, hcl0, h1, h2, h3⟩

theorem G0_mem_zero (clusters : List MGCluster) :
    0 ∈ (clusters.foldl (fun G cl => cl.systemIds.foldl Graph.addNode G)
      ((Graph.mk [] []).addNode 0)).nodes :=
  foldl_invariant (fun G => 0 ∈ G.nodes) _ clusters _
    (mem_addNode_self (Graph.mk [] []) 0)
    (fun G cl _ h => foldl_addNode_mem cl.systemIds G 0 h)

theorem G0_mem_sid (clusters : List MGCluster) (cl : MGCluster)
    (hcl : cl ∈ clusters) (s : Nat) (hs : s ∈ cl.systemIds) :
    s ∈ (clusters.foldl (fun G cl => cl.systemIds.foldl Graph.addNode G)
      ((Graph.mk [] []).addNode 0)).nodes := by
  obtain ⟨l1, l2, rfl⟩ := List.append_of_mem hcl
  rw [List.foldl_append, List.foldl_cons]
  refine foldl_invariant (fun G => s ∈ G.nodes) _ l2 _ ?_
    (fun G cl2 _ h => foldl_addNode_mem cl2.systemIds G s h)
  exact foldl_addNode_mem_self s cl.systemIds _ hs

theorem buildGraph_mem (clusters : List MGCluster) (g : Nat → Nat) (c : Nat)
    (m : Nat)
    (hm : m ∈ (clusters.foldl (fun G cl => cl.systemIds.foldl Graph.addNode G)
      ((Graph.mk [] []).addNode 0)).nodes) :
    m ∈ (buildGraph clusters g c).graph.nodes := by
  unfold buildGraph
  simp only []
  apply repairLoop_mem
  apply forceFw_mem
  apply fwSpokes_mem
  apply bridgePhase_mem
  apply ringPhase_mem
  exact foldl_invariant (fun st : Graph × Nat => m ∈ st.1.nodes) (intraCluster g)
    clusters _ hm (fun st cl _ hh => intraCluster_mem g st cl m hh)

theorem playerHomes_mem_sids (clusters : List MGCluster) (ph : Nat × Nat)
    (hph : ph ∈ playerHomes clusters) :
    ∃ cl ∈ clusters, cl.isHomeCluster = true ∧ ph.2 ∈ cl.systemIds := by
  unfold playerHomes at hph
  obtain ⟨cl, hcl, heq⟩ := List.mem_filterMap.mp hph
  by_cases hh : cl.isHomeCluster = true
  · rw [if_pos hh] at heq
    cases hhead : cl.systemIds.head? with
    | none => rw [hhead] at heq; cases heq
    | some h2 =>
        rw [hhead] at heq
        have hph2 : ph = (cl.playerIndex.getD 0, h2) := by
          have := heq
          simpa using this.symm
        subst hph2
        exact ⟨cl, hcl, hh, head?_mem hhead⟩
  · rw [if_neg hh] at heq
    cases heq

theorem buildGraph_degLe4 (clusters : List MGCluster) (g : Nat → Nat) (c : Nat)
    (hok : ClustersOk clusters)
    (hlen : 2 ≤ (clusters.filter (fun cl => cl.isHomeCluster)).length)
    (hfb : (buildGraph clusters g c).fallback = false) :
    DegLe4 (buildGraph clusters g c).graph := by
  obtain ⟨hok1, hok2⟩ := hok
  have hedges0 : (clusters.foldl
      (fun G cl => cl.systemIds.foldl Graph.addNode G)
      ((Graph.mk [] []).addNode 0)).edges = [] := by
    rw [foldl_proj_eq Graph.edges (fun G cl => cl.systemIds.foldl Graph.addNode G)
      clusters ((Graph.mk [] []).addNode 0)
      (fun G cl => foldl_addNode_edges cl.systemIds G)]
    rw [addNode_edges]
  have hG0wf : (clusters.foldl
      (fun G cl => cl.systemIds.foldl Graph.addNode G)
      ((Graph.mk [] []).addNode 0)).WF := by
    intro e he
    rw [hedges0] at he
    cases he
  have hdeg0 : DegLe4 (clusters.foldl
      (fun G cl => cl.systemIds.foldl Graph.addNode G)
      ((Graph.mk [] []).addNode 0)) := by
    intro n
    rw [degree_eq_degE, hedges0]
    show (0 : Nat) ≤ 4
    omega
  unfold buildGraph at hfb ⊢
  simp only [] at hfb ⊢
  refine repairLoop_degLe4 g _ _ _ _ ?_ ?_ hfb
  · apply forceFw_wf
    apply fwSpokes_wf
    apply bridgePhase_wf
    apply ringPhase_wf
    exact foldl_invariant (fun st : Graph × Nat => st.1.WF) (intraCluster g)
      clusters _ hG0wf (fun st cl _ hh => intraCluster_wf g st cl hh)
  · have hpermSh := shuffleD_perm g dfltCluster
      (clusters.filter (fun cl => cl.isHomeCluster)).length
      (clusters.filter (fun cl => cl.isHomeCluster))
      (clusters.foldl (intraCluster g)
        (clusters.foldl (fun G cl => cl.systemIds.foldl Graph.addNode G)
          ((Graph.mk [] []).addNode 0), c)).2 rfl
    have hpwFilter : List.Pairwise
        (fun c1 c2 => ∀ x ∈ c1.systemIds, x ∉ c2.systemIds)
        (clusters.filter (fun cl => cl.isHomeCluster)) :=
      List.Pairwise.sublist (List.filter_sublist clusters) hok2
    apply forceFw_degLe4
    refine fwSpokes_degLe4 g clusters _
      (fun cl hcl => (hok1 cl hcl).2.1) ?_
    refine bridgePhase_degLe4 g _ _ _ _ ?_ ?_
    · intro nc hnc pc hpc x hx hx2
      have hpcF : pc ∈ clusters.filter (fun cl => cl.isHomeCluster) :=
        hpermSh.subset hpc
      have hpermPN := List.filter_append_perm
        (fun cl : MGCluster => cl.isHomeCluster) clusters
      have hpwPN : List.Pairwise
          (fun c1 c2 => ∀ x ∈ c1.systemIds, x ∉ c2.systemIds)
          (clusters.filter (fun cl => cl.isHomeCluster) ++
            clusters.filter (fun cl => !cl.isHomeCluster)) :=
        (List.Perm.pairwise_iff (fun hrel => disj_symm hrel) hpermPN).mpr hok2
      have hcross := (List.pairwise_append.mp hpwPN).2.2
      exact hcross pc hpcF nc hnc x hx2 hx
    · refine ringPhase_degLe4 g _ _ _ ?_ ?_ ?_
      · rw [hpermSh.length_eq]
        exact hlen
      · exact (List.Perm.pairwise_iff (fun hrel => disj_symm hrel) hpermSh).mpr hpwFilter
      · exact intraFold_degLe4 g clusters _ [] 
          (fun e he => absurd (hedges0 ▸ he) (List.not_mem_nil e))
          hdeg0
          (fun cl hcl => ⟨(hok1 cl hcl).1, fun x _ => List.not_mem_nil x⟩)
          hok2

/-- The full graph pipeline of `generate_map` (build then safe paths):
connected always; degrees in [1,4] whenever no fallback fired. -/
theorem finalGraph_ok (cs : List MGCluster) (g : Nat → Nat) (c : Nat)
    (hok : ClustersOk cs)
    (hlen : 2 ≤ (cs.filter (fun cl => cl.isHomeCluster)).length)
    (hne : ∀ cl ∈ cs, cl.isHomeCluster = true → cl.systemIds ≠ []) :
    GraphConnected (ensureSafePaths (buildGraph cs g c).clusters
      (buildGraph cs g c).graph (buildGraph cs g c).fallback).1 ∧
    ((ensureSafePaths (buildGraph cs g c).clusters (buildGraph cs g c).graph
        (buildGraph cs g c).fallback).2 = false →
      ∀ n ∈ (ensureSafePaths (buildGraph cs g c).clusters
          (buildGraph cs g c).graph (buildGraph cs g c).fallback).1.nodes,
        1 ≤ (ensureSafePaths (buildGraph cs g c).clusters
            (buildGraph cs g c).graph (buildGraph cs g c).fallback).1.degree n ∧
          (ensureSafePaths (buildGraph cs g c).clusters
            (buildGraph cs g c).graph (buildGraph cs g c).fallback).1.degree n ≤ 4) := by
  obtain ⟨hconn, hwf⟩ := buildGraph_connected_wf cs g c
  have hconnF := ensureSafePaths_connected (buildGraph cs g c).clusters
    (buildGraph cs g c).graph (buildGraph cs g c).fallback hconn
  refine ⟨hconnF, ?_⟩
  intro hflag n hn
  have hbgfb : (buildGraph cs g c).fallback = false := by
    cases hx : (buildGraph cs g c).fallback with
    | false => rfl
    | true =>
        unfold ensureSafePaths at hflag
        rw [hx] at hflag
        rw [safeFold_flag_mono _ _ _ rfl] at hflag
        cases hflag
  have hdegBG : DegLe4 (buildGraph cs g c).graph :=
    buildGraph_degLe4 cs g c hok hlen hbgfb
  have h0bg : 0 ∈ (buildGraph cs g c).graph.nodes :=
    buildGraph_mem cs g c 0 (G0_mem_zero cs)
  have hhomes_safe : ∀ ph ∈ playerHomes (buildGraph cs g c).clusters,
      ph.2 ∈ safeNodesFor (buildGraph cs g c).clusters ph.1 := by
    intro ph hph
    refine playerHomes_safe _ ?_ ph hph
    intro cl hcl hh
    obtain ⟨cl0, hcl0, he1, he2, _⟩ := buildGraph_clusters_spec cs g c cl hcl
    rw [he2]
    exact (hok.1 cl0 hcl0).2.2 (he1 ▸ hh)
  have hhomes_node : ∀ ph ∈ playerHomes (buildGraph cs g c).clusters,
      ph.2 ∈ (buildGraph cs g c).graph.nodes := by
    intro ph hph
    obtain ⟨cl, hcl, _, hmem⟩ := playerHomes_mem_sids _ ph hph
    obtain ⟨cl0, hcl0, _, _, he3⟩ := buildGraph_clusters_spec cs g c cl hcl
    rw [he3] at hmem
    exact buildGraph_mem cs g c ph.2 (G0_mem_sid cs cl0 hcl0 ph.2 hmem)
  have hdegF : DegLe4 (ensureSafePaths (buildGraph cs g c).clusters
      (buildGraph cs g c).graph (buildGraph cs g c).fallback).1 := by
    unfold ensureSafePaths at hflag ⊢
    exact ensureSafePaths_degLe4 _ _ _ _ hwf hdegBG h0bg hhomes_safe
      hhomes_node hflag
  refine ⟨?_, hdegF n⟩
  -- every node has an incident edge: the graph has two distinct nodes
  have hfilterNe : cs.filter (fun cl => cl.isHomeCluster) ≠ [] := by
    intro h
    rw [h] at hlen
    simp at hlen
  obtain ⟨clh, hclh⟩ := List.exists_mem_of_ne_nil _ hfilterNe
  have hclhcs : clh ∈ cs := List.mem_of_mem_filter hclh
  have hclhhome : clh.isHomeCluster = true := by
    have := (List.mem_filter.mp hclh).2
    simpa using this
  have hsidsNe : clh.systemIds ≠ [] := hne clh hclhcs hclhhome
  obtain ⟨s, hs⟩ := List.exists_mem_of_ne_nil _ hsidsNe
  have hsF : s ∈ (ensureSafePaths (buildGraph cs g c).clusters
      (buildGraph cs g c).graph (buildGraph cs g c).fallback).1.nodes :=
    ensureSafePaths_mem _ _ _ s
      (buildGraph_mem cs g c s (G0_mem_sid cs clh hclhcs s hs))
  have hs0 : s ≠ 0 := by
    intro h
    exact (hok.1 clh hclhcs).2.1 (h ▸ hs)
  have h0F : 0 ∈ (ensureSafePaths (buildGraph cs g c).clusters
      (buildGraph cs g c).graph (buildGraph cs g c).fallback).1.nodes :=
    ensureSafePaths_mem _ _ _ 0 h0bg
  rw [degree_eq_degE]
  by_cases hn0 : n = 0
  · subst hn0
    exact degE_pos_of_reach_ne _ _ s (hconnF 0 hn s hsF) (fun h => hs0 h.symm)
  · exact degE_pos_of_reach_ne _ _ 0 (hconnF n hn 0 h0F) hn0

/-- The graph of `generateMapFromStream` for any draw stream and at
least two players: connected, and degree-bounded when no fallback. -/
theorem generateMapFromStream_graph_ok (layoutFn : LayoutFn)
    (numPlayers : Nat) (g : Nat → Nat) (h2 : 2 ≤ numPlayers) :
    GraphConnected (generateMapFromStream layoutFn numPlayers g).graph ∧
    ((generateMapFromStream layoutFn numPlayers g).fallback = false →
      ∀ n ∈ (generateMapFromStream layoutFn numPlayers g).graph.nodes,
        1 ≤ (generateMapFromStream layoutFn numPlayers g).graph.degree n ∧
          (generateMapFromStream layoutFn numPlayers g).graph.degree n ≤ 4) := by
  have hbc := buildClusters_spec numPlayers g
    (randintD g 0 (4 * numPlayers) (7 * numPlayers)).2
  obtain ⟨hds1, hds2, hds3⟩ := distributeSystems_ok
    ((randintD g 0 (4 * numPlayers) (7 * numPlayers)).1 + 1)
    (buildClusters numPlayers g
      (randintD g 0 (4 * numPlayers) (7 * numPlayers)).2).1
    g
    (buildClusters numPlayers g
      (randintD g 0 (4 * numPlayers) (7 * numPlayers)).2).2
    (fun cl hcl => (hbc.1 cl hcl).1) (fun cl hcl => (hbc.1 cl hcl).2)
  have hlen : 2 ≤ ((distributeSystems
      ((randintD g 0 (4 * numPlayers) (7 * numPlayers)).1 + 1)
      (buildClusters numPlayers g
        (randintD g 0 (4 * numPlayers) (7 * numPlayers)).2).1
      g
      (buildClusters numPlayers g
        (randintD g 0 (4 * numPlayers) (7 * numPlayers)).2).2).1.filter
      (fun cl => cl.isHomeCluster)).length := by
    rw [hds2, hbc.2]
    exact h2
  exact finalGraph_ok _ g _ hds1 hlen hds3

/-- C7: for every player count in [2,8] and every seed (over every
per-seed draw stream the PRNG could produce, and every layout), the
graph returned by `generate_map` is connected; and unless the
documented fallback fired (the connectivity-repair or safe-path-repair
step finding no under-degree candidates, recorded in `fallback`), every
node including Founder's World has degree between 1 and 4. -/
theorem c7_generated_graph_connected_degrees (prng : Nat → Nat → Nat)
    (layoutFn : LayoutFn) (numPlayers seed : Nat) (world : Nat → Nat)
    (h2 : 2 ≤ numPlayers) (h8 : numPlayers ≤ 8) :
    GraphConnected
      (generate_map prng layoutFn numPlayers (some seed) world).graph ∧
    ((generate_map prng layoutFn numPlayers (some seed) world).fallback = false →
      ∀ n ∈ (generate_map prng layoutFn numPlayers (some seed) world).graph.nodes,
        1 ≤ (generate_map prng layoutFn numPlayers
            (some seed) world).graph.degree n ∧
          (generate_map prng layoutFn numPlayers
            (some seed) world).graph.degree n ≤ 4) :=
  generateMapFromStream_graph_ok layoutFn numPlayers (prng seed) h2

/-- Witness for C7 at two players, seed 0, the zero PRNG and a trivial
layout. -/
theorem c7_generated_graph_connected_degrees_witness :
    ((2 : Nat) ≤ 2 ∧ (2 : Nat) ≤ 8) ∧
    (GraphConnected
      (generate_map (fun _ _ => 0) (fun _ _ _ _ _ => (0, 0)) 2
        (some 0) (fun _ => 0)).graph ∧
    ((generate_map (fun _ _ => 0) (fun _ _ _ _ _ => (0, 0)) 2
        (some 0) (fun _ => 0)).fallback = false →
      ∀ n ∈ (generate_map (fun _ _ => 0) (fun _ _ _ _ _ => (0, 0)) 2
          (some 0) (fun _ => 0)).graph.nodes,
        1 ≤ (generate_map (fun _ _ => 0) (fun _ _ _ _ _ => (0, 0)) 2
            (some 0) (fun _ => 0)).graph.degree n ∧
          (generate_map (fun _ _ => 0) (fun _ _ _ _ _ => (0, 0)) 2
            (some 0) (fun _ => 0)).graph.degree n ≤ 4)) :=
  ⟨⟨by decide, by decide⟩,
    c7_generated_graph_connected_degrees (fun _ _ => 0)
      (fun _ _ _ _ _ => (0, 0)) 2 0 (fun _ => 0) (by decide) (by decide)⟩

end SpaceGame
